import Mathlib

/-!
# Orchid capture engine: the Split demultiplexer, the Flow bridge and the NAT tables

A shallow embedding of `vpn-shared/source/capture.cpp`.

* `std::map` is an association list that is only ever read through `Map.find`,
  so the order of its entries plays no role;
* a `Beam` (an owned byte buffer) is a list of bytes, header fields are read and
  written at the byte offsets of the packed `openvpn::IPv4Header`,
  `openvpn::TCPHeader` and `openvpn::UDPHeader` overlays;
* every call into a collaborator (`Capture::Land`, `Origin::Connect`,
  `Origin::Unlid`, `Punch::Send`, `Spawn`) is recorded as an `Effect`, in program
  order; the outcome of a collaborator call is an input of the model;
* `orc_insist` terminates the process: the model returns `Result.aborted`.
-/

namespace Orchid

/-! ## Addressing tuples -/

/-- Socket: an IPv4 host (`uint32_t`) and a port (`uint16_t`). -/
structure Socket where
  host : Nat
  port : Nat
deriving DecidableEq, Repr

/-- Four: the (source, target) pair of sockets of one direction of a connection. -/
structure Four where
  source : Socket
  target : Socket
deriving DecidableEq, Repr

/-- The values a `Socket` can take in the program: a 32-bit host and a 16-bit port. -/
def Socket.Valid (s : Socket) : Prop := s.host < 4294967296 ∧ s.port < 65536

instance (s : Socket) : Decidable s.Valid := by
  unfold Socket.Valid; infer_instance

/-! ## `std::map` -/

/-- An association list standing for a `std::map`. -/
abbrev Map (κ ν : Type) := List (κ × ν)

namespace Map

variable {κ ν : Type} [DecidableEq κ]

/-- The value stored under a key (`map.find(k)`), `none` standing for `map.end()`. -/
def find : Map κ ν → κ → Option ν
  | [], _ => none
  | (a, b) :: rest, k => if a = k then some b else find rest k

/-- Removal of a key (`map.erase(it)`). -/
def erase : Map κ ν → κ → Map κ ν
  | [], _ => []
  | (a, b) :: rest, k => if a = k then erase rest k else (a, b) :: erase rest k

/-- Assignment through `map[k] = v`: the entry is created when absent and overwritten
otherwise. -/
def assign (m : Map κ ν) (k : κ) (v : ν) : Map κ ν := (k, v) :: erase m k

/-- Insertion through `map.emplace(k, v)`: nothing happens when the key is present. -/
def emplace (m : Map κ ν) (k : κ) (v : ν) : Map κ ν :=
  match find m k with
  | some _ => m
  | none => (k, v) :: m

end Map

/-! ## Byte buffers and header overlays -/

/-- Beam: an owned, contiguous byte buffer. -/
abbrev Beam := List Nat

/-- The byte at an offset. -/
def u8 (b : Beam) (i : Nat) : Nat := b.getD i 0 % 256

/-- A 16-bit field read with `boost::endian::big_to_native`. -/
def be16 (b : Beam) (i : Nat) : Nat := u8 b i * 256 + u8 b (i + 1)

/-- A 32-bit field read with `boost::endian::big_to_native`. -/
def be32 (b : Beam) (i : Nat) : Nat := be16 b i * 65536 + be16 b (i + 2)

/-- Store of one byte. -/
def put8 (b : Beam) (i v : Nat) : Beam := b.set i (v % 256)

/-- Store of a 16-bit field through `boost::endian::native_to_big`. -/
def putBe16 (b : Beam) (i v : Nat) : Beam := put8 (put8 b i (v / 256)) (i + 1) v

/-- Store of a 32-bit field through `boost::endian::native_to_big`. -/
def putBe32 (b : Beam) (i v : Nat) : Beam := putBe16 (putBe16 b i (v / 65536)) (i + 2) v

/-- Store of a 16-bit field in the byte order of the machine (little-endian on every
platform Orchid is built for). -/
def putNative16 (b : Beam) (i v : Nat) : Beam := put8 (put8 b i v) (i + 1) (v / 256)

/-- Protocol numbers of `openvpn::IPCommon`. -/
def IPCommon.ICMPv4 : Nat := 1

/-- Protocol number of TCP in `openvpn::IPCommon`. -/
def IPCommon.TCP : Nat := 6

/-- Protocol number of UDP in `openvpn::IPCommon`. -/
def IPCommon.UDP : Nat := 17

/-- The SYN bit of `openvpn::TCPHeader::flags`. -/
def TCPHeader.FLAG_SYN : Nat := 2

/-- Header length in bytes from the `version_len` byte: `(version_len & 0x0F) << 2`. -/
def IPv4Header.length (version_len : Nat) : Nat := (version_len &&& 15) <<< 2

/-- The `version_len` byte from a version and a header length: `((v & 0x0F) << 4) | (len >> 2)`. -/
def IPv4Header.ver_len (version len : Nat) : Nat := (((version &&& 15) <<< 4) ||| (len >>> 2)) % 256

/-- Size of the packed `openvpn::UDPHeader`. -/
def sizeofUDPHeader : Nat := 8

/-- The source socket a TCP or UDP packet carries: `(ip4.saddr, header.source)`. -/
def sourceOf (data : Beam) : Socket :=
  ⟨be32 data 12, be16 data (IPv4Header.length (u8 data 0))⟩

/-- The target socket a TCP or UDP packet carries: `(ip4.daddr, header.dest)`. -/
def targetOf (data : Beam) : Socket :=
  ⟨be32 data 16, be16 data (IPv4Header.length (u8 data 0) + 2)⟩

/-- The Four of a TCP packet, as `Split::Send` builds it. -/
def fourOf (data : Beam) : Four := ⟨sourceOf data, targetOf data⟩

/-- One's complement folding of a sum into 16 bits. -/
def fold16 (x : Nat) : Nat :=
  let y := x % 65536 + x / 65536
  (y % 65536 + y / 65536) % 65536

/-- Modelled from the spec: the incremental ("delta-update, not full recompute") fix-up
of a stored 16-bit checksum when a 16-bit word it covers changes from `old` to `new`;
`forge.hpp` is not among the sources. -/
def adjust16 (check old new : Nat) : Nat :=
  65535 - fold16 ((65535 - check % 65536) + (65535 - old % 65536) + new % 65536)

/-- The fix-up of a stored checksum for a 32-bit field that changes. -/
def adjust32 (check old new : Nat) : Nat :=
  adjust16 (adjust16 check (old / 65536) (new / 65536)) old new

/-- Modelled from the spec: `Forge(span, tcp, source, target)` of `forge.hpp`, which is not
among the sources. It "rewrites an IPv4+TCP header in place to reflect new source or
target sockets": it "sets saddr, daddr, source, dest to the requested values" and updates
the IPv4 header checksum and the TCP checksum incrementally. `length` is the offset of
the TCP header in the buffer. -/
def Forge (span : Beam) (length : Nat) (source target : Socket) : Beam :=
  let ip := adjust32 (adjust32 (be16 span 10) (be32 span 12) source.host)
    (be32 span 16) target.host
  let tcp := adjust16 (adjust16 (adjust32 (adjust32 (be16 span (length + 16))
    (be32 span 12) source.host) (be32 span 16) target.host)
    (be16 span length) source.port) (be16 span (length + 2)) target.port
  let b := putBe32 span 12 source.host
  let b := putBe32 b 16 target.host
  let b := putBe16 b 10 ip
  let b := putBe16 b length source.port
  let b := putBe16 b (length + 2) target.port
  putBe16 b (length + 16) tcp

/-- The three checksum routines of the openvpn3 library that `Split::Reset` calls; the
library is not part of the repository, so they are parameters of the model. -/
structure Checksums where
  /-- The function `openvpn::IPChecksum::checksum(data, size)`. -/
  checksum : Beam → Nat
  /-- The function `openvpn::udp_checksum(buf, len, src_addr, dest_addr)`. -/
  udp_checksum : Beam → Nat → Beam → Beam → Nat
  /-- The function `openvpn::tcp_adjust_checksum(acc, cksum)`, returning the new `cksum`. -/
  tcp_adjust_checksum : Int → Nat → Nat

/-- The buffer `Split::Reset` builds: a packed IPv4 header followed by a TCP header,
40 bytes, filled field by field in the order of the source. -/
def Reset (cs : Checksums) (source target : Socket) (sequence acknowledge : Nat) : Beam :=
  let b : Beam := List.replicate 40 0
  let b := put8 b 0 (IPv4Header.ver_len 4 20)
  let b := put8 b 1 0
  let b := putBe16 b 2 40
  let b := putNative16 b 4 0
  let b := putNative16 b 6 0
  let b := put8 b 8 64
  let b := put8 b 9 IPCommon.TCP
  let b := putNative16 b 10 0
  let b := putBe32 b 12 source.host
  let b := putBe32 b 16 target.host
  let b := putNative16 b 10 (cs.checksum (b.take 20))
  let b := putBe16 b 20 source.port
  let b := putBe16 b 22 target.port
  let b := putBe32 b 24 sequence
  let b := putBe32 b 28 acknowledge
  let b := put8 b 32 (20 <<< 2)
  let b := put8 b 33 (4 ||| 16)
  let b := putNative16 b 34 0
  let b := putNative16 b 36 0
  let b := putNative16 b 38 0
  let check := cs.udp_checksum (b.drop 20) 20 ((b.drop 12).take 4) ((b.drop 16).take 4)
  let check := cs.tcp_adjust_checksum ((IPCommon.UDP : Int) - (IPCommon.TCP : Int)) check
  putBe16 b 36 check

/-! ## Flow, Punch and the state of Split -/

/-- Flow: the record of one TCP session under NAT, reduced to the field the NAT tables
are about (`four_`); the streams `up_` and `down_` carry no table state. -/
structure Flow where
  four_ : Four
deriving DecidableEq, Repr

/-- Punch: the outbound datagram socket of one host source. `socket_` is the remembered
source, `opening` names the datagram opening that `Origin::Unlid` bound for it. -/
structure Punch where
  socket_ : Socket
  opening : Nat
deriving DecidableEq, Repr

/-- The fields of `Split`. A null `S<Flow>` or `U<Punch>` is `none`. -/
structure Split where
  local_ : Socket
  remote_ : Nat
  ephemerals_ : Map Four Socket
  ephemeral_ : Nat
  flows_ : Map Socket (Option Flow)
  udp_ : Map Socket (Option Punch)
deriving DecidableEq, Repr

/-- The state after `Split::Connect`, the acceptor being bound to `locl`:
`remote_ = local_.host + 1` in 32-bit arithmetic, empty tables, counter 0. -/
def Split.Connect (locl : Socket) : Split :=
  { local_ := locl, remote_ := (locl.host + 1) % 4294967296, ephemerals_ := [],
    ephemeral_ := 0, flows_ := [], udp_ := [] }

/-- The variables captured by the task that `Split::Send` spawns for a new SYN. -/
structure Connecting where
  beam : Beam
  flow : Flow
  four : Four
  socket : Socket
  length : Nat
deriving DecidableEq, Repr

/-- The calls `Split` makes into its collaborators. -/
inductive Effect where
  /-- The call `capture_->Land(data, analyze)`: a packet injected toward the host. -/
  | Land (data : Beam) (analyze : Bool)
  /-- The `Spawn` of the connecting task of a new SYN. -/
  | Spawn (task : Connecting)
  /-- The call `origin_->Connect(flow->up_, host, port)`. -/
  | Connect (flow : Flow) (host port : Nat)
  /-- The call `origin_->Unlid(sink)` for the Punch of a source. -/
  | Unlid (source : Socket)
  /-- The call `punch->Send(payload, target)`. -/
  | PunchSend (punch : Punch) (payload : Beam) (target : Socket)
deriving DecidableEq, Repr

/-- How a member function of `Split` ends. -/
inductive Result (α : Type) where
  /-- Normal return, with the state left behind and the calls made. -/
  | returned (split : Split) (value : α) (effects : List Effect)
  /-- An exception leaves the function. -/
  | threw (split : Split) (effects : List Effect)
  /-- An `orc_insist` failed: the process is terminated. -/
  | aborted
deriving DecidableEq, Repr

/-- The outcomes of the collaborator calls one `Send` of an Internal may await: the
opening `Origin::Unlid` binds (`none` when it throws) and whether the awaited `Send` of
the collaborator below (`Punch::Send`, or `Inner()->Send` of a Pass) returns. -/
structure Await where
  unlid : Option Nat
  sent : Bool
deriving DecidableEq, Repr

/-- The view `Subset::subset(offset, length)`, bounds-checked by assertions that throw. -/
def subset (b : Beam) (offset size : Nat) : Option Beam :=
  if offset ≤ b.length ∧ size ≤ b.length - offset then some ((b.drop offset).take size) else none

/-- The end of the UDP case of `Split::Send`: the payload is the `udp.len - 8` bytes at
offset `length + 8` (both computed in 16 bits), the target is `(ip4.daddr, udp.dest)`, and
`punch->Send(payload, target)` is called inside a `try` whose `catch (...)` only logs. When
the bounds assertion of `subset` throws, the call is not made. Whether the call returns or
throws, `Send` goes on to `co_return true`. -/
def punchSend (data : Beam) (punch : Punch) : List Effect :=
  let length := IPv4Header.length (u8 data 0)
  let offset := (length + sizeofUDPHeader) % 65536
  let size := (be16 data (length + 4) + 65536 - sizeofUDPHeader) % 65536
  let target := targetOf data
  match subset data offset size with
  | some payload => [.PunchSend punch payload target]
  | none => []

/-- `Split::Pull`: both insists, then both erasures. -/
def Split.Pull (s : Split) (four : Four) : Result Unit :=
  match s.ephemerals_.find four with
  | none => .aborted
  | some ephemeral =>
    match s.flows_.find ephemeral with
    | none => .aborted
    | some _ =>
      .returned { s with ephemerals_ := s.ephemerals_.erase four,
                         flows_ := s.flows_.erase ephemeral } () []

/-- `Split::Send`, one packet from the host. -/
def Split.Send (s : Split) (w : Await) (data : Beam) : Result Bool :=
  let length := IPv4Header.length (u8 data 0)
  let protocol := u8 data 9
  if protocol = IPCommon.TCP then
    let four := fourOf data
    if four.source = s.local_ then
      match s.flows_.find four.target with
      | none => .returned s false []
      | some none => .aborted
      | some (some flow) =>
        .returned s false
          [.Land (Forge data length flow.four_.target flow.four_.source) true]
    else if u8 data (length + 13) &&& TCPHeader.FLAG_SYN = 0 then
      match s.ephemerals_.find four with
      | none => .returned s false []
      | some ephemeral => .returned s true [.Land (Forge data length ephemeral s.local_) false]
    else if s.ephemerals_.find four = none then
      let ephemeral_ := (s.ephemeral_ + 1) % 65536
      let socket : Socket := ⟨s.remote_, ephemeral_⟩
      match s.flows_.find socket with
      | some (some _) => .aborted
      | _ =>
        .returned { s with ephemeral_ := ephemeral_,
                           flows_ := s.flows_.assign socket (some ⟨four⟩),
                           ephemerals_ := s.ephemerals_.emplace four socket } true
          [.Spawn ⟨data, ⟨four⟩, four, socket, length⟩]
    else .returned s true []
  else if protocol = IPCommon.UDP then
    let source := sourceOf data
    match s.udp_.find source with
    | some (some punch) => .returned s true (punchSend data punch)
    | _ =>
      match w.unlid with
      | none => .threw { s with udp_ := s.udp_.assign source none } [.Unlid source]
      | some opening =>
        let punch : Punch := ⟨source, opening⟩
        .returned { s with udp_ := s.udp_.assign source (some punch) } true
          (.Unlid source :: punchSend data punch)
  else if protocol = IPCommon.ICMPv4 then .returned s true []
  else .returned s false []

/-- The task spawned for a new SYN, run to its end: the upstream connect, then either
the forged SYN or the reset, `connected` telling whether `Origin::Connect` returned
(`true`) or threw (`false`). The task writes no field of `Split`. -/
def Split.Connected (s : Split) (cs : Checksums) (task : Connecting) (connected : Bool) :
    Result Unit :=
  .returned s ()
    (.Connect task.flow task.four.target.host task.four.target.port ::
      (if connected then
        [.Land (Forge task.beam task.length task.socket s.local_) false]
      else
        [.Land (Reset cs task.four.target task.four.source 0
          ((be32 task.beam (task.length + 4) + 1) % 4294967296)) true]))

/-! ## The Flow bridge -/

/-- What one `co_await input->Read(beam)` does: it copies bytes to the front of the beam
and returns their number (`writ`), or it throws. -/
inductive Reading where
  | writ (bytes : Beam)
  | error
deriving DecidableEq, Repr

/-- The calls one splice task makes on its output side and on the latch. -/
inductive Bridged where
  /-- The call `output->Send(beam.subset(0, writ))`. -/
  | Send (data : Beam)
  /-- The call `output->Shut()`. -/
  | Shut
  /-- The call `latch.count_down()`. -/
  | count_down
deriving DecidableEq, Repr

/-- The loop of `Flow::Splice` and what follows it. `input` lists what the successive
reads do (a read past the end of the list never completes, so the task stays suspended),
`output k` tells whether the `k`-th `Send` returns (`true`) or throws (`false`), `sends` is
the number of `Send` calls made so far. A read fills at most the size of the beam. -/
def Flow.Splice.loop (output : Nat → Bool) : Beam → List Reading → Nat → List Bridged
  | _, [], _ => []
  | _, .error :: _, _ => [.Shut, .count_down]
  | beam, .writ bytes :: rest, sends =>
    let read := bytes.take beam.length
    let beam := read ++ beam.drop read.length
    let writ := read.length
    if writ = 0 then [.Shut, .count_down]
    else
      .Send (beam.take writ) ::
        (if output sends then Flow.Splice.loop output beam rest (sends + 1)
         else [.Shut, .count_down])

/-- `Flow::Splice(input, output)`: the task with its 2048-byte beam. -/
def Flow.Splice (input : List Reading) (output : Nat → Bool) : List Bridged :=
  Flow.Splice.loop output (List.replicate 2048 0) input 0

/-- The bytes the output stream was sent, in order. -/
def Bridged.bytes : List Bridged → Beam
  | [] => []
  | .Send data :: rest => data ++ Bridged.bytes rest
  | _ :: rest => Bridged.bytes rest

/-- A read that ends the loop: end of stream (`writ == 0`) or an error. -/
def Reading.last : Reading → Bool
  | .writ [] => true
  | .writ _ => false
  | .error => true

/-! ## Sequences of calls -/

/-- One call into `Split`: a packet handed to `Send` together with the outcomes of the
collaborator calls it awaits, or a `Pull`. -/
inductive Call where
  | Send (w : Await) (data : Beam)
  | Pull (four : Four)
deriving DecidableEq, Repr

/-- One call: the state it leaves and the calls it made, `none` when an `orc_insist` ended
the process. An exception that leaves `Send` ends that call only. -/
def Split.step (s : Split) : Call → Option (Split × List Effect)
  | .Send w data =>
    match s.Send w data with
    | .returned t _ effects => some (t, effects)
    | .threw t effects => some (t, effects)
    | .aborted => none
  | .Pull four =>
    match s.Pull four with
    | .returned t _ effects => some (t, effects)
    | .threw t effects => some (t, effects)
    | .aborted => none

/-- A sequence of calls, one after another, with the calls they made in order. -/
def Split.run (s : Split) : List Call → Option (Split × List Effect)
  | [] => some (s, [])
  | c :: rest =>
    match s.step c with
    | none => none
    | some (t, effects) =>
      match t.run rest with
      | none => none
      | some (u, more) => some (u, effects ++ more)

/-- The NAT bijection between `ephemerals_` and `flows_`. -/
def Split.Bijection (s : Split) : Prop :=
  (∀ f e, s.ephemerals_.find f = some e → s.flows_.find e = some (some ⟨f⟩)) ∧
  (∀ e flow, s.flows_.find e = some (some flow) → s.ephemerals_.find flow.four_ = some e)

/-- A SYN from 10.0.0.5:50000 to 93.184.216.34:80, sequence number 1000. -/
def synA : Beam :=
  [69, 0, 0, 40, 0, 0, 0, 0, 64, 6, 0, 0, 10, 0, 0, 5, 93, 184, 216, 34,
   195, 80, 0, 80, 0, 0, 3, 232, 0, 0, 0, 0, 80, 2, 0, 0, 0, 0, 0, 0]

/-- A SYN from 10.0.0.5:50001 to 93.184.216.34:80, sequence number 2000. -/
def synB : Beam :=
  [69, 0, 0, 40, 0, 0, 0, 0, 64, 6, 0, 0, 10, 0, 0, 5, 93, 184, 216, 34,
   195, 81, 0, 80, 0, 0, 7, 208, 0, 0, 0, 0, 80, 2, 0, 0, 0, 0, 0, 0]

/-- The acceptor address used in the examples: 10.0.0.1:4000. -/
def localA : Socket := ⟨167772161, 4000⟩

/-- Outcomes of the awaited calls in which everything succeeds. -/
def fine : Await := ⟨some 0, true⟩

/-- A SYN from 10.0.0.5:50002 to 93.184.216.34:80, sequence number 3000. -/
def synC : Beam :=
  [69, 0, 0, 40, 0, 0, 0, 0, 64, 6, 0, 0, 10, 0, 0, 5, 93, 184, 216, 34,
   195, 82, 0, 80, 0, 0, 11, 184, 0, 0, 0, 0, 80, 2, 0, 0, 0, 0, 0, 0]

/-- An ACK segment of the flow of `synA`: 10.0.0.5:50000 to 93.184.216.34:80. -/
def ackA : Beam :=
  [69, 0, 0, 40, 0, 0, 0, 0, 64, 6, 0, 0, 10, 0, 0, 5, 93, 184, 216, 34,
   195, 80, 0, 80, 0, 0, 3, 233, 0, 0, 0, 9, 80, 16, 0, 0, 0, 0, 0, 0]

/-- The SYN|ACK the local acceptor answers on port 1: 10.0.0.1:4000 to 10.0.0.2:1. -/
def replyA : Beam :=
  [69, 0, 0, 40, 0, 0, 0, 0, 64, 6, 0, 0, 10, 0, 0, 1, 10, 0, 0, 2,
   15, 160, 0, 1, 0, 0, 0, 8, 0, 0, 3, 233, 80, 18, 0, 0, 0, 0, 0, 0]

/-- Checksum routines that return 0, for the examples in which no checksum is looked at. -/
def noChecksums : Checksums := ⟨fun _ => 0, fun _ _ _ _ => 0, fun _ check => check⟩

/-- The state a sequence of calls leaves, when no `orc_insist` fails. -/
def Split.after (s : Split) (calls : List Call) : Option Split :=
  (s.run calls).map Prod.fst

/-- A flow that is opened by `synB` and pulled again, `n` times over. -/
def churn : Nat → List Call
  | 0 => []
  | n + 1 => .Send fine synB :: .Pull (fourOf synB) :: churn n

/-- A run of 65536 SYNs: the flow of `synA` is opened and stays open while 65535 more
flows are opened and closed, which takes the 16-bit counter back to 0. -/
def wrapCalls : List Call := .Send fine synA :: churn 65535

/-- The state in which only the flow of `synA` is open, on port 1, the counter being `c`. -/
def held (c : Nat) : Split :=
  { local_ := localA, remote_ := 167772162,
    ephemerals_ := [(fourOf synA, ⟨167772162, 1⟩)], ephemeral_ := c,
    flows_ := [(⟨167772162, 1⟩, some ⟨fourOf synA⟩)], udp_ := [] }

/-- The states `Split` can be in between two calls: those a sequence of `Send` and `Pull`
calls leaves, starting from `Split::Connect` on some acceptor address. -/
def Split.Reachable (s : Split) : Prop :=
  ∃ locl calls, locl.Valid ∧ (Split.Connect locl).after calls = some s

/-- The sockets held by the state are values of their C++ types, and `flows_` holds no
null pointer. -/
def Split.Typed (s : Split) : Prop :=
  s.local_.Valid ∧ s.remote_ < 4294967296 ∧
  (∀ f e, s.ephemerals_.find f = some e → e.Valid ∧ f.source.Valid ∧ f.target.Valid) ∧
  (∀ e, s.flows_.find e ≠ some none)

/-- A packet that holds a full IPv4 header followed by a full TCP header. -/
def TCPPacket (data : Beam) : Prop :=
  u8 data 9 = IPCommon.TCP ∧ 20 ≤ IPv4Header.length (u8 data 0) ∧
    IPv4Header.length (u8 data 0) + 20 ≤ data.length

instance (data : Beam) : Decidable (TCPPacket data) := by
  unfold TCPPacket; infer_instance

/-- The source sockets of a sequence of packets, each packet coming with the outcomes of
the calls its `Send` awaits. -/
def sources (packets : List (Await × Beam)) : List Socket :=
  packets.map (fun p => sourceOf p.2)

/-- The packets of a sequence handed to `Send` one after another. -/
def sends (packets : List (Await × Beam)) : List Call :=
  packets.map (fun p => Call.Send p.1 p.2)

/-- The Punch table holds no null pointer, every Punch remembers the source it is stored
under, and no source has two entries. -/
def Split.Punched (s : Split) : Prop :=
  (∀ x, s.udp_.find x ≠ some none) ∧
  (∀ x punch, s.udp_.find x = some (some punch) → punch.socket_ = x) ∧
  (s.udp_.map Prod.fst).Nodup

/-- Two UDP datagrams from 10.0.0.5:55555, to 8.8.8.8:53 and to 1.1.1.1:53, with four and
two bytes of payload. -/
def dnsA : Beam :=
  [69, 0, 0, 32, 0, 0, 0, 0, 64, 17, 0, 0, 10, 0, 0, 5, 8, 8, 8, 8,
   217, 3, 0, 53, 0, 12, 0, 0, 1, 2, 3, 4]

/-- The datagram to 1.1.1.1:53. -/
def dnsB : Beam :=
  [69, 0, 0, 30, 0, 0, 0, 0, 64, 17, 0, 0, 10, 0, 0, 5, 1, 1, 1, 1,
   217, 3, 0, 53, 0, 10, 0, 0, 5, 6]

/-! ## The Analyzer: LoggerDatabase and Logger -/

/-- Five: the source and target sockets of a flow with its layer-4 protocol. -/
structure Five where
  protocol : Nat
  source : Socket
  target : Socket
deriving DecidableEq, Repr

/-- What SQLite holds in the column `"protocol" string` once a text was bound to it. The
declared type `string` is none of the type names of SQLite, so the column has NUMERIC
affinity: a text that is a well-formed integer literal within 64 bits is stored as that
integer, a text that is another well-formed numeric literal is stored as the number read
from it (`number` keeps the literal; the value is a double, or the integer it equals), and
any other text is stored as it is. -/
inductive Value where
  | integer (value : Int)
  | number (literal : String)
  | text (value : String)
deriving DecidableEq, Repr

/-- The white space of SQLite (`sqlite3Isspace`): the characters 9 to 13 and the blank. -/
def Value.space (c : Char) : Bool := decide (c.toNat = 32) || decide (9 ≤ c.toNat ∧ c.toNat ≤ 13)

/-- A decimal digit (`sqlite3Isdigit`). -/
def Value.digit (c : Char) : Bool := decide (48 ≤ c.toNat ∧ c.toNat ≤ 57)

/-- The number a run of decimal digits denotes. -/
def Value.decimal (digits : List Char) : Nat :=
  digits.foldl (fun n c => 10 * n + (c.toNat - 48)) 0

/-- The sign a literal starts with, and what follows it. -/
def Value.sign : List Char → Bool × List Char
  | '-' :: rest => (true, rest)
  | '+' :: rest => (false, rest)
  | z => (false, z)

/-- The fraction of a literal: the digits behind a decimal point, if there is one, and what
follows them. -/
def Value.fraction : List Char → Option (List Char) × List Char
  | '.' :: rest => (some (rest.takeWhile Value.digit), rest.dropWhile Value.digit)
  | z => (none, z)

/-- The exponent of a literal: the digits behind `e` or `E` and a sign, if there is one,
and what follows them. -/
def Value.exponent (z : List Char) : Option (List Char) × List Char :=
  match z with
  | [] => (none, z)
  | c :: rest =>
    if c = 'e' ∨ c = 'E' then
      (some ((Value.sign rest).2.takeWhile Value.digit),
        (Value.sign rest).2.dropWhile Value.digit)
    else (none, z)

/-- NUMERIC affinity applied to a bound text (`applyNumericAffinity` over `sqlite3AtoF`):
white space, a sign, digits, a fraction, an exponent and white space; the text is a numeric
literal when nothing else follows, the digits before and behind the point are not both
missing, and an exponent has digits. -/
def Value.numeric (text : String) : Value :=
  let z := Value.sign (text.toList.dropWhile Value.space)
  let whole := z.2.takeWhile Value.digit
  let f := Value.fraction (z.2.dropWhile Value.digit)
  let e := Value.exponent f.2
  if e.2.dropWhile Value.space ≠ [] ∨ (whole = [] ∧ f.1.getD [] = []) ∨ e.1 = some [] then
    .text text
  else if f.1 = none ∧ e.1 = none ∧ Value.decimal whole < 2 ^ 63 + (if z.1 then 1 else 0) then
    .integer (if z.1 then -(Value.decimal whole : Int) else Value.decimal whole)
  else .number text

/-- One row of the table `flow`. The column `start` holds the reading of
`julianday('now')`, a value the model takes from outside. The column `hostname` is declared
`text` and holds the text bound to it; the column `protocol` is declared `string`. -/
structure Row where
  id : Nat
  start : Nat
  layer4 : Nat
  src_addr : Nat
  src_port : Nat
  dst_addr : Nat
  dst_port : Nat
  protocol : Option Value
  hostname : Option String
deriving DecidableEq, Repr

/-- The table `flow`, `"id" integer primary key autoincrement`: its rows in insertion
order and the largest rowid ever given out, which SQLite keeps in `sqlite_sequence`. -/
structure Table where
  rows : List Row
  sequence : Nat
deriving DecidableEq, Repr

/-- The rowid an autoincrement table gives to a new row: one more than the largest rowid
that ever existed in the table. -/
def Table.next (t : Table) : Nat :=
  (t.rows.foldl (fun m r => max m r.id) t.sequence) + 1

/-- The statement `insert_`: a row with the five columns bound and `start` set to now;
`protocol` and `hostname` are left null. It returns the new rowid (`Last`). -/
def Table.insert (t : Table) (now layer4 src_addr src_port dst_addr dst_port : Nat) :
    Table × Nat :=
  ({ rows := t.rows ++ [⟨t.next, now, layer4, src_addr, src_port, dst_addr, dst_port,
      none, none⟩],
     sequence := t.next }, t.next)

/-- The statement `update_hostname_`: `update "flow" set "hostname" = ? where "id" = ?`. -/
def Table.update_hostname (t : Table) (hostname : String) (id : Nat) : Table :=
  { t with rows := t.rows.map (fun r => if r.id = id then { r with hostname := some hostname }
      else r) }

/-- The statement `update_protocol_`: `update "flow" set "protocol" = ? where "id" = ?`.
The text bound to the first parameter goes through the affinity of the column. -/
def Table.update_protocol (t : Table) (protocol : String) (id : Nat) : Table :=
  { t with rows := t.rows.map (fun r =>
      if r.id = id then { r with protocol := some (Value.numeric protocol) } else r) }

/-- The SQLite file as `LoggerDatabase` reads and writes it: the two header pragmas, the
journal mode, and the table `flow` when it exists. -/
structure Database where
  application_id : Int
  user_version : Int
  journal_mode : String
  flow : Option Table
deriving DecidableEq, Repr

/-- How the constructor of `LoggerDatabase` ends: with the database open, with a failed
`orc_assert`, or with the error of a statement; a failure inside the transaction leaves
the file as it was at `begin`. -/
inductive Opened where
  | opened (file : Database)
  | asserted (file : Database)
  | error (file : Database)
deriving DecidableEq, Repr

/-- The constructor `LoggerDatabase::LoggerDatabase`. The `switch` on `user_version` has no
`break` after `case 0`, which falls through to `case 1`. `create table` fails when the
table exists. -/
def LoggerDatabase (file : Database) : Opened :=
  if file.application_id ≠ 0 then .asserted file
  else
    let wal : Database := { file with journal_mode := "wal" }
    if wal.user_version = 0 then
      match wal.flow with
      | some _ => .error wal
      | none => .opened { wal with flow := some ⟨[], 0⟩, user_version := 1 }
    else if wal.user_version = 1 then .opened { wal with user_version := 1 }
    else .asserted wal

/-- The schema of the file is the one of its `user_version`: a file at version 0 holds no
table `flow` yet. -/
def Database.Versioned (file : Database) : Prop :=
  file.user_version = 0 → file.flow = none

instance (file : Database) : Decidable file.Versioned := by
  unfold Database.Versioned; infer_instance

/-- A file SQLite has just created: both pragmas 0, no table. -/
def freshFile : Database := ⟨0, 0, "delete", none⟩

/-- The fields of `Logger`: the table `flow` of `database_` and the three maps.
`asio::ip::address` keys are IPv4 addresses as 32-bit numbers. -/
structure Logger where
  database_ : Table
  dns_log_ : Map Nat String
  flow_to_row_ : Map Five Nat
  flow_to_protocol_chain_ : Map Five String
deriving DecidableEq, Repr

/-- The statements a member function of `Logger` executes. -/
inductive Sql where
  | insert (layer4 src_addr src_port dst_addr dst_port : Nat)
  | update_hostname (hostname : String) (id : Nat)
  | update_protocol (protocol : String) (id : Nat)
deriving DecidableEq, Repr

/-- How a member function of `Logger` ends: normally, with the statements it executed, or
with `orc_assert(false)`, before which nothing was written. -/
inductive Logged where
  | done (logger : Logger) (statements : List Sql)
  | asserted
deriving DecidableEq, Repr

/-- The statements a call executed. -/
def Logged.statements : Logged → List Sql
  | .done _ statements => statements
  | .asserted => []

/-- The decoded DNS answer record, as far as `get_DNS_answers` reads it:
`answers[i].generic.type` and `answers[i].a.address`. -/
structure dns_answer_t where
  type : Nat
  address : Nat
deriving DecidableEq, Repr

/-- The decoded DNS message: the names of the questions and the answers. -/
structure dns_query_t where
  questions : List String
  answers : List dns_answer_t
deriving DecidableEq, Repr

/-- The record type of an IPv4 address. -/
def RR_A : Nat := 1

/-- The function `boost::endian::native_to_big` on 32 bits, on a little-endian machine. -/
def native_to_big32 (x : Nat) : Nat :=
  x % 256 * 16777216 + x / 256 % 256 * 65536 + x / 65536 % 256 * 256 + x / 16777216 % 256

/-- The number of `:` in a protocol chain: `std::count(chain.begin(), chain.end(), ':')`. -/
def specificity (chain : String) : Nat := chain.toList.count ':'

/-- `Logger::get_DNS_answers`, `dns_decode` being the decoder of the DNS library (`none`
when its return code is not `RCODE_OKAY`). The name is the one of the first question
without its last character; the loop over the answers stops at the first `RR_A`. -/
def Logger.get_DNS_answers (dns_decode : Beam → Option dns_query_t) (l : Logger)
    (span : Beam) : Logger :=
  match dns_decode span with
  | none => l
  | some result =>
    let hostname : String :=
      match result.questions with
      | [] => ""
      | name :: _ => name.dropRight 1
    if hostname ≠ "" then
      match result.answers.find? (fun a => a.type = RR_A) with
      | some a => { l with dns_log_ := l.dns_log_.assign (native_to_big32 a.address) hostname }
      | none => l
    else l

/-- `Logger::AnalyzeIncoming`. -/
def Logger.AnalyzeIncoming (dns_decode : Beam → Option dns_query_t) (l : Logger)
    (span : Beam) : Logger :=
  if u8 span 9 = IPCommon.UDP then
    let length := IPv4Header.length (u8 span 0)
    if be16 span length = 53 then
      l.get_DNS_answers dns_decode (span.drop (length + sizeofUDPHeader))
    else l
  else l

/-- `Logger::AddFlow`, `now` being the reading of `julianday('now')`. -/
def Logger.AddFlow (l : Logger) (now : Nat) (five : Five) : Logged :=
  match l.flow_to_row_.find five with
  | some _ => .done l []
  | none =>
    let inserted := l.database_.insert now five.protocol five.source.host five.source.port
      five.target.host five.target.port
    let row_id := inserted.2
    let l1 : Logger := { l with database_ := inserted.1,
                                flow_to_row_ := l.flow_to_row_.emplace five row_id }
    let insert := Sql.insert five.protocol five.source.host five.source.port
      five.target.host five.target.port
    match l1.dns_log_.find five.target.host with
    | some hostname =>
      .done { l1 with database_ := l1.database_.update_hostname hostname row_id }
        [insert, .update_hostname hostname row_id]
    | none => .done l1 [insert]

/-- `Logger::GotHostname`. -/
def Logger.GotHostname (l : Logger) (five : Five) (hostname : String) : Logged :=
  match l.flow_to_row_.find five with
  | none => .asserted
  | some flow_row =>
    .done { l with database_ := l.database_.update_hostname hostname flow_row }
      [.update_hostname hostname flow_row]

/-- `Logger::GotProtocol`. -/
def Logger.GotProtocol (l : Logger) (five : Five) (protocol protocol_chain : String) :
    Logged :=
  match l.flow_to_row_.find five with
  | none => .asserted
  | some flow_row =>
    let write : Logged :=
      .done { l with
          flow_to_protocol_chain_ := l.flow_to_protocol_chain_.assign five protocol_chain,
          database_ := l.database_.update_protocol protocol flow_row }
        [.update_protocol protocol flow_row]
    match l.flow_to_protocol_chain_.find five with
    | some s =>
      if specificity protocol_chain < specificity s then .done l [] else write
    | none => write

/-- The Logger right after its construction on an opened database: empty maps. -/
def Logger.new (table : Table) : Logger :=
  { database_ := table, dns_log_ := [], flow_to_row_ := [], flow_to_protocol_chain_ := [] }

/-- One call into the Logger. -/
inductive Note where
  | AddFlow (now : Nat) (five : Five)
  | GotHostname (five : Five) (hostname : String)
  | GotProtocol (five : Five) (protocol protocol_chain : String)
  | AnalyzeIncoming (span : Beam)
deriving DecidableEq, Repr

/-- One call: its outcome. -/
def Logger.note (dns_decode : Beam → Option dns_query_t) (l : Logger) : Note → Logged
  | .AddFlow now five => l.AddFlow now five
  | .GotHostname five hostname => l.GotHostname five hostname
  | .GotProtocol five protocol chain => l.GotProtocol five protocol chain
  | .AnalyzeIncoming span => .done (l.AnalyzeIncoming dns_decode span) []

/-- The Logger after one call; a failed assertion leaves it as it was. -/
def Logger.next (dns_decode : Beam → Option dns_query_t) (l : Logger) (n : Note) : Logger :=
  match l.note dns_decode n with
  | .done m _ => m
  | .asserted => l

/-- The Logger after a sequence of calls. -/
def Logger.run (dns_decode : Beam → Option dns_query_t) (l : Logger) : List Note → Logger
  | [] => l
  | n :: rest => Logger.run dns_decode (l.next dns_decode n) rest

/-- The specificities written to the protocol column of the row of `five`, in order, by
a sequence of calls: one entry for each `GotProtocol` on `five` that executes
`update_protocol_`. -/
def Logger.written (dns_decode : Beam → Option dns_query_t) (five : Five) :
    Logger → List Note → List Nat
  | _, [] => []
  | l, n :: rest =>
    let more := Logger.written dns_decode five (l.next dns_decode n) rest
    match n with
    | .GotProtocol f protocol chain =>
      if f = five ∧ (l.GotProtocol f protocol chain).statements ≠ [] then
        specificity chain :: more
      else more
    | _ => more

/-- The specificity of the chain recorded for a five, when one is. -/
def Logger.recorded (l : Logger) (five : Five) : Option Nat :=
  (l.flow_to_protocol_chain_.find five).map specificity

/-- A TCP flow from 10.0.0.5:50000 to 10.0.0.7:443. -/
def fiveA : Five := ⟨6, ⟨167772165, 50000⟩, ⟨167772167, 443⟩⟩

/-- A TCP flow from 10.0.0.5:50001 to 10.0.0.8:443. -/
def fiveB : Five := ⟨6, ⟨167772165, 50001⟩, ⟨167772168, 443⟩⟩

/-- A decoder that knows no message. -/
def noDns : Beam → Option dns_query_t := fun _ => none

/-- A decoder that reads every message as the answer `foo.example. A 10.0.0.7`; the
address is the 32-bit number the four bytes 10, 0, 0, 7 make in memory on a little-endian
machine. -/
def dnsFoo : Beam → Option dns_query_t :=
  fun _ => some ⟨["foo.example."], [⟨RR_A, 117440522⟩]⟩

/-- A decoder that reads every message as the two answers `foo.example. A 10.0.0.7` and
`foo.example. A 10.0.0.8`. -/
def dnsTwo : Beam → Option dns_query_t :=
  fun _ => some ⟨["foo.example."], [⟨RR_A, 117440522⟩, ⟨RR_A, 134217738⟩]⟩

/-- Every five that `flow_to_row_` knows has exactly one row in the table. -/
def Logger.Journaled (l : Logger) : Prop :=
  ∀ f row, l.flow_to_row_.find f = some row →
    (l.database_.rows.filter (fun r => decide (r.id = row))).length = 1

/-! ## The server Node -/

/-- The fields of `Node` that `Find` reads and writes. A Client is named by the number of
Clients constructed before it; a weak handle `W<Client>` is the name of its Client, or
`none` for the empty handle that `clients_[fingerprint]` creates. -/
structure Node where
  clients_ : Map String (Option Nat)
  made : Nat
deriving DecidableEq, Repr

/-- `Node::Find`, under `mutex_`. `alive c` tells whether `lock()` on a weak handle to the
Client `c` yields a strong handle. The result is the Node, the Client returned, and
whether a Client was constructed. -/
def Node.Find (n : Node) (alive : Nat → Bool) (fingerprint : String) : Node × Nat × Bool :=
  let construct : Node × Nat × Bool :=
    ({ clients_ := n.clients_.assign fingerprint (some n.made), made := n.made + 1 },
      n.made, true)
  match n.clients_.find fingerprint with
  | some (some client) => if alive client then (n, client, false) else construct
  | _ => construct

/-- A sequence of `Find` calls, each with the liveness of the Clients at its time. -/
def Node.finds (n : Node) : List ((Nat → Bool) × String) → Node
  | [] => n
  | (alive, fingerprint) :: rest => Node.finds (n.Find alive fingerprint).1 rest

/-! ## The Capture facade -/

/-- The realisations of `Internal`: a Split with its state, or a Pass. -/
inductive Internal where
  | split (state : Split)
  | pass
deriving DecidableEq, Repr

/-- The calls `Capture::Land(buffer)` and the Internal it drives make. -/
inductive Landed where
  /-- A call made by `Split::Send`. -/
  | Split (effect : Effect)
  /-- The call `Inner()->Send(beam)` of `Pass::Send`. -/
  | Inner (data : Beam)
  /-- The call `analyzer_->Analyze(span)`. -/
  | Analyze (span : Beam)
deriving DecidableEq, Repr

/-- How `internal_->Send(data)` ends. -/
inductive Sent where
  | returned (internal : Internal) (value : Bool) (calls : List Landed)
  | threw (internal : Internal) (calls : List Landed)
  | aborted
deriving DecidableEq, Repr

/-- `Internal::Send`: `Split::Send`, or `Pass::Send`, which awaits `Inner()->Send(beam)`
(`w.sent` telling whether that returns) and returns true. -/
def Internal.Send (i : Internal) (w : Await) (data : Beam) : Sent :=
  match i with
  | .split s =>
    match s.Send w data with
    | .returned t value effects => .returned (.split t) value (effects.map .Split)
    | .threw t effects => .threw (.split t) (effects.map .Split)
    | .aborted => .aborted
  | .pass =>
    if w.sent then .returned .pass true [.Inner data] else .threw .pass [.Inner data]

/-- The field of `Capture` that `Land(buffer)` reads. -/
structure Capture where
  internal_ : Option Internal
deriving DecidableEq, Repr

/-- `Capture::Land(const Buffer &data)`: nothing without an Internal; otherwise the task
copies the buffer, awaits `internal_->Send(data)` and, when that returns true, calls
`analyzer_->Analyze(data.span())`. `none`: an `orc_insist` ended the process. -/
def Capture.Land (c : Capture) (w : Await) (data : Beam) : Option (Capture × List Landed) :=
  match c.internal_ with
  | none => some (c, [])
  | some internal =>
    match internal.Send w data with
    | .returned i value calls =>
      some (⟨some i⟩, if value then calls ++ [.Analyze data] else calls)
    | .threw i calls => some (⟨some i⟩, calls)
    | .aborted => none

/-- The packets `Split::Send` reports as consumed. -/
def Split.Consumes (s : Split) (w : Await) (data : Beam) : Prop :=
  u8 data 9 = IPCommon.ICMPv4 ∨
  (u8 data 9 = IPCommon.UDP ∧
    ((∃ punch, s.udp_.find (sourceOf data) = some (some punch)) ∨ w.unlid ≠ none)) ∨
  (u8 data 9 = IPCommon.TCP ∧ sourceOf data ≠ s.local_ ∧
    (u8 data (IPv4Header.length (u8 data 0) + 13) &&& TCPHeader.FLAG_SYN ≠ 0 ∨
      s.ephemerals_.find (fourOf data) ≠ none))

/-- A GRE packet (protocol 47) from 10.0.0.5 to 93.184.216.34. -/
def greA : Beam :=
  [69, 0, 0, 24, 0, 0, 0, 0, 64, 47, 0, 0, 10, 0, 0, 5, 93, 184, 216, 34, 0, 0, 8, 0]

/-- An ICMP echo request from 10.0.0.5 to 93.184.216.34. -/
def pingA : Beam :=
  [69, 0, 0, 28, 0, 0, 0, 0, 64, 1, 0, 0, 10, 0, 0, 5, 93, 184, 216, 34, 8, 0, 0, 0, 0, 1,
   0, 1]

/-- A packet that holds a full IPv4 header followed by a UDP datagram of the length its
header announces. -/
def UDPPacket (data : Beam) : Prop :=
  u8 data 9 = IPCommon.UDP ∧ 8 ≤ be16 data (IPv4Header.length (u8 data 0) + 4) ∧
    IPv4Header.length (u8 data 0) + be16 data (IPv4Header.length (u8 data 0) + 4) ≤ data.length

instance (data : Beam) : Decidable (UDPPacket data) := by
  unfold UDPPacket; infer_instance

/-- The state in which the Punch of 10.0.0.5:55555 is open and no flow is. -/
def punched : Split :=
  { Split.Connect localA with udp_ := [(⟨167772165, 55555⟩, some ⟨⟨167772165, 55555⟩, 0⟩)] }

/-! ## Flow::Open -/

/-- The three tasks of an opened Flow: the task `Open` spawns itself, which awaits the latch
and then calls `Pull`, and the tasks of `Splice(up_.get(), down_.get())` and of
`Splice(down_.get(), up_.get())`. -/
inductive Flow.Task where
  | waiter
  | up
  | down
deriving DecidableEq, Repr

/-- What the tasks of an opened Flow do, in the order in which it happens: a call of one of
the two splice tasks, or the call `plant_->Pull(four_)`. -/
inductive Flow.Event where
  | up (call : Bridged)
  | down (call : Bridged)
  | Pull (four : Four)
deriving DecidableEq, Repr

/-- The count the constructor of `Flow` gives its latch: `latch_(2)`. -/
def Flow.latch_ : Int := 2

/-- An opened Flow: the count of its latch (a `std::ptrdiff_t`), whether the task of `Open`
still stands before `plant_->Pull(four_)`, and the calls each splice task has still to
make. -/
structure Flow.Opened where
  four_ : Four
  latch_ : Int
  waiting : Bool
  up : List Bridged
  down : List Bridged
deriving DecidableEq, Repr

/-- What a stream of a Flow does when a splice task uses it: what the successive reads from
it do, and whether the `k`-th write to it returns or throws. -/
structure Stream where
  reads : List Reading
  sends : Nat → Bool

/-- `Flow::Open()` on a Flow as its constructor left it. It spawns the task that awaits the
latch, then `Splice(up_.get(), down_.get())` and `Splice(down_.get(), up_.get())`; no task
has made a call yet. -/
def Flow.Open (flow : Flow) (up_ down_ : Stream) : Flow.Opened :=
  ⟨flow.four_, Flow.latch_, true, Flow.Splice up_.reads down_.sends,
    Flow.Splice down_.reads up_.sends⟩

/-- The count of the latch after a call of a splice task: `count_down()` takes one off. -/
def Bridged.latch (call : Bridged) (count : Int) : Int :=
  if call = .count_down then count - 1 else count

/-- One turn of the cooperative scheduler. A splice task makes its next call, if it has
one. The task of `Open` passes `co_await latch_` once the count is zero or less, and calls
`Pull`; before that, and after it, its turn does nothing. -/
def Flow.Opened.step (r : Flow.Opened) : Flow.Task → Flow.Opened × List Flow.Event
  | .waiter =>
    if r.waiting = true ∧ r.latch_ ≤ 0 then ({ r with waiting := false }, [.Pull r.four_])
    else (r, [])
  | .up =>
    match r.up with
    | [] => (r, [])
    | call :: rest => ({ r with up := rest, latch_ := call.latch r.latch_ }, [.up call])
  | .down =>
    match r.down with
    | [] => (r, [])
    | call :: rest => ({ r with down := rest, latch_ := call.latch r.latch_ }, [.down call])

/-- What happens under a schedule, which names the task that runs at each turn. -/
def Flow.Opened.run (r : Flow.Opened) : List Flow.Task → List Flow.Event
  | [] => []
  | task :: schedule => (r.step task).2 ++ (r.step task).1.run schedule

/-- The call of the first splice task an event is, if it is one. -/
def Flow.Event.ofUp : Flow.Event → Option Bridged
  | .up call => some call
  | _ => none

/-- The call of the second splice task an event is, if it is one. -/
def Flow.Event.ofDown : Flow.Event → Option Bridged
  | .down call => some call
  | _ => none

/-! ## The checksum routines of openvpn3 -/

/-- The sum of the 16-bit words of a buffer, each read in network byte order; an odd last
byte is the high byte of a word. -/
def sumBe16 : Beam → Nat
  | a :: b :: rest => a % 256 * 256 + b % 256 + sumBe16 rest
  | [a] => a % 256 * 256
  | [] => 0

/-- The sum of the 16-bit words of a buffer, each read in the byte order of the machine. -/
def sumNative16 : Beam → Nat
  | a :: b :: rest => a % 256 + b % 256 * 256 + sumNative16 rest
  | [a] => a % 256
  | [] => 0

/-- Modelled from the spec: `openvpn::IPChecksum::checksum(data, size)` of the openvpn3
library, which is not among the sources. It is the routine that gives the "correct IP
checksum": the complement of the folded sum of the 16-bit words of the buffer, which it
reads as the machine does and returns for a store without byte swap. -/
def IPChecksum.checksum (data : Beam) : Nat := 65535 - fold16 (sumNative16 data)

/-- Modelled from the spec: `openvpn::udp_checksum(buf, len, src_addr, dest_addr)` of the
openvpn3 library, which is not among the sources: the checksum of a UDP datagram with its
pseudo-header (the two addresses, protocol 17 and the length), summed over words in network
byte order and returned as a number of the machine. -/
def udp_checksum (buf : Beam) (len : Nat) (src_addr dest_addr : Beam) : Nat :=
  65535 - fold16 (sumBe16 (buf.take len) + sumBe16 (src_addr.take 4) +
    sumBe16 (dest_addr.take 4) + IPCommon.UDP + len % 65536)

/-- Modelled from the spec: `openvpn::tcp_adjust_checksum(acc, cksum)` of the openvpn3
library, which is not among the sources: the "UDP−TCP adjustment", a delta correction that
adds the accumulated change `acc` to the stored checksum and folds the carries back in. -/
def tcp_adjust_checksum (acc : Int) (cksum : Nat) : Nat :=
  if acc + cksum < 0 then
    let sum := (-(acc + cksum)).toNat
    let sum := sum / 65536 + sum % 65536
    let sum := sum + sum / 65536
    65535 - sum % 65536
  else
    let sum := (acc + cksum).toNat
    let sum := sum / 65536 + sum % 65536
    let sum := sum + sum / 65536
    sum % 65536

/-- The checksum routines of the openvpn3 library. -/
def openvpn : Checksums := ⟨IPChecksum.checksum, udp_checksum, tcp_adjust_checksum⟩

/-- The IPv4 header checksum of a packet recomputed from scratch: the complement of the
one's complement sum of the ten words of its 20-byte header, the checksum field counting
as zero. -/
def IPv4Header.check (packet : Beam) : Nat :=
  65535 - fold16 (sumBe16 (putBe16 (packet.take 20) 10 0))

/-- The TCP checksum of a 40-byte packet recomputed from scratch: the complement of the
one's complement sum of the pseudo-header (source and destination address, protocol 6,
TCP length 20) and of the ten words of the TCP header, the checksum field counting as
zero. -/
def TCPHeader.check (packet : Beam) : Nat :=
  65535 - fold16 (sumBe16 ((packet.drop 12).take 8) + IPCommon.TCP + 20 +
    sumBe16 (putBe16 ((packet.drop 20).take 20) 16 0))

/-! ## The Chainlink median of tst-network -/

/-- Report: what a test of a provider found; the handler reads the provider's stakee and
its cost, which is absent when the test got no price. The type `Float` of the cost is
only compared, so it is any linearly ordered type `α`. -/
structure Report (α : Type) where
  stakee_ : String
  cost_ : Option α
deriving DecidableEq, Repr

/-- Stake: the amount staked on a stakee (the `url_` is not read by the handler). -/
structure Stake where
  amount_ : Nat
deriving DecidableEq, Repr

/-- State: the reports by provider name, in the order of iteration of the `std::map`, each
a `Maybe<Report>` that holds a report (`some`) or the exception of a failed test (`none`),
and the stake table. -/
structure State (α : Type) where
  providers_ : List (String × Option (Report α))
  stakes_ : Map String Stake

/-- `std::multimap<Float, uint256_t>`: the entries in the order of iteration, which is
ascending in the key. -/
abbrev Multimap (α : Type) := List (α × Nat)

/-- `multimap.emplace(key, value)`: the entry goes behind the entries whose key is not
greater. -/
def Multimap.emplace {α : Type} [LinearOrder α] : Multimap α → α → Nat → Multimap α
  | [], key, value => [(key, value)]
  | (k, v) :: rest, key, value =>
    if key < k then (key, value) :: (k, v) :: rest
    else (k, v) :: Multimap.emplace rest key value

/-- What the handler of `/chainlink/0` does: it responds with a cost, or it stops at
`orc_assert(stake != state->stakes_.end())`, or at the final `orc_assert(false)`. -/
inductive Chainlinked (α : Type) where
  | responded (cost : α)
  | no_stake
  | no_cost
deriving DecidableEq, Repr

/-- The first loop of the handler, over `state->providers_`: `total` and `providers` as it
leaves them, `none` when the assertion on the stake fails. `total` is a `uint256_t`. -/
def Chainlink.gather {α : Type} [LinearOrder α] (stakes_ : Map String Stake) :
    List (String × Option (Report α)) → Nat → Multimap α → Option (Nat × Multimap α)
  | [], total, providers => some (total, providers)
  | (_, none) :: rest, total, providers => Chainlink.gather stakes_ rest total providers
  | (_, some report) :: rest, total, providers =>
    match report.cost_ with
    | none => Chainlink.gather stakes_ rest total providers
    | some cost =>
      match stakes_.find report.stakee_ with
      | none => none
      | some stake =>
        Chainlink.gather stakes_ rest ((total + stake.amount_) % 2 ^ 256)
          (providers.emplace cost stake.amount_)

/-- The second loop of the handler, over `providers`: the cost it returns, `none` when it
falls through to `orc_assert(false)`. -/
def Chainlink.pick {α : Type} : Multimap α → Nat → Option α
  | [], _ => none
  | (cost, stake) :: rest, total =>
    if total ≤ stake then some cost else Chainlink.pick rest (total - stake)

/-- The handler of `/chainlink/0`. -/
def Chainlink.handler {α : Type} [LinearOrder α] (state : State α) : Chainlinked α :=
  match Chainlink.gather state.stakes_ state.providers_ 0 [] with
  | none => .no_stake
  | some (total, providers) =>
    match Chainlink.pick providers (total / 2) with
    | some cost => .responded cost
    | none => .no_cost

/-- The pair of a provider, when its report succeeded with a cost and its stakee is in the
stake table. -/
def Chainlink.pair {α : Type} (stakes_ : Map String Stake) :
    String × Option (Report α) → Option (α × Nat)
  | (_, some ⟨stakee, some cost⟩) => (stakes_.find stakee).map (fun stake => (cost, stake.amount_))
  | _ => none

/-- The pairs `P` of a state: the `(cost, stake)` pairs of all providers whose report
succeeded with a cost and whose stakee is in the stake table. -/
def Chainlink.P {α : Type} (state : State α) : List (α × Nat) :=
  state.providers_.filterMap (Chainlink.pair state.stakes_)

/-- The total stake of the pairs with cost at most `c`. -/
def Chainlink.weight {α : Type} [LinearOrder α] (pairs : List (α × Nat)) (c : α) : Nat :=
  ((pairs.filter (fun p => decide (p.1 ≤ c))).map Prod.snd).sum

/-- Whether the handler finds the stake it looks for at a provider: it looks for one when
the report succeeded with a cost. -/
def Chainlink.known {α : Type} (stakes_ : Map String Stake) : String × Option (Report α) → Bool
  | (_, some ⟨stakee, some _⟩) => (stakes_.find stakee).isSome
  | _ => true

/-- Every provider whose report succeeded with a cost has its stakee in the stake table. -/
def Chainlink.Staked {α : Type} (state : State α) : Prop :=
  ∀ p ∈ state.providers_, Chainlink.known state.stakes_ p = true

instance {α : Type} (state : State α) : Decidable (Chainlink.Staked state) := by
  unfold Chainlink.Staked; infer_instance

/-- Two providers with a cost; the stake table knows the stakee of the first only. -/
def unstaked : State Nat :=
  ⟨[("Bloq", some ⟨"x", some 5⟩), ("Tenta", some ⟨"y", some 7⟩)], [("x", ⟨10⟩)]⟩

/-- Four providers, one without cost and one whose test failed, all staked. -/
def staked : State Nat :=
  ⟨[("Bloq", some ⟨"x", some 7⟩), ("BolehVPN", some ⟨"y", some 5⟩),
    ("LiquidVPN", some ⟨"z", none⟩), ("Tenta", none), ("VPNSecure", some ⟨"z", some 9⟩)],
   [("x", ⟨10⟩), ("y", ⟨4⟩), ("z", ⟨6⟩)]⟩

/-! ## Lemmas on maps -/

namespace Map

variable {κ ν : Type} [DecidableEq κ]

theorem find_erase (m : Map κ ν) (k j : κ) :
    find (erase m k) j = if k = j then none else find m j := by
  induction m with
  | nil => simp [erase, find]
  | cons x rest ih =>
    obtain ⟨a, b⟩ := x
    by_cases hak : a = k
    · subst hak
      by_cases hkj : a = j
      · subst hkj
        simpa [erase] using ih
      · simpa [erase, find, hkj] using ih
    · by_cases haj : a = j
      · subst haj
        have hkj : ¬ k = a := fun h => hak h.symm
        simp [erase, find, hak, hkj]
      · simp [erase, find, hak, haj, ih]

theorem find_assign (m : Map κ ν) (k j : κ) (v : ν) :
    find (assign m k v) j = if k = j then some v else find m j := by
  by_cases h : k = j <;> simp [assign, find, find_erase, h]

theorem find_emplace (m : Map κ ν) (k j : κ) (v : ν) (h : find m k = none) :
    find (emplace m k v) j = if k = j then some v else find m j := by
  unfold emplace
  rw [h]
  by_cases hkj : k = j <;> simp [find, hkj]

theorem find_eq_none_iff (m : Map κ ν) (k : κ) :
    find m k = none ↔ k ∉ m.map Prod.fst := by
  induction m with
  | nil => simp [find]
  | cons x rest ih =>
    obtain ⟨a, b⟩ := x
    by_cases hak : a = k
    · simp [find, hak]
    · have hka : ¬ k = a := fun h => hak h.symm
      simp [find, hak, hka, ih]

theorem erase_of_find_none (m : Map κ ν) (k : κ) (h : find m k = none) : erase m k = m := by
  induction m with
  | nil => rfl
  | cons x rest ih =>
    obtain ⟨a, b⟩ := x
    by_cases hak : a = k
    · simp [find, hak] at h
    · simp only [find, hak, if_false] at h
      simp [erase, hak, ih h]

end Map

/-! ## Lemmas on header fields -/

theorem length_put8 (b : Beam) (i v : Nat) : (put8 b i v).length = b.length := by
  simp [put8]

theorem u8_put8 (b : Beam) (i v j : Nat) :
    u8 (put8 b i v) j = if i = j ∧ i < b.length then v % 256 else u8 b j := by
  unfold u8 put8
  by_cases hij : i = j
  · subst hij
    by_cases hlt : i < b.length
    · simp [List.getD_eq_getElem?_getD, List.getElem?_set, hlt]
    · simp [hlt, List.set_eq_of_length_le (Nat.le_of_not_lt hlt)]
  · simp [List.getD_eq_getElem?_getD, List.getElem?_set, hij]

theorem u8_lt (b : Beam) (i : Nat) : u8 b i < 256 := Nat.mod_lt _ (by decide)

theorem be16_lt (b : Beam) (i : Nat) : be16 b i < 65536 := by
  have h1 := u8_lt b i
  have h2 := u8_lt b (i + 1)
  unfold be16; omega

theorem be32_lt (b : Beam) (i : Nat) : be32 b i < 4294967296 := by
  have h1 := be16_lt b i
  have h2 := be16_lt b (i + 2)
  unfold be32; omega

theorem u8_replicate (n j : Nat) : u8 (List.replicate n 0) j = 0 := by
  unfold u8
  by_cases h : j < n
  · simp [List.getD_eq_getElem?_getD, List.getElem?_replicate, h]
  · simp [List.getD_eq_getElem?_getD, List.getElem?_replicate, h]

theorem length_putBe16 (b : Beam) (i v : Nat) : (putBe16 b i v).length = b.length := by
  simp [putBe16, length_put8]

theorem length_putBe32 (b : Beam) (i v : Nat) : (putBe32 b i v).length = b.length := by
  simp [putBe32, length_putBe16]

theorem u8_putBe16 (b : Beam) (i v j : Nat) (h : j < i ∨ i + 1 < j) :
    u8 (putBe16 b i v) j = u8 b j := by
  simp only [putBe16, u8_put8, length_put8]
  split_ifs <;> first | rfl | omega

theorem u8_putBe32 (b : Beam) (i v j : Nat) (h : j < i ∨ i + 3 < j) :
    u8 (putBe32 b i v) j = u8 b j := by
  simp only [putBe32]
  rw [u8_putBe16 _ _ _ _ (by omega), u8_putBe16 _ _ _ _ (by omega)]

theorem be16_putBe16_same (b : Beam) (i v : Nat) (h : i + 1 < b.length) :
    be16 (putBe16 b i v) i = v % 65536 := by
  simp only [be16, putBe16, u8_put8, length_put8]
  have h1 : i < b.length := by omega
  have h2 : ¬ (i + 1 = i) := by omega
  simp only [h, h1, h2, and_self, and_true, true_and, false_and, if_true, if_false]
  omega

theorem be16_putBe16 (b : Beam) (i v j : Nat) (h : j + 1 < i ∨ i + 1 < j) :
    be16 (putBe16 b i v) j = be16 b j := by
  simp only [be16]
  rw [u8_putBe16 _ _ _ _ (by omega), u8_putBe16 _ _ _ _ (by omega)]

theorem be16_putBe32 (b : Beam) (i v j : Nat) (h : j + 1 < i ∨ i + 3 < j) :
    be16 (putBe32 b i v) j = be16 b j := by
  simp only [be16]
  rw [u8_putBe32 _ _ _ _ (by omega), u8_putBe32 _ _ _ _ (by omega)]

theorem be32_putBe16 (b : Beam) (i v j : Nat) (h : j + 3 < i ∨ i + 1 < j) :
    be32 (putBe16 b i v) j = be32 b j := by
  simp only [be32]
  rw [be16_putBe16 _ _ _ _ (by omega), be16_putBe16 _ _ _ _ (by omega)]

theorem be32_putBe32 (b : Beam) (i v j : Nat) (h : j + 3 < i ∨ i + 3 < j) :
    be32 (putBe32 b i v) j = be32 b j := by
  simp only [putBe32]
  rw [be32_putBe16 _ _ _ _ (by omega), be32_putBe16 _ _ _ _ (by omega)]

theorem be32_putBe32_same (b : Beam) (i v : Nat) (h : i + 3 < b.length) :
    be32 (putBe32 b i v) i = v % 4294967296 := by
  simp only [be32, putBe32]
  rw [be16_putBe16 _ _ _ _ (by omega), be16_putBe16_same _ _ _ (by omega),
    be16_putBe16_same _ _ _ (by rw [length_putBe16]; omega)]
  omega

theorem length_Forge (span : Beam) (length : Nat) (source target : Socket) :
    (Forge span length source target).length = span.length := by
  simp [Forge, length_putBe16, length_putBe32]

/-- The contract of `Forge`: on a buffer that holds a full IPv4+TCP header, the forged
packet carries the requested source and target sockets. -/
theorem Forge_sockets (span : Beam) (source target : Socket)
    (hihl : 20 ≤ IPv4Header.length (u8 span 0))
    (hlen : IPv4Header.length (u8 span 0) + 20 ≤ span.length)
    (hs : source.Valid) (ht : target.Valid) :
    sourceOf (Forge span (IPv4Header.length (u8 span 0)) source target) = source ∧
    targetOf (Forge span (IPv4Header.length (u8 span 0)) source target) = target := by
  obtain ⟨hsh, hsp⟩ := hs
  obtain ⟨hth, htp⟩ := ht
  generalize hn : IPv4Header.length (u8 span 0) = n at hihl hlen
  have h0 : u8 (Forge span n source target) 0 = u8 span 0 := by
    simp only [Forge]
    rw [u8_putBe16 _ _ _ _ (by omega), u8_putBe16 _ _ _ _ (by omega),
      u8_putBe16 _ _ _ _ (by omega), u8_putBe16 _ _ _ _ (by omega),
      u8_putBe32 _ _ _ _ (by omega), u8_putBe32 _ _ _ _ (by omega)]
  have h12 : be32 (Forge span n source target) 12 = source.host := by
    simp only [Forge]
    rw [be32_putBe16 _ _ _ _ (by omega), be32_putBe16 _ _ _ _ (by omega),
      be32_putBe16 _ _ _ _ (by omega), be32_putBe16 _ _ _ _ (by omega),
      be32_putBe32 _ _ _ _ (by omega), be32_putBe32_same _ _ _ (by omega)]
    omega
  have h16 : be32 (Forge span n source target) 16 = target.host := by
    simp only [Forge]
    rw [be32_putBe16 _ _ _ _ (by omega), be32_putBe16 _ _ _ _ (by omega),
      be32_putBe16 _ _ _ _ (by omega), be32_putBe16 _ _ _ _ (by omega),
      be32_putBe32_same _ _ _ (by rw [length_putBe32]; omega)]
    omega
  have hsrc : be16 (Forge span n source target) n = source.port := by
    simp only [Forge]
    rw [be16_putBe16 _ _ _ _ (by omega), be16_putBe16 _ _ _ _ (by omega),
      be16_putBe16_same _ _ _
        (by rw [length_putBe16, length_putBe32, length_putBe32]; omega)]
    omega
  have hdst : be16 (Forge span n source target) (n + 2) = target.port := by
    simp only [Forge]
    rw [be16_putBe16 _ _ _ _ (by omega), be16_putBe16_same _ _ _
      (by rw [length_putBe16, length_putBe16, length_putBe32, length_putBe32]; omega)]
    omega
  constructor
  · simp only [sourceOf, h0, hn, h12, hsrc]
  · simp only [targetOf, h0, hn, h16, hdst]

theorem sourceOf_valid (data : Beam) : (sourceOf data).Valid := ⟨be32_lt _ _, be16_lt _ _⟩

theorem targetOf_valid (data : Beam) : (targetOf data).Valid := ⟨be32_lt _ _, be16_lt _ _⟩

/-- The fields of the buffer `Split::Reset` builds, whatever the checksum routines. -/
theorem Reset_fields (cs : Checksums) (source target : Socket) (sequence acknowledge : Nat)
    (hs : source.Valid) (ht : target.Valid) (hq : sequence < 4294967296)
    (ha : acknowledge < 4294967296) :
    (Reset cs source target sequence acknowledge).length = 40 ∧
    u8 (Reset cs source target sequence acknowledge) 0 = 69 ∧
    be16 (Reset cs source target sequence acknowledge) 2 = 40 ∧
    u8 (Reset cs source target sequence acknowledge) 9 = IPCommon.TCP ∧
    be32 (Reset cs source target sequence acknowledge) 12 = source.host ∧
    be32 (Reset cs source target sequence acknowledge) 16 = target.host ∧
    be16 (Reset cs source target sequence acknowledge) 20 = source.port ∧
    be16 (Reset cs source target sequence acknowledge) 22 = target.port ∧
    be32 (Reset cs source target sequence acknowledge) 24 = sequence ∧
    be32 (Reset cs source target sequence acknowledge) 28 = acknowledge ∧
    u8 (Reset cs source target sequence acknowledge) 32 = 80 ∧
    u8 (Reset cs source target sequence acknowledge) 33 = 20 ∧
    be16 (Reset cs source target sequence acknowledge) 34 = 0 := by
  obtain ⟨hsh, hsp⟩ := hs
  obtain ⟨hth, htp⟩ := ht
  have hv : IPv4Header.ver_len 4 20 = 69 := by decide
  have hd : (20 <<< 2 : Nat) = 80 := by decide
  have hf : (4 ||| 16 : Nat) = 20 := by decide
  simp only [Reset, be32, be16, putBe32, putBe16, putNative16, u8_put8, length_put8,
    List.length_replicate, u8_replicate, hv, hd, hf, IPCommon.TCP]
  simp
  omega

/-! ## The NAT bijection -/

theorem Bijection_Connect (locl : Socket) : (Split.Connect locl).Bijection := by
  constructor <;> intro _ _ h <;> simp [Split.Connect, Map.find] at h

theorem Bijection_Pull {s t : Split} {four : Four} {u : Unit} {effects : List Effect}
    (inv : s.Bijection) (h : s.Pull four = .returned t u effects) : t.Bijection := by
  unfold Split.Pull at h
  cases he : s.ephemerals_.find four with
  | none => simp [he] at h
  | some ephemeral =>
    cases hf : s.flows_.find ephemeral with
    | none => simp [he, hf] at h
    | some flow =>
      simp only [he, hf, Result.returned.injEq] at h
      obtain ⟨rfl, -, -⟩ := h
      constructor
      · intro f e hfe
        simp only [Map.find_erase] at hfe ⊢
        by_cases hff : four = f
        · simp [hff] at hfe
        · simp only [hff, if_false] at hfe
          have h1 := inv.1 f e hfe
          have h0 := inv.1 four ephemeral he
          by_cases hee : ephemeral = e
          · subst hee
            rw [h0] at h1
            simp only [Option.some.injEq, Flow.mk.injEq] at h1
            exact absurd h1 hff
          · simpa [hee] using h1
      · intro e flow' hfe
        simp only [Map.find_erase] at hfe ⊢
        by_cases hee : ephemeral = e
        · simp [hee] at hfe
        · simp only [hee, if_false] at hfe
          have h1 := inv.2 e flow' hfe
          by_cases hff : four = flow'.four_
          · rw [← hff, he] at h1
            exact absurd (Option.some.inj h1) hee
          · simpa [hff] using h1

theorem Bijection_Send {s t : Split} {w : Await} {data : Beam} {effects : List Effect}
    (inv : s.Bijection) :
    (∀ b, s.Send w data = .returned t b effects → t.Bijection) ∧
    (s.Send w data = .threw t effects → t.Bijection) := by
  unfold Split.Send
  simp only
  split_ifs with hp hl hsyn hnew hu hi
  · constructor
    · intro b h
      split at h <;> simp only [Result.returned.injEq, reduceCtorEq] at h
      all_goals (obtain ⟨rfl, -, -⟩ := h; exact inv)
    · intro h; split at h <;> simp at h
  · constructor
    · intro b h
      split at h <;> simp only [Result.returned.injEq, reduceCtorEq] at h
      all_goals (obtain ⟨rfl, -, -⟩ := h; exact inv)
    · intro h; split at h <;> simp at h
  · constructor
    · intro b h
      split at h
      · simp at h
      · rename_i hlive
        simp only [Result.returned.injEq] at h
        obtain ⟨rfl, -, -⟩ := h
        constructor
        · intro f e hfe
          simp only [Map.find_emplace _ _ _ _ hnew, Map.find_assign] at hfe ⊢
          by_cases hff : fourOf data = f
          · simp only [hff, if_true, Option.some.injEq] at hfe
            simp [hfe, hff]
          · simp only [hff, if_false] at hfe
            have h1 := inv.1 f e hfe
            have hne : ¬ (⟨s.remote_, (s.ephemeral_ + 1) % 65536⟩ : Socket) = e := by
              intro heq
              exact hlive ⟨f⟩ (heq ▸ h1)
            simpa [hne] using h1
        · intro e flow hfe
          simp only [Map.find_emplace _ _ _ _ hnew, Map.find_assign] at hfe ⊢
          by_cases hee : (⟨s.remote_, (s.ephemeral_ + 1) % 65536⟩ : Socket) = e
          · simp only [hee, if_true, Option.some.injEq] at hfe
            simp [← hfe, hee]
          · simp only [hee, if_false] at hfe
            have h1 := inv.2 e flow hfe
            have hne : ¬ fourOf data = flow.four_ := by
              intro heq
              rw [← heq, hnew] at h1
              simp at h1
            simpa [hne] using h1
    · intro h; split at h <;> simp at h
  · constructor
    · intro b h
      simp only [Result.returned.injEq] at h
      obtain ⟨rfl, -, -⟩ := h; exact inv
    · intro h; simp at h
  · have keep : ∀ u : Map Socket (Option Punch),
        ({ s with udp_ := u } : Split).Bijection := fun u => inv
    constructor
    · intro b h
      split at h
      · simp only [Result.returned.injEq] at h
        obtain ⟨rfl, -, -⟩ := h; exact inv
      · split at h
        · simp at h
        · simp only [Result.returned.injEq] at h
          obtain ⟨rfl, -, -⟩ := h; exact keep _
    · intro h
      split at h
      · simp at h
      · split at h
        · simp only [Result.threw.injEq] at h
          obtain ⟨rfl, -⟩ := h; exact keep _
        · simp at h
  · constructor
    · intro b h
      simp only [Result.returned.injEq] at h
      obtain ⟨rfl, -, -⟩ := h; exact inv
    · intro h; simp at h
  · constructor
    · intro b h
      simp only [Result.returned.injEq] at h
      obtain ⟨rfl, -, -⟩ := h; exact inv
    · intro h; simp at h

/-- A property kept by every call is kept by every sequence of calls. -/
theorem run_induction (P : Split → Prop)
    (hstep : ∀ s c t effects, P s → s.step c = some (t, effects) → P t) :
    ∀ (calls : List Call) (s t : Split) (effects : List Effect),
      P s → s.run calls = some (t, effects) → P t := by
  intro calls
  induction calls with
  | nil =>
    intro s t effects hs h
    simp only [Split.run, Option.some.injEq, Prod.mk.injEq] at h
    exact h.1 ▸ hs
  | cons c rest ih =>
    intro s t effects hs h
    simp only [Split.run] at h
    cases hc : s.step c with
    | none => simp [hc] at h
    | some r =>
      obtain ⟨m, e1⟩ := r
      simp only [hc] at h
      cases hr : m.run rest with
      | none => simp [hr] at h
      | some r2 =>
        obtain ⟨u, e2⟩ := r2
        simp only [hr, Option.some.injEq, Prod.mk.injEq] at h
        exact h.1 ▸ ih m u e2 (hstep s c m e1 hs hc) hr

theorem Bijection_step {s t : Split} {c : Call} {effects : List Effect}
    (inv : s.Bijection) (h : s.step c = some (t, effects)) : t.Bijection := by
  cases c with
  | Send w data =>
    simp only [Split.step] at h
    cases hs : s.Send w data with
    | returned m b e =>
      simp only [hs, Option.some.injEq, Prod.mk.injEq] at h
      exact (Bijection_Send inv).1 b (h.1 ▸ h.2 ▸ hs)
    | threw m e =>
      simp only [hs, Option.some.injEq, Prod.mk.injEq] at h
      exact (Bijection_Send inv).2 (h.1 ▸ h.2 ▸ hs)
    | aborted => simp [hs] at h
  | Pull four =>
    simp only [Split.step] at h
    cases hs : s.Pull four with
    | returned m b e =>
      simp only [hs, Option.some.injEq, Prod.mk.injEq] at h
      exact Bijection_Pull inv (h.1 ▸ h.2 ▸ hs)
    | threw m e => simp [Split.Pull] at hs; split at hs <;> (try split at hs) <;> simp at hs
    | aborted => simp [hs] at h

/-- C1: NAT bijection. Starting from the empty tables `Split::Connect` leaves, after every
sequence of `Send` and `Pull` calls that hits no fatal assertion, every entry
`ephemerals_[f] = e` has an entry `flows_[e]` whose Flow has `four_ = f`, and every entry
`flows_[e]` with Flow `flow` has the entry `ephemerals_[flow.four_] = e`. -/
theorem nat_bijection (locl : Socket) (calls : List Call) (s : Split) (effects : List Effect)
    (h : (Split.Connect locl).run calls = some (s, effects)) :
    (∀ f e, s.ephemerals_.find f = some e →
      ∃ flow, s.flows_.find e = some (some flow) ∧ flow.four_ = f) ∧
    (∀ e flow, s.flows_.find e = some (some flow) →
      s.ephemerals_.find flow.four_ = some e) := by
  have inv : s.Bijection :=
    run_induction Split.Bijection (fun _ _ _ _ hs hc => Bijection_step hs hc)
      calls _ s effects (Bijection_Connect locl) h
  exact ⟨fun f e hfe => ⟨⟨f⟩, inv.1 f e hfe, rfl⟩, inv.2⟩

/-- C1 at a run that opens two flows and pulls the first one. -/
theorem nat_bijection_witness :
    (∀ f e, (Split.mk localA 167772162 [(fourOf synB, ⟨167772162, 2⟩)] 2
        [(⟨167772162, 2⟩, some ⟨fourOf synB⟩)] []).ephemerals_.find f = some e →
      ∃ flow, (Split.mk localA 167772162 [(fourOf synB, ⟨167772162, 2⟩)] 2
        [(⟨167772162, 2⟩, some ⟨fourOf synB⟩)] []).flows_.find e = some (some flow) ∧
        flow.four_ = f) ∧
    (∀ e flow, (Split.mk localA 167772162 [(fourOf synB, ⟨167772162, 2⟩)] 2
        [(⟨167772162, 2⟩, some ⟨fourOf synB⟩)] []).flows_.find e = some (some flow) →
      (Split.mk localA 167772162 [(fourOf synB, ⟨167772162, 2⟩)] 2
        [(⟨167772162, 2⟩, some ⟨fourOf synB⟩)] []).ephemerals_.find flow.four_ = some e) :=
  nat_bijection localA [.Send fine synA, .Send fine synB, .Pull (fourOf synA)] _
    [.Spawn ⟨synA, ⟨fourOf synA⟩, fourOf synA, ⟨167772162, 1⟩, 20⟩,
     .Spawn ⟨synB, ⟨fourOf synB⟩, fourOf synB, ⟨167772162, 2⟩, 20⟩] (by decide)

/-! ## A SYN for which no mapping exists -/

/-- The socket `Split::Send` builds for a new SYN: `(remote_, ++ephemeral_)`. -/
theorem Send_new_syn (s : Split) (w : Await) (data : Beam)
    (htcp : u8 data 9 = IPCommon.TCP) (hsrc : sourceOf data ≠ s.local_)
    (hsyn : u8 data (IPv4Header.length (u8 data 0) + 13) &&& TCPHeader.FLAG_SYN ≠ 0)
    (hnew : s.ephemerals_.find (fourOf data) = none)
    (hfree : ∀ flow, s.flows_.find ⟨s.remote_, (s.ephemeral_ + 1) % 65536⟩ ≠ some (some flow)) :
    s.Send w data =
      .returned { s with
          ephemeral_ := (s.ephemeral_ + 1) % 65536,
          flows_ := s.flows_.assign ⟨s.remote_, (s.ephemeral_ + 1) % 65536⟩
            (some ⟨fourOf data⟩),
          ephemerals_ := s.ephemerals_.emplace (fourOf data)
            ⟨s.remote_, (s.ephemeral_ + 1) % 65536⟩ } true
        [.Spawn ⟨data, ⟨fourOf data⟩, fourOf data, ⟨s.remote_, (s.ephemeral_ + 1) % 65536⟩,
          IPv4Header.length (u8 data 0)⟩] := by
  have hsrc2 : ¬ (fourOf data).source = s.local_ := hsrc
  unfold Split.Send
  simp only [htcp, if_true, hsrc2, if_false, hsyn, hnew]

/-- The insist of `Split::Send` on a socket that still holds a flow. -/
theorem Send_live_syn (s : Split) (w : Await) (data : Beam) (flow : Flow)
    (htcp : u8 data 9 = IPCommon.TCP) (hsrc : sourceOf data ≠ s.local_)
    (hsyn : u8 data (IPv4Header.length (u8 data 0) + 13) &&& TCPHeader.FLAG_SYN ≠ 0)
    (hnew : s.ephemerals_.find (fourOf data) = none)
    (hlive : s.flows_.find ⟨s.remote_, (s.ephemeral_ + 1) % 65536⟩ = some (some flow)) :
    s.Send w data = .aborted := by
  have hsrc2 : ¬ (fourOf data).source = s.local_ := hsrc
  unfold Split.Send
  simp only [htcp, if_true, hsrc2, if_false, hsyn, hnew, hlive]

/-! ## The counter wraps while a flow is open -/

theorem after_nil (s : Split) : s.after [] = some s := rfl

theorem after_cons (s t : Split) (c : Call) (rest : List Call) (effects : List Effect)
    (h : s.step c = some (t, effects)) : s.after (c :: rest) = t.after rest := by
  unfold Split.after
  simp only [Split.run, h]
  cases t.run rest with
  | none => rfl
  | some r => rfl

theorem step_Send_returned (s t : Split) (w : Await) (data : Beam) (b : Bool)
    (effects : List Effect) (h : s.Send w data = .returned t b effects) :
    s.step (.Send w data) = some (t, effects) := by
  simp only [Split.step, h]

theorem held_Send (c : Nat) (hc : (c + 1) % 65536 ≠ 1) :
    (held c).step (.Send fine synB) =
      some ({ held c with
        ephemeral_ := (c + 1) % 65536,
        flows_ := [(⟨167772162, (c + 1) % 65536⟩, some ⟨fourOf synB⟩),
                   (⟨167772162, 1⟩, some ⟨fourOf synA⟩)],
        ephemerals_ := [(fourOf synB, ⟨167772162, (c + 1) % 65536⟩),
                        (fourOf synA, ⟨167772162, 1⟩)] },
        [.Spawn ⟨synB, ⟨fourOf synB⟩, fourOf synB, ⟨167772162, (c + 1) % 65536⟩, 20⟩]) := by
  have hne : ¬ (1 = (c + 1) % 65536) := fun h => hc h.symm
  have hs : ¬ ((⟨167772162, 1⟩ : Socket) = ⟨167772162, (c + 1) % 65536⟩) :=
    fun h => hne (Socket.mk.inj h).2
  have hsrc : sourceOf synB ≠ (held c).local_ := by
    show sourceOf synB ≠ localA
    decide
  have hfind : Map.find [(fourOf synA, (⟨167772162, 1⟩ : Socket))] (fourOf synB) = none := by
    decide
  have hfree : ∀ flow,
      (held c).flows_.find ⟨(held c).remote_, ((held c).ephemeral_ + 1) % 65536⟩ ≠
        some (some flow) := by
    intro flow
    show Map.find [((⟨167772162, 1⟩ : Socket), some (Flow.mk (fourOf synA)))]
      ⟨167772162, (c + 1) % 65536⟩ ≠ some (some flow)
    simp only [Map.find, hs, if_false]
    exact fun h => nomatch h
  have h := Send_new_syn (held c) fine synB (by decide) hsrc (by decide) hfind hfree
  have hlen : IPv4Header.length (u8 synB 0) = 20 := by decide
  have herase : Map.erase [((⟨167772162, 1⟩ : Socket), some (Flow.mk (fourOf synA)))]
      ⟨167772162, (c + 1) % 65536⟩ =
      [((⟨167772162, 1⟩ : Socket), some (Flow.mk (fourOf synA)))] := by
    simp only [Map.erase, hs, if_false]
  rw [step_Send_returned _ _ _ _ _ _ h, hlen]
  show some (Split.mk localA 167772162
      (Map.emplace [(fourOf synA, (⟨167772162, 1⟩ : Socket))] (fourOf synB)
        ⟨167772162, (c + 1) % 65536⟩) ((c + 1) % 65536)
      (Map.assign [((⟨167772162, 1⟩ : Socket), some (Flow.mk (fourOf synA)))]
        ⟨167772162, (c + 1) % 65536⟩ (some ⟨fourOf synB⟩)) [], _) = _
  unfold Map.emplace Map.assign
  rw [hfind, herase]
  rfl

theorem held_Pull (c k : Nat) (hk : k ≠ 1) :
    ({ held c with
        ephemeral_ := k,
        flows_ := [(⟨167772162, k⟩, some ⟨fourOf synB⟩),
                   (⟨167772162, 1⟩, some ⟨fourOf synA⟩)],
        ephemerals_ := [(fourOf synB, ⟨167772162, k⟩),
                        (fourOf synA, ⟨167772162, 1⟩)] } : Split).step (.Pull (fourOf synB)) =
      some (held k, []) := by
  have hne : ¬ (1 = k) := fun h => hk h.symm
  have hAB : ¬ fourOf synA = fourOf synB := by decide
  simp [Split.step, Split.Pull, held, Map.find, Map.erase, hne, hAB]

theorem held_churn : ∀ (n c : Nat), 1 ≤ c → c ≤ 65535 → c + n = 65536 →
    (held c).after (churn n) = some (held 0) := by
  intro n
  induction n with
  | zero => intro c _ h2 h3; omega
  | succ n ih =>
    intro c h1 h2 h3
    have hc : (c + 1) % 65536 ≠ 1 := by omega
    rw [churn, after_cons _ _ _ _ _ (held_Send c hc),
      after_cons _ _ _ _ _ (held_Pull c _ hc)]
    by_cases hn : n = 0
    · subst hn
      have : (c + 1) % 65536 = 0 := by omega
      rw [this]; rfl
    · have : (c + 1) % 65536 = c + 1 := by omega
      rw [this]
      exact ih (c + 1) (by omega) (by omega) (by omega)

/-- The run `wrapCalls` from the state `Split::Connect` leaves ends, without a failed
insist, in the state `held 0`: the flow of `synA` is open on port 1 and the counter is 0. -/
theorem wrapCalls_after : (Split.Connect localA).after wrapCalls = some (held 0) := by
  have h1 : (Split.Connect localA).step (.Send fine synA) =
      some (held 1, [.Spawn ⟨synA, ⟨fourOf synA⟩, fourOf synA, ⟨167772162, 1⟩, 20⟩]) := by
    decide
  rw [wrapCalls, after_cons _ _ _ _ _ h1]
  exact held_churn 65535 1 (by omega) (by omega) (by omega)

/-- C2 (amended): for every TCP SYN whose source socket is not `local_`, whose four has no
entry in `ephemerals_`, and for which no live flow is registered under the socket
`(remote_, counter + 1 mod 2^16)`, `Send` increments the counter by one modulo 2^16,
inserts `ephemerals_[four] = (remote_, new counter)` and
`flows_[(remote_, new counter)]` = a Flow with `four_ = four`, and returns true; its only
call is the `Spawn` of the connecting task, made after the insertions, and the first thing
that task does is the upstream `Connect`. -/
theorem syn_allocates (s : Split) (w : Await) (data : Beam)
    (htcp : u8 data 9 = IPCommon.TCP) (hsrc : sourceOf data ≠ s.local_)
    (hsyn : u8 data (IPv4Header.length (u8 data 0) + 13) &&& TCPHeader.FLAG_SYN ≠ 0)
    (hnew : s.ephemerals_.find (fourOf data) = none)
    (hfree : ∀ flow, s.flows_.find ⟨s.remote_, (s.ephemeral_ + 1) % 65536⟩ ≠ some (some flow)) :
    ∃ t task, s.Send w data = .returned t true [.Spawn task] ∧
      t.ephemeral_ = (s.ephemeral_ + 1) % 65536 ∧
      t.ephemerals_.find (fourOf data) = some ⟨s.remote_, t.ephemeral_⟩ ∧
      (∃ flow, t.flows_.find ⟨s.remote_, t.ephemeral_⟩ = some (some flow) ∧
        flow.four_ = fourOf data) ∧
      task.four = fourOf data ∧ task.socket = ⟨s.remote_, t.ephemeral_⟩ ∧
      ∀ cs connected, ∃ later, t.Connected cs task connected =
        .returned t () (.Connect ⟨fourOf data⟩ (targetOf data).host (targetOf data).port ::
          later) := by
  refine ⟨_, _, Send_new_syn s w data htcp hsrc hsyn hnew hfree, rfl, ?_, ⟨⟨fourOf data⟩, ?_, rfl⟩,
    rfl, rfl, fun cs connected => ⟨_, rfl⟩⟩
  · simp [Map.find_emplace _ _ _ _ hnew]
  · simp [Map.find_assign]

/-- C2 (amended) at the first SYN after `Split::Connect`: port 1 is allocated. -/
theorem syn_allocates_witness :
    ∃ t task, (Split.Connect localA).Send fine synA = .returned t true [.Spawn task] ∧
      t.ephemeral_ = (0 + 1) % 65536 ∧
      t.ephemerals_.find (fourOf synA) = some ⟨167772162, t.ephemeral_⟩ ∧
      (∃ flow, t.flows_.find ⟨167772162, t.ephemeral_⟩ = some (some flow) ∧
        flow.four_ = fourOf synA) ∧
      task.four = fourOf synA ∧ task.socket = ⟨167772162, t.ephemeral_⟩ ∧
      ∀ cs connected, ∃ later, t.Connected cs task connected =
        .returned t () (.Connect ⟨fourOf synA⟩ (targetOf synA).host (targetOf synA).port ::
          later) :=
  syn_allocates (Split.Connect localA) fine synA (by decide) (by decide) (by decide)
    (by decide) (fun _ h => by cases h)

/-- C2 as stated fails: the run `wrapCalls` leaves the flow of `synA` open on port 1 with
the counter back at 0; the SYN `synB` then comes from a socket that is not `local_` and
has no entry in `ephemerals_`, yet `Send` does not return true: the insist on
`flows_[(remote_, 1)]` fails. -/
theorem syn_allocates_counterexample :
    (Split.Connect localA).after wrapCalls = some (held 0) ∧
    u8 synB 9 = IPCommon.TCP ∧ sourceOf synB ≠ (held 0).local_ ∧
    u8 synB (IPv4Header.length (u8 synB 0) + 13) &&& TCPHeader.FLAG_SYN ≠ 0 ∧
    (held 0).ephemerals_.find (fourOf synB) = none ∧
    (held 0).Send fine synB = .aborted :=
  ⟨wrapCalls_after, by decide, by decide, by decide, by decide, by decide⟩

/-! ## The upstream connect fails -/

/-- What `Split::Send` did when it returned from a SYN for which no mapping existed. -/
theorem Send_new_syn_returned (s t : Split) (w : Await) (data : Beam) (b : Bool)
    (effects : List Effect)
    (htcp : u8 data 9 = IPCommon.TCP) (hsrc : sourceOf data ≠ s.local_)
    (hsyn : u8 data (IPv4Header.length (u8 data 0) + 13) &&& TCPHeader.FLAG_SYN ≠ 0)
    (hnew : s.ephemerals_.find (fourOf data) = none)
    (hsend : s.Send w data = .returned t b effects) :
    (∀ flow, s.flows_.find ⟨s.remote_, (s.ephemeral_ + 1) % 65536⟩ ≠ some (some flow)) ∧
    t = { s with
          ephemeral_ := (s.ephemeral_ + 1) % 65536,
          flows_ := s.flows_.assign ⟨s.remote_, (s.ephemeral_ + 1) % 65536⟩
            (some ⟨fourOf data⟩),
          ephemerals_ := s.ephemerals_.emplace (fourOf data)
            ⟨s.remote_, (s.ephemeral_ + 1) % 65536⟩ } ∧
    b = true ∧
    effects = [.Spawn ⟨data, ⟨fourOf data⟩, fourOf data,
      ⟨s.remote_, (s.ephemeral_ + 1) % 65536⟩, IPv4Header.length (u8 data 0)⟩] := by
  by_cases hlive : ∃ flow, s.flows_.find ⟨s.remote_, (s.ephemeral_ + 1) % 65536⟩ =
      some (some flow)
  · obtain ⟨flow, hflow⟩ := hlive
    rw [Send_live_syn s w data flow htcp hsrc hsyn hnew hflow] at hsend
    simp at hsend
  · have hfree : ∀ flow, s.flows_.find ⟨s.remote_, (s.ephemeral_ + 1) % 65536⟩ ≠
        some (some flow) := fun flow h => hlive ⟨flow, h⟩
    rw [Send_new_syn s w data htcp hsrc hsyn hnew hfree] at hsend
    simp only [Result.returned.injEq] at hsend
    exact ⟨hfree, hsend.1.symm, hsend.2.1.symm, hsend.2.2.symm⟩

/-- C3: for every new SYN with four `(src, dst)` and host sequence number `q` whose
upstream `Origin::Connect` throws, the only packet injected toward the host is a 40-byte
IPv4+TCP segment with IP source = `dst` host, IP destination = `src` host, TCP source
port = `dst` port, TCP destination port = `src` port, sequence 0, acknowledgement
`(q + 1) mod 2^32`, flags RST|ACK (0x14) and window 0; it is not the original SYN. -/
theorem connect_failure_resets (s t : Split) (cs : Checksums) (w : Await) (data : Beam)
    (b : Bool) (effects : List Effect)
    (htcp : u8 data 9 = IPCommon.TCP) (hsrc : sourceOf data ≠ s.local_)
    (hsyn : u8 data (IPv4Header.length (u8 data 0) + 13) &&& TCPHeader.FLAG_SYN ≠ 0)
    (hnew : s.ephemerals_.find (fourOf data) = none)
    (hsend : s.Send w data = .returned t b effects) :
    ∃ task rst, effects = [.Spawn task] ∧
      t.Connected cs task false = .returned t ()
        [.Connect task.flow (targetOf data).host (targetOf data).port, .Land rst true] ∧
      rst.length = 40 ∧ u8 rst 0 = 69 ∧ be16 rst 2 = 40 ∧ u8 rst 9 = IPCommon.TCP ∧
      be32 rst 12 = (targetOf data).host ∧ be32 rst 16 = (sourceOf data).host ∧
      be16 rst 20 = (targetOf data).port ∧ be16 rst 22 = (sourceOf data).port ∧
      be32 rst 24 = 0 ∧
      be32 rst 28 = (be32 data (IPv4Header.length (u8 data 0) + 4) + 1) % 4294967296 ∧
      u8 rst 33 = 20 ∧ be16 rst 34 = 0 ∧ rst ≠ data := by
  obtain ⟨-, -, -, heff⟩ := Send_new_syn_returned s t w data b effects htcp hsrc hsyn hnew hsend
  have hf := Reset_fields cs (targetOf data) (sourceOf data) 0
    ((be32 data (IPv4Header.length (u8 data 0) + 4) + 1) % 4294967296)
    (targetOf_valid data) (sourceOf_valid data) (by decide) (Nat.mod_lt _ (by decide))
  obtain ⟨h1, h2, h3, h4, h5, h6, h7, h8, h9, h10, -, h12, h13⟩ := hf
  refine ⟨_, _, heff, rfl, h1, h2, h3, h4, h5, h6, h7, h8, h9, h10, h12, h13, ?_⟩
  intro heq
  simp only [fourOf] at heq
  rw [heq] at h2 h12
  rw [h2] at hsyn
  have h20 : IPv4Header.length 69 = 20 := by decide
  rw [h20, h12] at hsyn
  exact hsyn (by decide)

/-- C3 at the first SYN after `Split::Connect`, sequence number 1000: the reset carries
acknowledgement 1001. -/
theorem connect_failure_resets_witness :
    ∃ task rst, [Effect.Spawn ⟨synA, ⟨fourOf synA⟩, fourOf synA, ⟨167772162, 1⟩, 20⟩] =
        [.Spawn task] ∧
      (held 1).Connected noChecksums task false = .returned (held 1) ()
        [.Connect task.flow (targetOf synA).host (targetOf synA).port, .Land rst true] ∧
      rst.length = 40 ∧ u8 rst 0 = 69 ∧ be16 rst 2 = 40 ∧ u8 rst 9 = IPCommon.TCP ∧
      be32 rst 12 = (targetOf synA).host ∧ be32 rst 16 = (sourceOf synA).host ∧
      be16 rst 20 = (targetOf synA).port ∧ be16 rst 22 = (sourceOf synA).port ∧
      be32 rst 24 = 0 ∧
      be32 rst 28 = (be32 synA (IPv4Header.length (u8 synA 0) + 4) + 1) % 4294967296 ∧
      u8 rst 33 = 20 ∧ be16 rst 34 = 0 ∧ rst ≠ synA :=
  connect_failure_resets (Split.Connect localA) (held 1) noChecksums fine synA true _
    (by decide) (by decide) (by decide) (by decide) (by decide)

/-! ## What a call may change -/

/-- A `Send` that comes back leaves the NAT tables and the counter as they were, unless it
handled a SYN for which no mapping existed. -/
theorem Send_tables (s t : Split) (w : Await) (data : Beam)
    (h : (∃ b effects, s.Send w data = .returned t b effects) ∨
      (∃ effects, s.Send w data = .threw t effects)) :
    t = { s with udp_ := t.udp_ } ∨
    ((∀ flow, s.flows_.find ⟨s.remote_, (s.ephemeral_ + 1) % 65536⟩ ≠ some (some flow)) ∧
      s.ephemerals_.find (fourOf data) = none ∧
      t = { s with
          ephemeral_ := (s.ephemeral_ + 1) % 65536,
          flows_ := s.flows_.assign ⟨s.remote_, (s.ephemeral_ + 1) % 65536⟩
            (some ⟨fourOf data⟩),
          ephemerals_ := s.ephemerals_.emplace (fourOf data)
            ⟨s.remote_, (s.ephemeral_ + 1) % 65536⟩ }) := by
  by_cases hnew : u8 data 9 = IPCommon.TCP ∧ sourceOf data ≠ s.local_ ∧
      u8 data (IPv4Header.length (u8 data 0) + 13) &&& TCPHeader.FLAG_SYN ≠ 0 ∧
      s.ephemerals_.find (fourOf data) = none
  · obtain ⟨htcp, hsrc, hsyn, hnone⟩ := hnew
    right
    rcases h with ⟨b, effects, h⟩ | ⟨effects, h⟩
    · obtain ⟨h1, h2, -, -⟩ :=
        Send_new_syn_returned s t w data b effects htcp hsrc hsyn hnone h
      exact ⟨h1, hnone, h2⟩
    · exfalso
      by_cases hlive : ∃ flow, s.flows_.find ⟨s.remote_, (s.ephemeral_ + 1) % 65536⟩ =
          some (some flow)
      · obtain ⟨flow, hflow⟩ := hlive
        rw [Send_live_syn s w data flow htcp hsrc hsyn hnone hflow] at h
        simp at h
      · rw [Send_new_syn s w data htcp hsrc hsyn hnone
          (fun flow hf => hlive ⟨flow, hf⟩)] at h
        simp at h
  · left
    unfold Split.Send at h
    simp only at h
    split_ifs at h with hp hl hsyn hnone hu hi
    · rcases h with ⟨b, effects, h⟩ | ⟨effects, h⟩
      · split at h <;> simp only [Result.returned.injEq, reduceCtorEq] at h
        all_goals (obtain ⟨rfl, -, -⟩ := h; rfl)
      · split at h <;> simp at h
    · rcases h with ⟨b, effects, h⟩ | ⟨effects, h⟩
      · split at h <;> simp only [Result.returned.injEq, reduceCtorEq] at h
        all_goals (obtain ⟨rfl, -, -⟩ := h; rfl)
      · split at h <;> simp at h
    · exact absurd ⟨hp, hl, hsyn, hnone⟩ hnew
    · rcases h with ⟨b, effects, h⟩ | ⟨effects, h⟩
      · simp only [Result.returned.injEq] at h
        obtain ⟨rfl, -, -⟩ := h; rfl
      · simp at h
    · rcases h with ⟨b, effects, h⟩ | ⟨effects, h⟩
      · split at h
        · simp only [Result.returned.injEq] at h
          obtain ⟨rfl, -, -⟩ := h; rfl
        · split at h
          · simp at h
          · simp only [Result.returned.injEq] at h
            obtain ⟨rfl, -, -⟩ := h; rfl
      · split at h
        · simp at h
        · split at h
          · simp only [Result.threw.injEq] at h
            obtain ⟨rfl, -⟩ := h; rfl
          · simp at h
    · rcases h with ⟨b, effects, h⟩ | ⟨effects, h⟩
      · simp only [Result.returned.injEq] at h
        obtain ⟨rfl, -, -⟩ := h; rfl
      · simp at h
    · rcases h with ⟨b, effects, h⟩ | ⟨effects, h⟩
      · simp only [Result.returned.injEq] at h
        obtain ⟨rfl, -, -⟩ := h; rfl
      · simp at h

/-- `Split::Pull` never throws, and when it returns it has erased one entry of each table. -/
theorem Pull_returned (s t : Split) (four : Four) (effects : List Effect)
    (h : s.step (.Pull four) = some (t, effects)) :
    ∃ e, s.ephemerals_.find four = some e ∧
      t = { s with ephemerals_ := s.ephemerals_.erase four, flows_ := s.flows_.erase e } := by
  simp only [Split.step, Split.Pull] at h
  cases he : s.ephemerals_.find four with
  | none => simp [he] at h
  | some e =>
    cases hf : s.flows_.find e with
    | none => simp [he, hf] at h
    | some flow =>
      simp only [he, hf, Option.some.injEq, Prod.mk.injEq] at h
      exact ⟨e, rfl, h.1.symm⟩

theorem Typed_Connect (locl : Socket) (h : locl.Valid) : (Split.Connect locl).Typed := by
  refine ⟨h, Nat.mod_lt _ (by decide), ?_, ?_⟩
  · intro f e hfe; simp [Split.Connect, Map.find] at hfe
  · intro e; simp [Split.Connect, Map.find]

theorem Typed_step {s t : Split} {c : Call} {effects : List Effect}
    (inv : s.Typed) (h : s.step c = some (t, effects)) : t.Typed := by
  obtain ⟨hl, hr, he, hf⟩ := inv
  cases c with
  | Send w data =>
    have hcases := Send_tables s t w data (by
      simp only [Split.step] at h
      cases hs : s.Send w data with
      | returned m b e =>
        simp only [hs, Option.some.injEq, Prod.mk.injEq] at h
        exact Or.inl ⟨b, e, by rw [h.1]⟩
      | threw m e =>
        simp only [hs, Option.some.injEq, Prod.mk.injEq] at h
        exact Or.inr ⟨e, by rw [h.1]⟩
      | aborted => simp [hs] at h)
    rcases hcases with ht | ⟨-, hnone, ht⟩
    · rw [ht]; exact ⟨hl, hr, he, hf⟩
    · rw [ht]
      refine ⟨hl, hr, ?_, ?_⟩
      · intro f e hfe
        simp only [Map.find_emplace _ _ _ _ hnone] at hfe
        by_cases hff : fourOf data = f
        · simp only [hff, if_true, Option.some.injEq] at hfe
          subst hfe; subst hff
          exact ⟨⟨hr, Nat.mod_lt _ (by decide)⟩, sourceOf_valid data, targetOf_valid data⟩
        · simp only [hff, if_false] at hfe
          exact he f e hfe
      · intro e
        simp only [Map.find_assign]
        split_ifs
        · simp
        · exact hf e
  | Pull four =>
    obtain ⟨e, hfe, ht⟩ := Pull_returned s t four effects h
    rw [ht]
    refine ⟨hl, hr, ?_, ?_⟩
    · intro f e2 hfe2
      simp only [Map.find_erase] at hfe2
      by_cases hx : four = f
      · simp [hx] at hfe2
      · simp only [hx, if_false] at hfe2
        exact he f e2 hfe2
    · intro e2
      simp only [Map.find_erase]
      split_ifs
      · simp
      · exact hf e2

/-- Every state between two calls is well-typed and satisfies the NAT bijection. -/
theorem Reachable_sound (s : Split) (h : s.Reachable) : s.Typed ∧ s.Bijection := by
  obtain ⟨locl, calls, hv, hrun⟩ := h
  unfold Split.after at hrun
  cases hr : (Split.Connect locl).run calls with
  | none => simp [hr] at hrun
  | some r =>
    obtain ⟨u, effects⟩ := r
    simp only [hr, Option.map_some', Option.some.injEq] at hrun
    subst hrun
    exact run_induction (fun x => x.Typed ∧ x.Bijection)
      (fun _ _ _ _ hs hc => ⟨Typed_step hs.1 hc, Bijection_step hs.2 hc⟩)
      calls _ _ effects ⟨Typed_Connect locl hv, Bijection_Connect locl⟩ hr

/-! ## Failure of the connect, wrap of the counter -/

/-- C4, the code at a failing input: the first SYN after `Split::Connect` is `synA`, its
upstream connect throws, the task injects the reset and ends; both NAT entries of the SYN
are still there, and when the host sends the SYN again it is consumed as a duplicate,
without a new connect and without a reset. -/
theorem connect_failure_keeps_entries (cs : Checksums) :
    ∃ t task effects,
      (Split.Connect localA).Send fine synA = .returned t true [.Spawn task] ∧
      t.Connected cs task false = .returned t () effects ∧
      t.ephemerals_.find (fourOf synA) = some ⟨167772162, 1⟩ ∧
      t.flows_.find ⟨167772162, 1⟩ = some (some ⟨fourOf synA⟩) ∧
      t.Send fine synA = .returned t true [] :=
  ⟨held 1, ⟨synA, ⟨fourOf synA⟩, fourOf synA, ⟨167772162, 1⟩, 20⟩, _, by decide, rfl,
    by decide, by decide, by decide⟩

/-- C5 (amended): when `Send` handles a new SYN, the port is the counter plus one modulo
2^16, whatever the state of the tables; if the socket `(remote_, port)` holds a live flow
in `flows_`, the port is not skipped: `Send` stops on a fatal assertion. So a `Send` that
returns has allocated a socket that held no live flow. -/
theorem syn_port_is_next (s : Split) (w : Await) (data : Beam)
    (htcp : u8 data 9 = IPCommon.TCP) (hsrc : sourceOf data ≠ s.local_)
    (hsyn : u8 data (IPv4Header.length (u8 data 0) + 13) &&& TCPHeader.FLAG_SYN ≠ 0)
    (hnew : s.ephemerals_.find (fourOf data) = none) :
    (s.Send w data = .aborted ↔
      ∃ flow, s.flows_.find ⟨s.remote_, (s.ephemeral_ + 1) % 65536⟩ = some (some flow)) ∧
    (∀ t b effects, s.Send w data = .returned t b effects →
      (∀ flow, s.flows_.find ⟨s.remote_, (s.ephemeral_ + 1) % 65536⟩ ≠ some (some flow)) ∧
      t.ephemerals_.find (fourOf data) = some ⟨s.remote_, (s.ephemeral_ + 1) % 65536⟩ ∧
      effects = [.Spawn ⟨data, ⟨fourOf data⟩, fourOf data,
        ⟨s.remote_, (s.ephemeral_ + 1) % 65536⟩, IPv4Header.length (u8 data 0)⟩]) := by
  constructor
  · constructor
    · intro hab
      by_contra hlive
      rw [Send_new_syn s w data htcp hsrc hsyn hnew (fun flow hf => hlive ⟨flow, hf⟩)] at hab
      simp at hab
    · rintro ⟨flow, hflow⟩
      exact Send_live_syn s w data flow htcp hsrc hsyn hnew hflow
  · intro t b effects hsend
    obtain ⟨h1, h2, -, h4⟩ := Send_new_syn_returned s t w data b effects htcp hsrc hsyn hnew hsend
    refine ⟨h1, ?_, h4⟩
    rw [h2]
    simp [Map.find_emplace _ _ _ _ hnew]

/-- C5 (amended) in the state after the wrap, where port 1 is the next port and is live. -/
theorem syn_port_is_next_witness :
    ((held 0).Send fine synC = .aborted ↔
      ∃ flow, (held 0).flows_.find ⟨167772162, (0 + 1) % 65536⟩ = some (some flow)) ∧
    (∀ t b effects, (held 0).Send fine synC = .returned t b effects →
      (∀ flow, (held 0).flows_.find ⟨167772162, (0 + 1) % 65536⟩ ≠ some (some flow)) ∧
      t.ephemerals_.find (fourOf synC) = some ⟨167772162, (0 + 1) % 65536⟩ ∧
      effects = [.Spawn ⟨synC, ⟨fourOf synC⟩, fourOf synC,
        ⟨167772162, (0 + 1) % 65536⟩, IPv4Header.length (u8 synC 0)⟩]) :=
  syn_port_is_next (held 0) fine synC (by decide) (by decide) (by decide) (by decide)

/-- C5 as stated fails: after the run `wrapCalls` port 1 holds the live flow of `synA`,
port 2 is free, and the new SYN `synC` is not given port 2: `Send` aborts. -/
theorem syn_port_skip_counterexample :
    (Split.Connect localA).after wrapCalls = some (held 0) ∧
    (held 0).flows_.find ⟨(held 0).remote_, 1⟩ = some (some ⟨fourOf synA⟩) ∧
    (held 0).flows_.find ⟨(held 0).remote_, 2⟩ = none ∧
    u8 synC 9 = IPCommon.TCP ∧ sourceOf synC ≠ (held 0).local_ ∧
    u8 synC (IPv4Header.length (u8 synC 0) + 13) &&& TCPHeader.FLAG_SYN ≠ 0 ∧
    (held 0).ephemerals_.find (fourOf synC) = none ∧
    (held 0).Send fine synC = .aborted :=
  ⟨wrapCalls_after, by decide, by decide, by decide, by decide, by decide, by decide,
    by decide⟩

/-! ## Segments of a mapped flow -/

/-- C6: for every TCP packet without the SYN flag whose source socket is not `local_` and
whose four has an entry `ephemerals_[four] = e`, `Send` injects exactly one packet, through
`Capture::Land` with `analyze = false`, whose source socket is `e` and whose destination
socket is `local_`; it leaves the state (NAT tables and counter included) as it was and
returns true. -/
theorem forward_mapped_segment (s : Split) (w : Await) (data : Beam) (e : Socket)
    (hs : s.Reachable) (hp : TCPPacket data) (hsrc : sourceOf data ≠ s.local_)
    (hflag : u8 data (IPv4Header.length (u8 data 0) + 13) &&& TCPHeader.FLAG_SYN = 0)
    (hmap : s.ephemerals_.find (fourOf data) = some e) :
    ∃ forged, s.Send w data = .returned s true [.Land forged false] ∧
      sourceOf forged = e ∧ targetOf forged = s.local_ := by
  obtain ⟨⟨hl, -, he, -⟩, -⟩ := Reachable_sound s hs
  obtain ⟨htcp, hihl, hlen⟩ := hp
  have hsrc2 : ¬ (fourOf data).source = s.local_ := hsrc
  refine ⟨Forge data (IPv4Header.length (u8 data 0)) e s.local_, ?_,
    Forge_sockets data e s.local_ hihl hlen (he _ _ hmap).1 hl⟩
  unfold Split.Send
  simp only [htcp, if_true, hsrc2, if_false, hflag, hmap]

/-- C6 at the ACK that follows `synA`: it leaves as a packet from 10.0.0.2:1 to the
acceptor. -/
theorem forward_mapped_segment_witness :
    ∃ forged, (held 1).Send fine ackA = .returned (held 1) true [.Land forged false] ∧
      sourceOf forged = ⟨167772162, 1⟩ ∧ targetOf forged = (held 1).local_ :=
  forward_mapped_segment (held 1) fine ackA ⟨167772162, 1⟩
    ⟨localA, [.Send fine synA], by decide, by decide⟩ (by decide) (by decide) (by decide)
    (by decide)

/-- C7: for every TCP packet whose source socket equals `local_`, `Send` returns false and
leaves the state (NAT tables included) as it was; if `flows_` has an entry for the packet's
target socket whose Flow has original four `(a, b)`, exactly one packet is injected,
through `Capture::Land` with `analyze = true`, with source socket `b` and destination
socket `a`; if `flows_` has no entry for the target socket, nothing is injected. -/
theorem return_direction (s : Split) (w : Await) (data : Beam)
    (hs : s.Reachable) (hp : TCPPacket data) (hsrc : sourceOf data = s.local_) :
    (∃ effects, s.Send w data = .returned s false effects) ∧
    (∀ a b, s.flows_.find (targetOf data) = some (some ⟨⟨a, b⟩⟩) →
      ∃ forged, s.Send w data = .returned s false [.Land forged true] ∧
        sourceOf forged = b ∧ targetOf forged = a) ∧
    (s.flows_.find (targetOf data) = none → s.Send w data = .returned s false []) := by
  obtain ⟨⟨-, -, he, hf⟩, -, hbij⟩ := Reachable_sound s hs
  obtain ⟨htcp, hihl, hlen⟩ := hp
  have hsrc2 : (fourOf data).source = s.local_ := hsrc
  have htgt : (fourOf data).target = targetOf data := rfl
  have hsome : ∀ flow, s.flows_.find (targetOf data) = some (some flow) →
      s.Send w data = .returned s false
        [.Land (Forge data (IPv4Header.length (u8 data 0)) flow.four_.target
          flow.four_.source) true] := by
    intro flow hflow
    unfold Split.Send
    simp only [htcp, if_true, hsrc2, htgt, hflow]
  have hnone : s.flows_.find (targetOf data) = none → s.Send w data = .returned s false [] := by
    intro hflow
    unfold Split.Send
    simp only [htcp, if_true, hsrc2, htgt, hflow]
  refine ⟨?_, ?_, hnone⟩
  · cases hfind : s.flows_.find (targetOf data) with
    | none => exact ⟨_, hnone hfind⟩
    | some o =>
      cases o with
      | none => exact absurd hfind (hf _)
      | some flow => exact ⟨_, hsome flow hfind⟩
  · intro a b hflow
    have hv := he _ _ (hbij _ _ hflow)
    exact ⟨_, hsome _ hflow, Forge_sockets data b a hihl hlen hv.2.2 hv.2.1⟩

/-- C7 at the SYN|ACK the acceptor answers to the flow of `synA`: it reaches the host as a
packet from 93.184.216.34:80 to 10.0.0.5:50000. -/
theorem return_direction_witness :
    (∃ effects, (held 1).Send fine replyA = .returned (held 1) false effects) ∧
    (∀ a b, (held 1).flows_.find (targetOf replyA) = some (some ⟨⟨a, b⟩⟩) →
      ∃ forged, (held 1).Send fine replyA = .returned (held 1) false [.Land forged true] ∧
        sourceOf forged = b ∧ targetOf forged = a) ∧
    ((held 1).flows_.find (targetOf replyA) = none →
      (held 1).Send fine replyA = .returned (held 1) false []) :=
  return_direction (held 1) fine replyA
    ⟨localA, [.Send fine synA], by decide, by decide⟩ (by decide) (by decide)

/-! ## Splice -/

theorem Splice_loop_last (output : Nat → Bool) (beam : Beam) (r : Reading) (rest : List Reading)
    (sends : Nat) (h : r.last = true) :
    Flow.Splice.loop output beam (r :: rest) sends = [.Shut, .count_down] := by
  cases r with
  | error => rfl
  | writ bytes =>
    cases bytes with
    | nil => simp [Flow.Splice.loop]
    | cons a l => simp [Reading.last] at h

theorem Splice_loop_writ (output : Nat → Bool) (beam : Beam) (c : Beam) (rest : List Reading)
    (sends : Nat) (hb : beam.length = 2048) (hc : c ≠ []) (hl : c.length ≤ 2048) :
    ∃ next : Beam, next.length = 2048 ∧
      Flow.Splice.loop output beam (.writ c :: rest) sends =
        .Send c :: (if output sends then Flow.Splice.loop output next rest (sends + 1)
          else [.Shut, .count_down]) := by
  refine ⟨c ++ beam.drop c.length, by simp [hb]; omega, ?_⟩
  have htake : c.take beam.length = c := List.take_of_length_le (by omega)
  have hpos : c.length ≠ 0 := fun h => hc (List.length_eq_zero.mp h)
  simp only [Flow.Splice.loop, htake, hpos, if_false, List.take_left']

theorem Splice_loop_all (output : Nat → Bool) (last : Reading) (rest : List Reading)
    (hlast : last.last = true) :
    ∀ (chunks : List Beam) (beam : Beam) (sends : Nat), beam.length = 2048 →
      (∀ c ∈ chunks, c ≠ [] ∧ c.length ≤ 2048) →
      (∀ j, j < chunks.length → output (sends + j) = true) →
      Flow.Splice.loop output beam (chunks.map .writ ++ last :: rest) sends =
        chunks.map .Send ++ [.Shut, .count_down] := by
  intro chunks
  induction chunks with
  | nil =>
    intro beam sends _ _ _
    simpa using Splice_loop_last output beam last rest sends hlast
  | cons c cs ih =>
    intro beam sends hb hc hout
    obtain ⟨hne, hle⟩ := hc c (List.mem_cons_self _ _)
    obtain ⟨next, hnext, heq⟩ :=
      Splice_loop_writ output beam c (cs.map .writ ++ last :: rest) sends hb hne hle
    have h0 : output sends = true := by simpa using hout 0 (by simp)
    simp only [List.map_cons, List.cons_append, heq, h0, if_true]
    rw [ih next (sends + 1) hnext (fun x hx => hc x (List.mem_cons_of_mem _ hx))
      (fun j hj => by
        have := hout (j + 1) (by simpa using hj)
        rwa [show sends + 1 + j = sends + (j + 1) by omega])]

theorem Splice_loop_fail (output : Nat → Bool) (tail : List Reading) :
    ∀ (chunks : List Beam) (k : Nat) (beam : Beam) (sends : Nat), beam.length = 2048 →
      (∀ c ∈ chunks, c ≠ [] ∧ c.length ≤ 2048) → k < chunks.length →
      (∀ j, j < k → output (sends + j) = true) → output (sends + k) = false →
      Flow.Splice.loop output beam (chunks.map .writ ++ tail) sends =
        (chunks.take (k + 1)).map .Send ++ [.Shut, .count_down] := by
  intro chunks
  induction chunks with
  | nil => intro k beam sends _ _ hk; simp at hk
  | cons c cs ih =>
    intro k beam sends hb hc hk hout hfail
    obtain ⟨hne, hle⟩ := hc c (List.mem_cons_self _ _)
    obtain ⟨next, hnext, heq⟩ :=
      Splice_loop_writ output beam c (cs.map .writ ++ tail) sends hb hne hle
    simp only [List.map_cons, List.cons_append, heq]
    cases k with
    | zero =>
      have h0 : output sends = false := by simpa using hfail
      simp [h0]
    | succ k =>
      have h0 : output sends = true := by simpa using hout 0 (by omega)
      simp only [h0, if_true, List.take_succ_cons, List.map_cons, List.cons_append]
      rw [ih k next (sends + 1) hnext (fun x hx => hc x (List.mem_cons_of_mem _ hx))
        (by simpa using hk)
        (fun j hj => by
          have := hout (j + 1) (by omega)
          rwa [show sends + 1 + j = sends + (j + 1) by omega])
        (by rwa [show sends + 1 + k = sends + (k + 1) by omega])]

theorem bytes_Send (chunks : List Beam) (rest : List Bridged) :
    Bridged.bytes (chunks.map .Send ++ rest) = chunks.flatten ++ Bridged.bytes rest := by
  induction chunks with
  | nil => simp
  | cons c cs ih => simp [Bridged.bytes, ih]

/-- C8: splice transparency. If the input yields the non-empty chunks `c1..cn`, each of at
most 2048 bytes, followed by end of stream or a read error, then (1) when every write
succeeds the output is sent exactly `c1, .., cn` in order, that is the bytes
`c1 ++ .. ++ cn`, and then shut, and the latch is counted down; (2) when the write of the
`k`-th chunk is the first to fail, the output was sent exactly the chunks up to that one and
nothing after, and is then shut. -/
theorem splice_transparent (chunks : List Beam) (last : Reading) (rest : List Reading)
    (output : Nat → Bool)
    (hchunks : ∀ c ∈ chunks, c ≠ [] ∧ c.length ≤ 2048) (hlast : last.last = true) :
    ((∀ j, j < chunks.length → output j = true) →
      Flow.Splice (chunks.map .writ ++ last :: rest) output =
        chunks.map .Send ++ [.Shut, .count_down] ∧
      Bridged.bytes (Flow.Splice (chunks.map .writ ++ last :: rest) output) =
        chunks.flatten) ∧
    (∀ k, k < chunks.length → (∀ j, j < k → output j = true) → output k = false →
      Flow.Splice (chunks.map .writ ++ last :: rest) output =
        (chunks.take (k + 1)).map .Send ++ [.Shut, .count_down] ∧
      Bridged.bytes (Flow.Splice (chunks.map .writ ++ last :: rest) output) =
        (chunks.take (k + 1)).flatten) := by
  constructor
  · intro hout
    have h := Splice_loop_all output last rest hlast chunks (List.replicate 2048 0) 0
      (List.length_replicate _ _) hchunks (fun j hj => by rw [Nat.zero_add]; exact hout j hj)
    refine ⟨h, ?_⟩
    unfold Flow.Splice
    rw [h, bytes_Send]
    simp [Bridged.bytes]
  · intro k hk hout hfail
    have h := Splice_loop_fail output (last :: rest) chunks k (List.replicate 2048 0) 0
      (List.length_replicate _ _) hchunks hk
      (fun j hj => by rw [Nat.zero_add]; exact hout j hj) (by rw [Nat.zero_add]; exact hfail)
    refine ⟨h, ?_⟩
    unfold Flow.Splice
    rw [h, bytes_Send]
    simp [Bridged.bytes]

/-- C8 at three chunks followed by end of stream: all three are sent when every write
succeeds, the first two when the second write fails. -/
theorem splice_transparent_witness :
    Flow.Splice ([[1, 2], [3], [4, 5, 6]].map .writ ++ .writ [] :: []) (fun _ => true) =
      [.Send [1, 2], .Send [3], .Send [4, 5, 6], .Shut, .count_down] ∧
    Flow.Splice ([[1, 2], [3], [4, 5, 6]].map .writ ++ .writ [] :: [])
        (fun k => decide (k ≠ 1)) =
      [.Send [1, 2], .Send [3], .Shut, .count_down] :=
  ⟨((splice_transparent [[1, 2], [3], [4, 5, 6]] (.writ []) [] (fun _ => true)
      (by decide) (by decide)).1 (fun _ _ => rfl)).1,
   ((splice_transparent [[1, 2], [3], [4, 5, 6]] (.writ []) [] (fun k => decide (k ≠ 1))
      (by decide) (by decide)).2 1 (by decide) (by decide) (by decide)).1⟩

/-! ## Pull -/

/-- C9: in every state that satisfies the NAT bijection, if `ephemerals_[four] = e` then
`Pull(four)` returns, and after it `ephemerals_` has no entry for `four`, `flows_` has no
entry for `e`, and every other entry of both tables, and every other field, is unchanged;
if `ephemerals_` has no entry for `four`, `Pull` fails with a fatal assertion. -/
theorem pull_erases (s : Split) (four : Four) (hb : s.Bijection) :
    (∀ e, s.ephemerals_.find four = some e →
      ∃ t, s.Pull four = .returned t () [] ∧
        t.ephemerals_.find four = none ∧ t.flows_.find e = none ∧
        (∀ f, f ≠ four → t.ephemerals_.find f = s.ephemerals_.find f) ∧
        (∀ x, x ≠ e → t.flows_.find x = s.flows_.find x) ∧
        t.local_ = s.local_ ∧ t.remote_ = s.remote_ ∧ t.ephemeral_ = s.ephemeral_ ∧
        t.udp_ = s.udp_) ∧
    (s.ephemerals_.find four = none → s.Pull four = .aborted) := by
  constructor
  · intro e he
    have hf := hb.1 four e he
    refine ⟨{ s with ephemerals_ := s.ephemerals_.erase four,
                     flows_ := s.flows_.erase e }, ?_, ?_, ?_, ?_, ?_, rfl, rfl, rfl, rfl⟩
    · simp only [Split.Pull, he, hf]
    · simp [Map.find_erase]
    · simp [Map.find_erase]
    · intro f hne
      have : ¬ four = f := fun h => hne h.symm
      simp [Map.find_erase, this]
    · intro x hne
      have : ¬ e = x := fun h => hne h.symm
      simp [Map.find_erase, this]
  · intro he
    simp only [Split.Pull, he]

/-- C9 in the state where only the flow of `synA` is open: pulling it empties both tables,
pulling the four of `synB` aborts. -/
theorem pull_erases_witness :
    (∀ e, (held 1).ephemerals_.find (fourOf synA) = some e →
      ∃ t, (held 1).Pull (fourOf synA) = .returned t () [] ∧
        t.ephemerals_.find (fourOf synA) = none ∧ t.flows_.find e = none ∧
        (∀ f, f ≠ fourOf synA → t.ephemerals_.find f = (held 1).ephemerals_.find f) ∧
        (∀ x, x ≠ e → t.flows_.find x = (held 1).flows_.find x) ∧
        t.local_ = (held 1).local_ ∧ t.remote_ = (held 1).remote_ ∧
        t.ephemeral_ = (held 1).ephemeral_ ∧ t.udp_ = (held 1).udp_) ∧
    ((held 1).ephemerals_.find (fourOf synA) = none →
      (held 1).Pull (fourOf synA) = .aborted) :=
  pull_erases (held 1) (fourOf synA)
    (Reachable_sound (held 1) ⟨localA, [.Send fine synA], by decide, by decide⟩).2

/-! ## UDP: one Punch for each source -/

theorem run_cons (s m t : Split) (c : Call) (rest : List Call) (e1 e2 : List Effect)
    (hc : s.step c = some (m, e1)) (hr : m.run rest = some (t, e2)) :
    s.run (c :: rest) = some (t, e1 ++ e2) := by
  simp only [Split.run, hc, hr]

theorem run_append (a : List Call) :
    ∀ (s m t : Split) (b : List Call) (e1 e2 : List Effect),
      s.run a = some (m, e1) → m.run b = some (t, e2) →
      s.run (a ++ b) = some (t, e1 ++ e2) := by
  induction a with
  | nil =>
    intro s m t b e1 e2 ha hb
    simp only [Split.run, Option.some.injEq, Prod.mk.injEq] at ha
    obtain ⟨rfl, rfl⟩ := ha
    simpa using hb
  | cons c rest ih =>
    intro s m t b e1 e2 ha hb
    simp only [Split.run] at ha
    cases hc : s.step c with
    | none => simp [hc] at ha
    | some r =>
      obtain ⟨x, ec⟩ := r
      simp only [hc] at ha
      cases hr : x.run rest with
      | none => simp [hr] at ha
      | some r2 =>
        obtain ⟨y, er⟩ := r2
        simp only [hr, Option.some.injEq, Prod.mk.injEq] at ha
        obtain ⟨rfl, rfl⟩ := ha
        rw [List.cons_append, run_cons s x t c (rest ++ b) ec (er ++ e2) hc
          (ih x y t b er e2 hr hb), List.append_assoc]

/-- One UDP packet whose `Unlid`, if called, succeeds: the Punch of the source is looked
up or created, and the datagram is sent through it. -/
theorem Send_udp (s : Split) (w : Await) (data : Beam) (hp : s.Punched)
    (hudp : u8 data 9 = IPCommon.UDP) (hw : w.unlid ≠ none) :
    ∃ punch t, t.udp_.find (sourceOf data) = some (some punch) ∧
      punch.socket_ = sourceOf data ∧ t.Punched ∧
      ((s.udp_.find (sourceOf data) = some (some punch) ∧ t = s ∧
          s.Send w data = .returned t true (punchSend data punch)) ∨
       (s.udp_.find (sourceOf data) = none ∧
          t = { s with udp_ := (sourceOf data, some punch) :: s.udp_ } ∧
          s.Send w data = .returned t true (.Unlid (sourceOf data) :: punchSend data punch))) := by
  obtain ⟨hnn, hsock, hnd⟩ := hp
  have hne : ¬ (IPCommon.UDP = IPCommon.TCP) := by decide
  cases hfind : s.udp_.find (sourceOf data) with
  | some o =>
    cases o with
    | none => exact absurd hfind (hnn _)
    | some punch =>
      refine ⟨punch, s, hfind, hsock _ _ hfind, ⟨hnn, hsock, hnd⟩, Or.inl ⟨rfl, rfl, ?_⟩⟩
      unfold Split.Send
      simp only [hudp, hne, if_false, if_true, hfind]
  | none =>
    cases hu : w.unlid with
    | none => exact absurd hu hw
    | some opening =>
      have herase := Map.erase_of_find_none _ _ hfind
      refine ⟨⟨sourceOf data, opening⟩,
        { s with udp_ := (sourceOf data, some ⟨sourceOf data, opening⟩) :: s.udp_ },
        by simp [Map.find], rfl, ⟨?_, ?_, ?_⟩, Or.inr ⟨rfl, rfl, ?_⟩⟩
      · intro x
        simp only [Map.find]
        split_ifs
        · simp
        · exact hnn x
      · intro x punch hx
        simp only [Map.find] at hx
        split_ifs at hx with hsx
        · simp only [Option.some.injEq] at hx
          rw [← hx, ← hsx]
        · exact hsock x punch hx
      · simp only [List.map_cons, List.nodup_cons]
        exact ⟨(Map.find_eq_none_iff _ _).mp hfind, hnd⟩
      · unfold Split.Send
        simp only [hudp, hne, if_false, if_true, hfind, hu, Map.assign, herase]

theorem count_Unlid_punchSend (x : Socket) (data : Beam) (punch : Punch) :
    (punchSend data punch).count (.Unlid x) = 0 := by
  unfold punchSend
  simp only
  split
  · rw [List.count_singleton]
    simp
  · rfl

theorem mem_punchSend (data : Beam) (punch other : Punch) (payload : Beam) (target : Socket)
    (h : Effect.PunchSend other payload target ∈ punchSend data punch) :
    other = punch ∧ target = targetOf data := by
  unfold punchSend at h
  simp only at h
  split at h
  · simp only [List.mem_singleton, Effect.PunchSend.injEq] at h
    exact ⟨h.1, h.2.2⟩
  · simp at h

/-- A sequence of UDP packets, handed to `Send` one after another from a state whose Punch
table is sound: no call aborts or throws, Punches once created stay, a source has a Punch
afterwards exactly if it had one or sent a packet, `Unlid` is called once for each source
that had none, and every datagram is sent through the Punch of its source. -/
theorem run_udp (packets : List (Await × Beam)) :
    ∀ s : Split, s.Punched →
      (∀ p ∈ packets, u8 p.2 9 = IPCommon.UDP ∧ p.1.unlid ≠ none) →
      ∃ t effects, s.run (sends packets) = some (t, effects) ∧ t.Punched ∧
        (∀ x punch, s.udp_.find x = some (some punch) → t.udp_.find x = some (some punch)) ∧
        (∀ x, t.udp_.find x = none ↔ (s.udp_.find x = none ∧ x ∉ sources packets)) ∧
        (∀ x, effects.count (.Unlid x) =
          if x ∈ sources packets ∧ s.udp_.find x = none then 1 else 0) ∧
        (∀ punch payload target, Effect.PunchSend punch payload target ∈ effects →
          t.udp_.find punch.socket_ = some (some punch)) := by
  induction packets with
  | nil =>
    intro s hp _
    exact ⟨s, [], rfl, hp, fun _ _ h => h, by simp [sources], by simp [sources],
      by simp⟩
  | cons p rest ih =>
    intro s hp hall
    obtain ⟨hudp, hw⟩ := hall p (List.mem_cons_self _ _)
    obtain ⟨punch, m, hm, hsock, hmp, hcase⟩ := Send_udp s p.1 p.2 hp hudp hw
    obtain ⟨t, e2, hrun, htp, hkeep, hkeys, hcount, hsend⟩ :=
      ih m hmp (fun q hq => hall q (List.mem_cons_of_mem _ hq))
    have hsrc : sources (p :: rest) = sourceOf p.2 :: sources rest := rfl
    rcases hcase with ⟨hs, hms, hSend⟩ | ⟨hs, hms, hSend⟩
    · -- the source has its Punch already
      subst hms
      have hstep := step_Send_returned _ _ _ _ _ _ hSend
      refine ⟨t, punchSend p.2 punch ++ e2,
        run_cons _ _ _ _ _ _ _ hstep hrun, htp, hkeep, ?_, ?_, ?_⟩
      · intro x
        rw [hkeys x, hsrc, List.mem_cons]
        constructor
        · rintro ⟨h1, h2⟩
          refine ⟨h1, fun h => ?_⟩
          rcases h with h | h
          · rw [h, hs] at h1; simp at h1
          · exact h2 h
        · rintro ⟨h1, h2⟩
          exact ⟨h1, fun h => h2 (Or.inr h)⟩
      · intro x
        rw [List.count_append, count_Unlid_punchSend, hcount x, hsrc, Nat.zero_add]
        by_cases hx : x = sourceOf p.2
        · subst hx
          simp [hs]
        · simp [hx]
      · intro q payload target hmem
        rcases List.mem_append.mp hmem with h | h
        · obtain ⟨rfl, -⟩ := mem_punchSend _ _ _ _ _ h
          rw [hsock]
          exact hkeep _ _ hm
        · exact hsend q payload target h
    · -- the source gets its Punch
      have hstep := step_Send_returned _ _ _ _ _ _ hSend
      have hfm : ∀ x, m.udp_.find x =
          if sourceOf p.2 = x then some (some punch) else s.udp_.find x := by
        intro x
        rw [hms]
        simp only [Map.find]
      refine ⟨t, (.Unlid (sourceOf p.2) :: punchSend p.2 punch) ++ e2,
        run_cons _ _ _ _ _ _ _ hstep hrun, htp, ?_, ?_, ?_, ?_⟩
      · intro x q hx
        apply hkeep
        rw [hfm]
        by_cases hsx : sourceOf p.2 = x
        · rw [← hsx, hs] at hx; simp at hx
        · simp only [hsx, if_false]; exact hx
      · intro x
        rw [hkeys x, hfm x, hsrc, List.mem_cons]
        by_cases hsx : sourceOf p.2 = x
        · subst hsx
          simp
        · have hxs : ¬ x = sourceOf p.2 := fun h => hsx h.symm
          simp [hsx, hxs]
      · intro x
        rw [List.count_append, List.count_cons, count_Unlid_punchSend, hcount x, hfm x, hsrc]
        by_cases hsx : sourceOf p.2 = x
        · subst hsx
          simp [hs]
        · have hxs : ¬ x = sourceOf p.2 := fun h => hsx h.symm
          simp [hsx, hxs]
      · intro q payload target hmem
        rcases List.mem_append.mp hmem with h | h
        · simp only [List.mem_cons, reduceCtorEq, false_or] at h
          obtain ⟨rfl, -⟩ := mem_punchSend _ _ _ _ _ h
          rw [hsock]
          exact hkeep _ _ hm
        · exact hsend q payload target h

theorem sends_append (before : List (Await × Beam)) (p : Await × Beam)
    (after : List (Await × Beam)) :
    sends (before ++ p :: after) = sends before ++ (Call.Send p.1 p.2 :: sends after) := by
  simp [sends]

theorem length_of_keys (m : Map Socket (Option Punch)) (l : List Socket)
    (hnd : (m.map Prod.fst).Nodup) (hkeys : ∀ x, Map.find m x = none ↔ x ∉ l) :
    m.length = l.dedup.length := by
  have h1 : (m.map Prod.fst).toFinset = l.toFinset := by
    ext x
    simp only [List.mem_toFinset]
    have := hkeys x
    rw [Map.find_eq_none_iff] at this
    exact not_iff_not.mp this
  calc m.length = (m.map Prod.fst).length := (List.length_map _ _).symm
    _ = (m.map Prod.fst).toFinset.card := (List.toFinset_card_of_nodup hnd).symm
    _ = l.toFinset.card := by rw [h1]
    _ = l.dedup.length := List.card_toFinset l

/-- C10: for every sequence of UDP packets handed to `Send` one after another, starting
with an empty Punch table and with every `Unlid` succeeding: no call fails; `Unlid` is
called exactly once for each distinct source socket; the number of entries of `udp_` is
the number of distinct sources; and each packet calls `Unlid` exactly when no earlier
packet came from its source, and is sent through the Punch that `udp_` holds for its source
at the end, so that all packets of one source go through one Punch, whatever their
destination. -/
theorem one_punch_per_source (s : Split) (packets : List (Await × Beam))
    (hempty : s.udp_ = [])
    (hudp : ∀ p ∈ packets, u8 p.2 9 = IPCommon.UDP ∧ p.1.unlid ≠ none) :
    ∃ t effects, s.run (sends packets) = some (t, effects) ∧
      (∀ x, effects.count (.Unlid x) = if x ∈ sources packets then 1 else 0) ∧
      t.udp_.length = (sources packets).dedup.length ∧
      (∀ before p after, packets = before ++ p :: after →
        ∃ m e1 m2 e2 punch, s.run (sends before) = some (m, e1) ∧
          m.Send p.1 p.2 = .returned m2 true e2 ∧
          t.udp_.find (sourceOf p.2) = some (some punch) ∧ punch.socket_ = sourceOf p.2 ∧
          e2 = (if sourceOf p.2 ∈ sources before then [] else [.Unlid (sourceOf p.2)]) ++
            punchSend p.2 punch) := by
  have hp : s.Punched := by
    refine ⟨?_, ?_, ?_⟩
    · intro x; rw [hempty]; simp [Map.find]
    · intro x punch h; rw [hempty] at h; simp [Map.find] at h
    · rw [hempty]; simp
  have hnone : ∀ x, s.udp_.find x = none := by
    intro x; rw [hempty]; rfl
  obtain ⟨t, effects, hrun, htp, -, hkeys, hcount, -⟩ := run_udp packets s hp hudp
  refine ⟨t, effects, hrun, ?_, ?_, ?_⟩
  · intro x
    rw [hcount x]
    simp [hnone x]
  · exact length_of_keys t.udp_ (sources packets) htp.2.2
      (fun x => by rw [hkeys x]; simp [hnone x])
  · intro before p after hsplit
    have hb : ∀ q ∈ before, u8 q.2 9 = IPCommon.UDP ∧ q.1.unlid ≠ none :=
      fun q hq => hudp q (by rw [hsplit]; exact List.mem_append_left _ hq)
    have hpq : u8 p.2 9 = IPCommon.UDP ∧ p.1.unlid ≠ none :=
      hudp p (by rw [hsplit]; simp)
    have ha : ∀ q ∈ after, u8 q.2 9 = IPCommon.UDP ∧ q.1.unlid ≠ none :=
      fun q hq => hudp q (by rw [hsplit]; simp [hq])
    obtain ⟨m, e1, hrun1, hmp, -, hkeys1, -, -⟩ := run_udp before s hp hb
    obtain ⟨punch, m2, hm2, hsock, hm2p, hcase⟩ := Send_udp m p.1 p.2 hmp hpq.1 hpq.2
    obtain ⟨t2, e3, hrun3, -, hkeep3, -, -, -⟩ := run_udp after m2 hm2p ha
    have hin : m.udp_.find (sourceOf p.2) = none ↔ sourceOf p.2 ∉ sources before := by
      rw [hkeys1]; simp [hnone]
    have hSend : ∃ e2, m.Send p.1 p.2 = .returned m2 true e2 ∧
        e2 = (if sourceOf p.2 ∈ sources before then [] else [.Unlid (sourceOf p.2)]) ++
          punchSend p.2 punch := by
      rcases hcase with ⟨hs, -, hS⟩ | ⟨hs, -, hS⟩
      · have hmem : sourceOf p.2 ∈ sources before := by
          by_contra hnot
          rw [hin.mpr hnot] at hs
          simp at hs
        exact ⟨_, hS, by simp [hmem]⟩
      · have hmem : sourceOf p.2 ∉ sources before := hin.mp hs
        exact ⟨_, hS, by simp [hmem]⟩
    obtain ⟨e2, hS, he2⟩ := hSend
    have hwhole : s.run (sends packets) = some (t2, e1 ++ (e2 ++ e3)) := by
      rw [hsplit, sends_append]
      exact run_append _ _ _ _ _ _ _ hrun1
        (run_cons _ _ _ _ _ _ _ (step_Send_returned _ _ _ _ _ _ hS) hrun3)
    rw [hrun] at hwhole
    simp only [Option.some.injEq, Prod.mk.injEq] at hwhole
    obtain ⟨rfl, -⟩ := hwhole
    exact ⟨m, e1, m2, e2, punch, hrun1, hS, hkeep3 _ _ hm2, hsock, he2⟩

/-- C10 at two datagrams from 10.0.0.5:55555, to 8.8.8.8:53 and to 1.1.1.1:53: one `Unlid`,
one entry in `udp_`, both sent through the same Punch. -/
theorem one_punch_per_source_witness :
    ∃ t effects, (Split.Connect localA).run (sends [(fine, dnsA), (fine, dnsB)]) =
        some (t, effects) ∧
      (∀ x, effects.count (.Unlid x) =
        if x ∈ sources [(fine, dnsA), (fine, dnsB)] then 1 else 0) ∧
      t.udp_.length = (sources [(fine, dnsA), (fine, dnsB)]).dedup.length ∧
      (∀ before p after, [(fine, dnsA), (fine, dnsB)] = before ++ p :: after →
        ∃ m e1 m2 e2 punch, (Split.Connect localA).run (sends before) = some (m, e1) ∧
          m.Send p.1 p.2 = .returned m2 true e2 ∧
          t.udp_.find (sourceOf p.2) = some (some punch) ∧ punch.socket_ = sourceOf p.2 ∧
          e2 = (if sourceOf p.2 ∈ sources before then [] else [.Unlid (sourceOf p.2)]) ++
            punchSend p.2 punch) :=
  one_punch_per_source (Split.Connect localA) [(fine, dnsA), (fine, dnsB)] rfl (by decide)

theorem udp_example :
    (Split.Connect localA).run (sends [(fine, dnsA), (fine, dnsB)]) =
      some ({ Split.Connect localA with
          udp_ := [(⟨167772165, 55555⟩, some ⟨⟨167772165, 55555⟩, 0⟩)] },
        [.Unlid ⟨167772165, 55555⟩,
         .PunchSend ⟨⟨167772165, 55555⟩, 0⟩ [1, 2, 3, 4] ⟨134744072, 53⟩,
         .PunchSend ⟨⟨167772165, 55555⟩, 0⟩ [5, 6] ⟨16843009, 53⟩]) := by
  decide

/-! ## GotProtocol -/

theorem GotProtocol_write (l : Logger) (five : Five) (protocol chain : String) (row : Nat)
    (hrow : l.flow_to_row_.find five = some row)
    (h : l.flow_to_protocol_chain_.find five = none ∨
      ∃ s, l.flow_to_protocol_chain_.find five = some s ∧ specificity s ≤ specificity chain) :
    l.GotProtocol five protocol chain =
      .done { l with
          flow_to_protocol_chain_ := l.flow_to_protocol_chain_.assign five chain,
          database_ := l.database_.update_protocol protocol row }
        [.update_protocol protocol row] := by
  unfold Logger.GotProtocol
  rcases h with h | ⟨s, h, hle⟩
  · simp only [hrow, h]
  · have : ¬ specificity chain < specificity s := Nat.not_lt.mpr hle
    simp only [hrow, h, this, if_false]

theorem GotProtocol_skip (l : Logger) (five : Five) (protocol chain : String) (row : Nat)
    (s : String) (hrow : l.flow_to_row_.find five = some row)
    (h : l.flow_to_protocol_chain_.find five = some s)
    (hlt : specificity chain < specificity s) :
    l.GotProtocol five protocol chain = .done l [] := by
  unfold Logger.GotProtocol
  simp only [hrow, h, hlt, if_true]

theorem GotProtocol_unknown (l : Logger) (five : Five) (protocol chain : String)
    (hrow : l.flow_to_row_.find five = none) :
    l.GotProtocol five protocol chain = .asserted := by
  unfold Logger.GotProtocol
  simp only [hrow]

/-- The gate of `GotProtocol`: on a journaled five it executes `update_protocol_` with
`protocol` on the row and records `chain` for the five if and only if no chain was recorded
for the five or `chain` has at least as many `:` as the recorded chain; otherwise it
executes no statement and leaves the Logger as it was. On a five without recorded chain,
`GotProtocol(f, "http", "tcp:http")` then `GotProtocol(f, "tls", "tcp")` leaves the row as
the update with `"http"` left it and the recorded chain at `"tcp:http"`. -/
theorem gotProtocol_specificity (l : Logger) (five : Five) (protocol chain : String)
    (row : Nat) (hrow : l.flow_to_row_.find five = some row) :
    ((l.flow_to_protocol_chain_.find five = none ∨
        ∃ s, l.flow_to_protocol_chain_.find five = some s ∧
          specificity s ≤ specificity chain) →
      l.GotProtocol five protocol chain =
        .done { l with
            flow_to_protocol_chain_ := l.flow_to_protocol_chain_.assign five chain,
            database_ := l.database_.update_protocol protocol row }
          [.update_protocol protocol row]) ∧
    ((∃ s, l.flow_to_protocol_chain_.find five = some s ∧
        specificity chain < specificity s) →
      l.GotProtocol five protocol chain = .done l []) ∧
    (l.flow_to_protocol_chain_.find five = none →
      ∀ dns_decode,
        (Logger.run dns_decode l
          [.GotProtocol five "http" "tcp:http", .GotProtocol five "tls" "tcp"]).database_ =
          l.database_.update_protocol "http" row ∧
        (Logger.run dns_decode l
          [.GotProtocol five "http" "tcp:http", .GotProtocol five "tls" "tcp"]
          ).flow_to_protocol_chain_.find five = some "tcp:http") := by
  refine ⟨GotProtocol_write l five protocol chain row hrow, ?_, ?_⟩
  · rintro ⟨s, h, hlt⟩
    exact GotProtocol_skip l five protocol chain row s hrow h hlt
  · intro hnone dns_decode
    have h1 := GotProtocol_write l five "http" "tcp:http" row hrow (Or.inl hnone)
    have hs : specificity "tcp" < specificity "tcp:http" := by decide
    have h2 := GotProtocol_skip
      { l with
        flow_to_protocol_chain_ := l.flow_to_protocol_chain_.assign five "tcp:http",
        database_ := l.database_.update_protocol "http" row }
      five "tls" "tcp" row "tcp:http" hrow (by simp [Map.find_assign]) hs
    simp only [Logger.run, Logger.next, Logger.note, h1, h2]
    simp [Map.find_assign]

/-- The gate on the Logger that has journaled `fiveA` as row 1: the name `"http"` is no
numeric literal and is stored as text. -/
theorem gotProtocol_specificity_witness :
    (Logger.run noDns (Logger.new ⟨[], 0⟩)
      [.AddFlow 7 fiveA, .GotProtocol fiveA "http" "tcp:http",
       .GotProtocol fiveA "tls" "tcp"]).database_.rows =
      [⟨1, 7, 6, 167772165, 50000, 167772167, 443, some (.text "http"), none⟩] :=
  (congrArg Table.rows
    ((gotProtocol_specificity (Logger.run noDns (Logger.new ⟨[], 0⟩) [.AddFlow 7 fiveA])
      fiveA "http" "tcp:http" 1 (by decide)).2.2 (by decide) noDns).1).trans (by decide)

/-- C11, the code at a failing input: on the Logger that has journaled `fiveA` as row 1,
no chain recorded, `GotProtocol(fiveA, "007", "tcp")` executes the update and records the
chain, but the row then holds the integer 7 in `protocol`, not the text `"007"` that was
written: the column is declared `string`. The same text written by `GotHostname` to the
column `hostname`, declared `text`, is held as it is. -/
theorem gotProtocol_numeric_text :
    Logger.note noDns (Logger.run noDns (Logger.new ⟨[], 0⟩) [.AddFlow 7 fiveA])
        (.GotProtocol fiveA "007" "tcp") =
      .done (Logger.run noDns (Logger.new ⟨[], 0⟩)
          [.AddFlow 7 fiveA, .GotProtocol fiveA "007" "tcp"])
        [.update_protocol "007" 1] ∧
    (Logger.run noDns (Logger.new ⟨[], 0⟩)
      [.AddFlow 7 fiveA, .GotProtocol fiveA "007" "tcp",
       .GotHostname fiveA "007"]).database_.rows =
      [⟨1, 7, 6, 167772165, 50000, 167772167, 443, some (.integer 7), some "007"⟩] ∧
    Value.numeric "007" ≠ .text "007" ∧
    Value.numeric "http" = .text "http" :=
  ⟨by decide, by decide, by decide, by decide⟩

/-! ## Protocol monotonicity -/

theorem GotProtocol_cases (l : Logger) (f : Five) (protocol chain : String) :
    l.GotProtocol f protocol chain = .asserted ∨
    l.GotProtocol f protocol chain = .done l [] ∨
    ∃ row, l.GotProtocol f protocol chain =
        .done { l with
            flow_to_protocol_chain_ := l.flow_to_protocol_chain_.assign f chain,
            database_ := l.database_.update_protocol protocol row }
          [.update_protocol protocol row] ∧
      ∀ s, l.flow_to_protocol_chain_.find f = some s → specificity s ≤ specificity chain := by
  cases hrow : l.flow_to_row_.find f with
  | none => exact Or.inl (GotProtocol_unknown l f protocol chain hrow)
  | some row =>
    cases hc : l.flow_to_protocol_chain_.find f with
    | none =>
      exact Or.inr (Or.inr ⟨row, GotProtocol_write l f protocol chain row hrow (Or.inl hc),
        fun s hs => by simp at hs⟩)
    | some s =>
      by_cases hlt : specificity chain < specificity s
      · exact Or.inr (Or.inl (GotProtocol_skip l f protocol chain row s hrow hc hlt))
      · have hle : specificity s ≤ specificity chain := Nat.le_of_not_lt hlt
        refine Or.inr (Or.inr ⟨row,
          GotProtocol_write l f protocol chain row hrow (Or.inr ⟨s, hc, hle⟩), ?_⟩)
        intro s2 hs2
        simp only [Option.some.injEq] at hs2
        rw [← hs2]; exact hle

theorem next_chain_of_not_GotProtocol (dns_decode : Beam → Option dns_query_t) (l : Logger)
    (n : Note) (h : ∀ f protocol chain, n ≠ .GotProtocol f protocol chain) :
    (l.next dns_decode n).flow_to_protocol_chain_ = l.flow_to_protocol_chain_ := by
  cases n with
  | AddFlow now five =>
    simp only [Logger.next, Logger.note, Logger.AddFlow]
    cases l.flow_to_row_.find five with
    | some r => rfl
    | none =>
      simp only
      cases l.dns_log_.find five.target.host with
      | some hostname => rfl
      | none => rfl
  | GotHostname five hostname =>
    simp only [Logger.next, Logger.note, Logger.GotHostname]
    cases l.flow_to_row_.find five with
    | some r => rfl
    | none => rfl
  | GotProtocol f protocol chain => exact absurd rfl (h f protocol chain)
  | AnalyzeIncoming span =>
    simp only [Logger.next, Logger.note, Logger.AnalyzeIncoming, Logger.get_DNS_answers]
    split_ifs <;> (try rfl)
    all_goals (split <;> (try rfl))
    all_goals (split_ifs <;> (try rfl))
    all_goals (split <;> rfl)

/-- One call never lowers the specificity recorded for a five. -/
theorem next_recorded (dns_decode : Beam → Option dns_query_t) (l : Logger) (n : Note)
    (five : Five) (c : Nat) (h : l.recorded five = some c) :
    ∃ d, (l.next dns_decode n).recorded five = some d ∧ c ≤ d := by
  by_cases hn : ∃ f protocol chain, n = .GotProtocol f protocol chain
  · obtain ⟨f, protocol, chain, rfl⟩ := hn
    simp only [Logger.next, Logger.note]
    rcases GotProtocol_cases l f protocol chain with h1 | h1 | ⟨row, h1, hle⟩
    · rw [h1]; exact ⟨c, h, le_refl _⟩
    · rw [h1]; exact ⟨c, h, le_refl _⟩
    · rw [h1]
      simp only [Logger.recorded, Map.find_assign]
      by_cases hf : f = five
      · subst hf
        simp only [Logger.recorded] at h
        cases hs : l.flow_to_protocol_chain_.find f with
        | none => simp [hs] at h
        | some s =>
          simp only [hs, Option.map_some', Option.some.injEq] at h
          exact ⟨specificity chain, by simp, h ▸ hle s hs⟩
      · simp only [hf, if_false]
        exact ⟨c, h, le_refl _⟩
  · have hn2 : ∀ f protocol chain, n ≠ .GotProtocol f protocol chain :=
      fun f protocol chain heq => hn ⟨f, protocol, chain, heq⟩
    refine ⟨c, ?_, le_refl _⟩
    simp only [Logger.recorded, next_chain_of_not_GotProtocol dns_decode l n hn2]
    exact h

/-- A sequence of calls never lowers the specificity recorded for a five. -/
theorem run_recorded (dns_decode : Beam → Option dns_query_t) (five : Five)
    (notes : List Note) :
    ∀ (l : Logger) (c : Nat), l.recorded five = some c →
      ∃ d, (Logger.run dns_decode l notes).recorded five = some d ∧ c ≤ d := by
  induction notes with
  | nil => intro l c h; exact ⟨c, h, le_refl _⟩
  | cons n rest ih =>
    intro l c h
    obtain ⟨d, hd, hcd⟩ := next_recorded dns_decode l n five c h
    obtain ⟨e, he, hde⟩ := ih (l.next dns_decode n) d hd
    exact ⟨e, he, le_trans hcd hde⟩

/-- A `GotProtocol` on `five` that writes leaves its specificity recorded, and that
specificity is at least the one recorded before. -/
theorem written_head (dns_decode : Beam → Option dns_query_t) (l : Logger) (five : Five)
    (protocol chain : String)
    (h : (l.GotProtocol five protocol chain).statements ≠ []) :
    (l.next dns_decode (.GotProtocol five protocol chain)).recorded five =
      some (specificity chain) ∧
    ∀ c, l.recorded five = some c → c ≤ specificity chain := by
  simp only [Logger.next, Logger.note]
  rcases GotProtocol_cases l five protocol chain with h1 | h1 | ⟨row, h1, hle⟩
  · rw [h1] at h; simp [Logged.statements] at h
  · rw [h1] at h; simp [Logged.statements] at h
  · rw [h1]
    refine ⟨by simp [Logger.recorded, Map.find_assign], ?_⟩
    intro c hc
    simp only [Logger.recorded] at hc
    cases hs : l.flow_to_protocol_chain_.find five with
    | none => simp [hs] at hc
    | some s =>
      simp only [hs, Option.map_some', Option.some.injEq] at hc
      exact hc ▸ hle s hs

theorem written_bounds (dns_decode : Beam → Option dns_query_t) (five : Five)
    (notes : List Note) :
    ∀ (l : Logger),
      (∀ c, l.recorded five = some c → ∀ x ∈ Logger.written dns_decode five l notes, c ≤ x) ∧
      List.Pairwise (· ≤ ·) (Logger.written dns_decode five l notes) := by
  induction notes with
  | nil => intro l; simp [Logger.written]
  | cons n rest ih =>
    intro l
    obtain ⟨ihb, ihs⟩ := ih (l.next dns_decode n)
    have hskip : (∀ c, l.recorded five = some c →
        ∀ x ∈ Logger.written dns_decode five (l.next dns_decode n) rest, c ≤ x) := by
      intro c hc x hx
      obtain ⟨d, hd, hcd⟩ := next_recorded dns_decode l n five c hc
      exact le_trans hcd (ihb d hd x hx)
    cases n with
    | AddFlow now f => simpa [Logger.written] using ⟨hskip, ihs⟩
    | GotHostname f hostname => simpa [Logger.written] using ⟨hskip, ihs⟩
    | AnalyzeIncoming span => simpa [Logger.written] using ⟨hskip, ihs⟩
    | GotProtocol f protocol chain =>
      simp only [Logger.written]
      by_cases hw : f = five ∧ (l.GotProtocol f protocol chain).statements ≠ []
      · rw [if_pos hw]
        obtain ⟨rfl, hst⟩ := hw
        obtain ⟨hrec, hge⟩ := written_head dns_decode l f protocol chain hst
        constructor
        · intro c hc x hx
          rcases List.mem_cons.mp hx with rfl | hx
          · exact hge c hc
          · exact hskip c hc x hx
        · exact List.pairwise_cons.mpr ⟨fun x hx => ihb _ hrec x hx, ihs⟩
      · rw [if_neg hw]
        exact ⟨hskip, ihs⟩

/-- C12: protocol monotonicity. For every five and every sequence of Logger calls
(`AddFlow`, `GotHostname`, `GotProtocol`, `AnalyzeIncoming`, on any fives), from any state
of the Logger: the specificities of the `GotProtocol` calls on the five that write the
protocol column are non-decreasing, none of them is below the specificity recorded at the
start, and the specificity of the recorded chain never decreases. -/
theorem protocol_monotone (dns_decode : Beam → Option dns_query_t) (l : Logger)
    (five : Five) (notes : List Note) :
    List.Pairwise (· ≤ ·) (Logger.written dns_decode five l notes) ∧
    (∀ c, l.recorded five = some c →
      ∀ x ∈ Logger.written dns_decode five l notes, c ≤ x) ∧
    (∀ before after, notes = before ++ after →
      ∀ c, (Logger.run dns_decode l before).recorded five = some c →
        ∃ d, (Logger.run dns_decode l notes).recorded five = some d ∧ c ≤ d) := by
  obtain ⟨hb, hs⟩ := written_bounds dns_decode five notes l
  refine ⟨hs, hb, ?_⟩
  intro before after hsplit c hc
  have hrun : Logger.run dns_decode l notes =
      Logger.run dns_decode (Logger.run dns_decode l before) after := by
    rw [hsplit]
    clear hsplit hc hb hs
    induction before generalizing l with
    | nil => rfl
    | cons n rest ih => exact ih (l.next dns_decode n)
  rw [hrun]
  exact run_recorded dns_decode five after _ c hc

/-! ## AddFlow -/

theorem foldl_max_ge (rows : List Row) :
    ∀ init : Nat, init ≤ rows.foldl (fun m r => max m r.id) init ∧
      ∀ r ∈ rows, r.id ≤ rows.foldl (fun m r => max m r.id) init := by
  induction rows with
  | nil => intro init; simp
  | cons a rest ih =>
    intro init
    obtain ⟨h1, h2⟩ := ih (max init a.id)
    simp only [List.foldl_cons, List.mem_cons]
    refine ⟨le_trans (le_max_left _ _) h1, ?_⟩
    rintro r (rfl | hr)
    · exact le_trans (le_max_right _ _) h1
    · exact h2 r hr

/-- The rowid of a new row is larger than every rowid in the table. -/
theorem id_lt_next (t : Table) (r : Row) (h : r ∈ t.rows) : r.id < t.next := by
  have := (foldl_max_ge t.rows t.sequence).2 r h
  unfold Table.next
  omega

theorem update_hostname_fresh (rows : List Row) (hostname : String) (id : Nat)
    (h : ∀ r ∈ rows, r.id < id) :
    rows.map (fun r => if r.id = id then { r with hostname := some hostname } else r) = rows := by
  induction rows with
  | nil => rfl
  | cons a rest ih =>
    have ha : ¬ a.id = id := Nat.ne_of_lt (h a (List.mem_cons_self _ _))
    simp only [List.map_cons, ha, if_false]
    rw [ih (fun r hr => h r (List.mem_cons_of_mem _ hr))]

/-- What `AddFlow` does to a five that is not journaled. -/
theorem AddFlow_new (l : Logger) (now : Nat) (five : Five)
    (hnew : l.flow_to_row_.find five = none) :
    l.AddFlow now five =
      .done
        { l with
          database_ :=
            { rows := l.database_.rows ++
                [⟨l.database_.next, now, five.protocol, five.source.host, five.source.port,
                  five.target.host, five.target.port, none, l.dns_log_.find five.target.host⟩],
              sequence := l.database_.next },
          flow_to_row_ := (five, l.database_.next) :: l.flow_to_row_ }
        (.insert five.protocol five.source.host five.source.port five.target.host
            five.target.port ::
          match l.dns_log_.find five.target.host with
          | some hostname => [.update_hostname hostname l.database_.next]
          | none => []) := by
  unfold Logger.AddFlow
  simp only [hnew, Map.emplace, Table.insert]
  cases hd : l.dns_log_.find five.target.host with
  | none => rfl
  | some hostname =>
    simp only [Table.update_hostname, List.map_append, List.map_cons, List.map_nil, if_true]
    rw [update_hostname_fresh _ _ _ (fun r hr => id_lt_next l.database_ r hr)]

theorem AddFlow_known (l : Logger) (now : Nat) (five : Five) (row : Nat)
    (h : l.flow_to_row_.find five = some row) : l.AddFlow now five = .done l [] := by
  unfold Logger.AddFlow
  simp only [h]

/-- C13: `AddFlow` is idempotent. When the five is journaled, `AddFlow` executes no
statement and leaves the table and `flow_to_row_` as they are; when it is not, exactly one
row is inserted, with the layer-4 protocol, source address and port and target address
and port of the five, its rowid is remembered for the five and for no other five, and a
second `AddFlow` of the same five then changes nothing. -/
theorem addFlow_idempotent (l : Logger) (now later : Nat) (five : Five) :
    (∀ row, l.flow_to_row_.find five = some row → l.AddFlow now five = .done l []) ∧
    (l.flow_to_row_.find five = none →
      ∃ m statements hostname, l.AddFlow now five = .done m statements ∧
        m.database_.rows = l.database_.rows ++
          [⟨l.database_.next, now, five.protocol, five.source.host, five.source.port,
            five.target.host, five.target.port, none, hostname⟩] ∧
        statements.count (.insert five.protocol five.source.host five.source.port
          five.target.host five.target.port) = 1 ∧
        (∀ r ∈ l.database_.rows, r.id ≠ l.database_.next) ∧
        m.flow_to_row_.find five = some l.database_.next ∧
        (∀ g, g ≠ five → m.flow_to_row_.find g = l.flow_to_row_.find g) ∧
        m.AddFlow later five = .done m []) := by
  refine ⟨fun row h => AddFlow_known l now five row h, fun hnew => ?_⟩
  refine ⟨_, _, _, AddFlow_new l now five hnew, rfl, ?_, ?_, ?_, ?_, ?_⟩
  · cases l.dns_log_.find five.target.host with
    | none => simp
    | some hostname => simp
  · intro r hr
    exact Nat.ne_of_lt (id_lt_next l.database_ r hr)
  · simp [Map.find]
  · intro g hg
    have : ¬ five = g := fun h => hg h.symm
    simp [Map.find, this]
  · exact AddFlow_known _ later five l.database_.next (by simp [Map.find])

/-- C13 on a Logger that has journaled nothing. -/
theorem addFlow_idempotent_witness :
    ∃ m statements hostname, (Logger.new ⟨[], 0⟩).AddFlow 7 fiveA = .done m statements ∧
        m.database_.rows = (Logger.new ⟨[], 0⟩).database_.rows ++
          [⟨(Logger.new ⟨[], 0⟩).database_.next, 7, fiveA.protocol, fiveA.source.host,
            fiveA.source.port, fiveA.target.host, fiveA.target.port, none, hostname⟩] ∧
        statements.count (.insert fiveA.protocol fiveA.source.host fiveA.source.port
          fiveA.target.host fiveA.target.port) = 1 ∧
        (∀ r ∈ (Logger.new ⟨[], 0⟩).database_.rows,
          r.id ≠ (Logger.new ⟨[], 0⟩).database_.next) ∧
        m.flow_to_row_.find fiveA = some (Logger.new ⟨[], 0⟩).database_.next ∧
        (∀ g, g ≠ fiveA → m.flow_to_row_.find g = (Logger.new ⟨[], 0⟩).flow_to_row_.find g) ∧
        m.AddFlow 9 fiveA = .done m [] :=
  (addFlow_idempotent (Logger.new ⟨[], 0⟩) 7 9 fiveA).2 (by decide)

/-- C14: DNS annotation. When `AddFlow` journals a five, if `DnsLog` maps the target host
of the five to a name, the statements are the insert and one `update_hostname_` on the new
rowid, and afterwards the table is the old table followed by the new row with that
hostname, no other row being changed; if `DnsLog` has no entry for the target host, only
the insert is executed and the hostname of the new row is null. -/
theorem addFlow_annotates (l : Logger) (now : Nat) (five : Five)
    (hnew : l.flow_to_row_.find five = none) :
    (∀ name, l.dns_log_.find five.target.host = some name →
      ∃ m, l.AddFlow now five = .done m
          [.insert five.protocol five.source.host five.source.port five.target.host
            five.target.port, .update_hostname name l.database_.next] ∧
        m.database_.rows = l.database_.rows ++
          [⟨l.database_.next, now, five.protocol, five.source.host, five.source.port,
            five.target.host, five.target.port, none, some name⟩]) ∧
    (l.dns_log_.find five.target.host = none →
      ∃ m, l.AddFlow now five = .done m
          [.insert five.protocol five.source.host five.source.port five.target.host
            five.target.port] ∧
        m.database_.rows = l.database_.rows ++
          [⟨l.database_.next, now, five.protocol, five.source.host, five.source.port,
            five.target.host, five.target.port, none, none⟩]) := by
  have h := AddFlow_new l now five hnew
  constructor
  · intro name hname
    rw [hname] at h
    exact ⟨_, h, rfl⟩
  · intro hnone
    rw [hnone] at h
    exact ⟨_, h, rfl⟩

/-- C14 after the answer `foo.example. A 10.0.0.7` was seen: the row of a flow to
10.0.0.7:443 is journaled with hostname `foo.example`. -/
theorem addFlow_annotates_witness :
    ∃ m, ((Logger.new ⟨[], 0⟩).get_DNS_answers dnsFoo []).AddFlow 7 fiveA = .done m
        [.insert 6 167772165 50000 167772167 443, .update_hostname "foo.example" 1] ∧
      m.database_.rows =
        [⟨1, 7, 6, 167772165, 50000, 167772167, 443, none, some "foo.example"⟩] :=
  (addFlow_annotates ((Logger.new ⟨[], 0⟩).get_DNS_answers dnsFoo []) 7 fiveA
    (by decide)).1 "foo.example" (by decide)

/-! ## DNS answers -/

theorem find?_first (answers pre post : List dns_answer_t) (a : dns_answer_t)
    (h : answers = pre ++ a :: post) (hpre : ∀ b ∈ pre, b.type ≠ RR_A) (ha : a.type = RR_A) :
    answers.find? (fun a => decide (a.type = RR_A)) = some a := by
  subst h
  induction pre with
  | nil => simp [List.find?, ha]
  | cons b rest ih =>
    have hb : ¬ b.type = RR_A := hpre b (List.mem_cons_self _ _)
    simp only [List.cons_append, List.find?, hb, decide_False]
    exact ih (fun c hc => hpre c (List.mem_cons_of_mem _ hc))

theorem find?_none_of_no_A (answers : List dns_answer_t)
    (h : ∀ b ∈ answers, b.type ≠ RR_A) :
    answers.find? (fun a => decide (a.type = RR_A)) = none := by
  rw [List.find?_eq_none]
  intro b hb
  simpa using h b hb

/-- C15 (amended): for every successfully decoded DNS response whose first question has a
name that is not empty once its last character is removed, `get_DNS_answers` records the
first answer of type A only: its address is mapped to that name, every other entry of
`DnsLog` is left as it was (so later answers of type A are not recorded), and nothing
else in the Logger changes; with no answer of type A nothing changes. -/
theorem dns_first_answer (dns_decode : Beam → Option dns_query_t) (l : Logger) (span : Beam)
    (result : dns_query_t) (name : String) (others : List String)
    (hdec : dns_decode span = some result) (hq : result.questions = name :: others)
    (hname : name.dropRight 1 ≠ "") :
    (∀ pre a post, result.answers = pre ++ a :: post → (∀ b ∈ pre, b.type ≠ RR_A) →
      a.type = RR_A →
      l.get_DNS_answers dns_decode span =
        { l with
          dns_log_ :=
            l.dns_log_.assign (native_to_big32 a.address) (name.dropRight 1) } ∧
      (l.get_DNS_answers dns_decode span).dns_log_.find (native_to_big32 a.address) =
        some (name.dropRight 1) ∧
      ∀ ip, ip ≠ native_to_big32 a.address →
        (l.get_DNS_answers dns_decode span).dns_log_.find ip = l.dns_log_.find ip) ∧
    ((∀ b ∈ result.answers, b.type ≠ RR_A) → l.get_DNS_answers dns_decode span = l) := by
  constructor
  · intro pre a post hsplit hpre ha
    have hfind := find?_first result.answers pre post a hsplit hpre ha
    have heq : l.get_DNS_answers dns_decode span =
        { l with
          dns_log_ :=
            l.dns_log_.assign (native_to_big32 a.address) (name.dropRight 1) } := by
      unfold Logger.get_DNS_answers
      simp only [hdec, hq, hname, ne_eq, not_false_eq_true, if_true, hfind]
    refine ⟨heq, ?_, ?_⟩
    · rw [heq]; simp [Map.find_assign]
    · intro ip hip
      have : ¬ native_to_big32 a.address = ip := fun h => hip h.symm
      rw [heq]; simp [Map.find_assign, this]
  · intro hno
    have hfind := find?_none_of_no_A result.answers hno
    unfold Logger.get_DNS_answers
    simp only [hdec, hq, hname, ne_eq, not_false_eq_true, if_true, hfind]

/-- C15 (amended) at the response with the two answers 10.0.0.7 and 10.0.0.8. -/
theorem dns_first_answer_witness :
    ((Logger.new ⟨[], 0⟩).get_DNS_answers dnsTwo []).dns_log_.find
        (native_to_big32 117440522) = some "foo.example" :=
  ((dns_first_answer dnsTwo (Logger.new ⟨[], 0⟩) [] ⟨["foo.example."],
      [⟨RR_A, 117440522⟩, ⟨RR_A, 134217738⟩]⟩ "foo.example." [] rfl rfl (by decide)).1
    [] ⟨RR_A, 117440522⟩ [⟨RR_A, 134217738⟩] rfl (by simp) rfl).2.1

/-- C15 as stated fails: the decoded response has the question `foo.example.` and two
answers of type A, 10.0.0.7 and 10.0.0.8; after `get_DNS_answers` the first address is in
`DnsLog` and the second is not. -/
theorem dns_every_answer_counterexample :
    dnsTwo [] = some ⟨["foo.example."], [⟨RR_A, 117440522⟩, ⟨RR_A, 134217738⟩]⟩ ∧
    native_to_big32 117440522 = 167772167 ∧ native_to_big32 134217738 = 167772168 ∧
    ((Logger.new ⟨[], 0⟩).get_DNS_answers dnsTwo []).dns_log_.find 167772167 =
      some "foo.example" ∧
    ((Logger.new ⟨[], 0⟩).get_DNS_answers dnsTwo []).dns_log_.find 167772168 = none := by
  decide

/-! ## GotHostname -/

theorem filter_id_map (rows : List Row) (g : Row → Row) (row : Nat)
    (hg : ∀ r, (g r).id = r.id) :
    ((rows.map g).filter (fun r => decide (r.id = row))).length =
      (rows.filter (fun r => decide (r.id = row))).length := by
  induction rows with
  | nil => rfl
  | cons a rest ih =>
    by_cases ha : a.id = row
    · simp [List.filter, hg, ha, ih]
    · simp [List.filter, hg, ha, ih]

theorem filter_id_fresh (rows : List Row) (id : Nat) (h : ∀ r ∈ rows, r.id < id) :
    rows.filter (fun r => decide (r.id = id)) = [] := by
  rw [List.filter_eq_nil_iff]
  intro r hr
  have := h r hr
  simp only [decide_eq_true_eq]
  omega

/-- What a call leaves in `flow_to_row_` and in the table. -/
theorem next_flow_to_row (dns_decode : Beam → Option dns_query_t) (l : Logger) (n : Note) :
    ((l.next dns_decode n).flow_to_row_ = l.flow_to_row_ ∧
      ∃ g : Row → Row, (∀ r, (g r).id = r.id) ∧
        (l.next dns_decode n).database_.rows = l.database_.rows.map g) ∨
    (∃ now five hostname, n = .AddFlow now five ∧ l.flow_to_row_.find five = none ∧
      (l.next dns_decode n).flow_to_row_ = (five, l.database_.next) :: l.flow_to_row_ ∧
      (l.next dns_decode n).database_.rows = l.database_.rows ++
        [⟨l.database_.next, now, five.protocol, five.source.host, five.source.port,
          five.target.host, five.target.port, none, hostname⟩]) := by
  have hsame : ∀ m : Logger, m = l → (m.flow_to_row_ = l.flow_to_row_ ∧
      ∃ g : Row → Row, (∀ r, (g r).id = r.id) ∧ m.database_.rows = l.database_.rows.map g) := by
    intro m hm
    subst hm
    exact ⟨rfl, id, fun _ => rfl, by simp⟩
  cases n with
  | AddFlow now five =>
    cases hrow : l.flow_to_row_.find five with
    | some row =>
      left
      apply hsame
      simp only [Logger.next, Logger.note, AddFlow_known l now five row hrow]
    | none =>
      right
      have hnext : l.next dns_decode (.AddFlow now five) =
          { l with
            database_ :=
              { rows := l.database_.rows ++
                  [⟨l.database_.next, now, five.protocol, five.source.host,
                    five.source.port, five.target.host, five.target.port, none,
                    l.dns_log_.find five.target.host⟩],
                sequence := l.database_.next },
            flow_to_row_ := (five, l.database_.next) :: l.flow_to_row_ } := by
        simp only [Logger.next, Logger.note, AddFlow_new l now five hrow]
      exact ⟨now, five, l.dns_log_.find five.target.host, rfl, hrow, by rw [hnext],
        by rw [hnext]⟩
  | GotHostname five hostname =>
    left
    cases hrow : l.flow_to_row_.find five with
    | none =>
      apply hsame
      simp only [Logger.next, Logger.note, Logger.GotHostname, hrow]
    | some row =>
      have hnext : l.next dns_decode (.GotHostname five hostname) =
          { l with database_ := l.database_.update_hostname hostname row } := by
        simp only [Logger.next, Logger.note, Logger.GotHostname, hrow]
      rw [hnext]
      refine ⟨rfl, _, ?_, rfl⟩
      intro r
      by_cases hr : r.id = row <;> simp [hr]
  | GotProtocol five protocol chain =>
    left
    rcases GotProtocol_cases l five protocol chain with h | h | ⟨row, h, -⟩
    · apply hsame
      simp only [Logger.next, Logger.note, h]
    · apply hsame
      simp only [Logger.next, Logger.note, h]
    · have hnext : l.next dns_decode (.GotProtocol five protocol chain) =
          { l with
            flow_to_protocol_chain_ := l.flow_to_protocol_chain_.assign five chain,
            database_ := l.database_.update_protocol protocol row } := by
        simp only [Logger.next, Logger.note, h]
      rw [hnext]
      refine ⟨rfl, _, ?_, rfl⟩
      intro r
      by_cases hr : r.id = row <;> simp [hr]
  | AnalyzeIncoming span =>
    left
    have h : (l.AnalyzeIncoming dns_decode span).flow_to_row_ = l.flow_to_row_ ∧
        (l.AnalyzeIncoming dns_decode span).database_ = l.database_ := by
      simp only [Logger.AnalyzeIncoming, Logger.get_DNS_answers]
      split_ifs <;> (try exact ⟨rfl, rfl⟩)
      all_goals (split <;> (try exact ⟨rfl, rfl⟩))
      all_goals (split_ifs <;> (try exact ⟨rfl, rfl⟩))
      all_goals (split <;> exact ⟨rfl, rfl⟩)
    have hnext : l.next dns_decode (.AnalyzeIncoming span) =
        l.AnalyzeIncoming dns_decode span := by
      simp only [Logger.next, Logger.note]
    rw [hnext, h.1, h.2]
    exact ⟨rfl, id, fun _ => rfl, by simp⟩

theorem Journaled_next (dns_decode : Beam → Option dns_query_t) (l : Logger) (n : Note)
    (h : l.Journaled) : (l.next dns_decode n).Journaled := by
  rcases next_flow_to_row dns_decode l n with ⟨hmap, g, hg, hrows⟩ |
    ⟨now, five, hostname, -, hnone, hmap, hrows⟩
  · intro f row hf
    rw [hmap] at hf
    rw [hrows, filter_id_map _ g row hg]
    exact h f row hf
  · intro f row hf
    rw [hmap] at hf
    rw [hrows, List.filter_append]
    simp only [Map.find] at hf
    by_cases hff : five = f
    · simp only [hff, if_true, Option.some.injEq] at hf
      subst hf
      rw [filter_id_fresh _ _ (fun r hr => id_lt_next l.database_ r hr)]
      simp
    · simp only [hff, if_false] at hf
      have h1 := h f row hf
      have hlt : row < l.database_.next := by
        have hne : l.database_.rows.filter (fun r => decide (r.id = row)) ≠ [] := by
          intro h0; rw [h0] at h1; simp at h1
        obtain ⟨r, hr⟩ := List.exists_mem_of_ne_nil _ hne
        rw [List.mem_filter] at hr
        have := id_lt_next l.database_ r hr.1
        have hid : r.id = row := by simpa using hr.2
        omega
      have hne : ¬ l.database_.next = row := by omega
      simp [h1, hne]

theorem Journaled_run (dns_decode : Beam → Option dns_query_t) (notes : List Note) :
    ∀ l : Logger, l.Journaled → (Logger.run dns_decode l notes).Journaled := by
  induction notes with
  | nil => intro l h; exact h
  | cons n rest ih => intro l h; exact ih _ (Journaled_next dns_decode l n h)

theorem run_flow_to_row (dns_decode : Beam → Option dns_query_t) (five : Five)
    (notes : List Note) :
    ∀ l : Logger, ((Logger.run dns_decode l notes).flow_to_row_.find five = none ↔
      l.flow_to_row_.find five = none ∧ ∀ now, Note.AddFlow now five ∉ notes) := by
  induction notes with
  | nil => intro l; simp [Logger.run]
  | cons n rest ih =>
    intro l
    simp only [Logger.run]
    rw [ih (l.next dns_decode n)]
    rcases next_flow_to_row dns_decode l n with ⟨hmap, -⟩ |
      ⟨now, f, hostname, hn, hnone, hmap, -⟩
    · rw [hmap]
      have hnot : ∀ now, ¬ (Note.AddFlow now five = n) ∨
          l.flow_to_row_.find five ≠ none := by
        intro now
        by_cases heq : Note.AddFlow now five = n
        · right
          subst heq
          intro hnone
          have hnew := AddFlow_new l now five hnone
          have : (l.next dns_decode (.AddFlow now five)).flow_to_row_ =
              (five, l.database_.next) :: l.flow_to_row_ := by
            simp only [Logger.next, Logger.note, hnew]
          rw [hmap] at this
          have hlen := congrArg List.length this
          simp at hlen
        · exact Or.inl heq
      constructor
      · rintro ⟨h1, h2⟩
        refine ⟨h1, fun now hmem => ?_⟩
        rcases List.mem_cons.mp hmem with heq | hmem
        · rcases hnot now with h | h
          · exact h heq
          · exact h h1
        · exact h2 now hmem
      · rintro ⟨h1, h2⟩
        exact ⟨h1, fun now hmem => h2 now (List.mem_cons_of_mem _ hmem)⟩
    · rw [hmap, hn]
      simp only [Map.find, List.mem_cons, Note.AddFlow.injEq]
      by_cases hff : f = five
      · subst hff
        simp only [if_true, reduceCtorEq, false_and, false_iff, not_and, not_forall,
          not_not]
        intro _
        exact ⟨now, Or.inl (by simp)⟩
      · simp only [hff, if_false]
        constructor
        · rintro ⟨h1, h2⟩
          refine ⟨h1, fun t ht => ?_⟩
          rcases ht with ⟨-, h⟩ | h
          · exact hff h.symm
          · exact h2 t h
        · rintro ⟨h1, h2⟩
          exact ⟨h1, fun t ht => h2 t (Or.inr ht)⟩

/-- C16: on the Logger reached from its construction by any sequence of calls,
`GotHostname(five, name)` fails on its assertion if and only if no `AddFlow` of the five
was among the calls, and nothing is written before the assertion; when it does not fail,
its only statement is the `update_hostname_` on the rowid remembered for the five, exactly
one row has that rowid, the hostname of the rows with that rowid is set to `name`, and no
other row, no other column and none of the maps changes. -/
theorem gotHostname_journaled (dns_decode : Beam → Option dns_query_t) (table : Table)
    (notes : List Note) (five : Five) (name : String) :
    ((Logger.run dns_decode (Logger.new table) notes).GotHostname five name = .asserted ↔
      ∀ now, Note.AddFlow now five ∉ notes) ∧
    (∀ m statements,
      (Logger.run dns_decode (Logger.new table) notes).GotHostname five name =
        .done m statements →
      ∃ row,
        (Logger.run dns_decode (Logger.new table) notes).flow_to_row_.find five = some row ∧
        statements = [.update_hostname name row] ∧
        m = { Logger.run dns_decode (Logger.new table) notes with
              database_ :=
                { rows := (Logger.run dns_decode (Logger.new table) notes).database_.rows.map
                    (fun r => if r.id = row then { r with hostname := some name } else r),
                  sequence :=
                    (Logger.run dns_decode (Logger.new table) notes).database_.sequence } } ∧
        ((Logger.run dns_decode (Logger.new table) notes).database_.rows.filter
          (fun r => decide (r.id = row))).length = 1) := by
  have hj : (Logger.run dns_decode (Logger.new table) notes).Journaled :=
    Journaled_run dns_decode notes _ (fun f row h => by simp [Logger.new, Map.find] at h)
  have hk := run_flow_to_row dns_decode five notes (Logger.new table)
  generalize Logger.run dns_decode (Logger.new table) notes = l at hj hk
  constructor
  · rw [← (show (l.flow_to_row_.find five = none ↔ ∀ now, Note.AddFlow now five ∉ notes) from
      by rw [hk]; simp [Logger.new, Map.find])]
    unfold Logger.GotHostname
    cases l.flow_to_row_.find five with
    | none => simp
    | some row => simp
  · intro m statements h
    unfold Logger.GotHostname at h
    cases hrow : l.flow_to_row_.find five with
    | none => simp [hrow] at h
    | some row =>
      simp only [hrow, Logged.done.injEq] at h
      exact ⟨row, rfl, h.2.symm, h.1.symm, hj five row hrow⟩

/-! ## LoggerDatabase -/

/-- C17 (amended): opening the LoggerDatabase succeeds if and only if `application_id`
is 0 and either `user_version` is 1, or `user_version` is 0 and the file holds no table
`flow`; on success the resulting `user_version` is 1, the table `flow` is created (empty)
exactly when the initial `user_version` was 0, and at version 1 the table is left as it
is; any other `user_version` fails on the assertion and leaves version and table as they
were; a file at version 0 that holds a table `flow` fails on `create table`, and version
and table stay as they were. -/
theorem loggerDatabase_versions (file : Database) :
    ((∃ db, LoggerDatabase file = .opened db) ↔
      file.application_id = 0 ∧
        ((file.user_version = 0 ∧ file.flow = none) ∨ file.user_version = 1)) ∧
    (∀ db, LoggerDatabase file = .opened db →
      db.user_version = 1 ∧ db.application_id = 0 ∧
      (file.user_version = 0 → file.flow = none ∧ db.flow = some ⟨[], 0⟩) ∧
      (file.user_version = 1 → db.flow = file.flow)) ∧
    (file.application_id = 0 → file.user_version ≠ 0 → file.user_version ≠ 1 →
      ∃ left, LoggerDatabase file = .asserted left ∧ left.flow = file.flow ∧
        left.user_version = file.user_version) ∧
    (file.application_id = 0 → file.user_version = 0 → file.flow ≠ none →
      ∃ left, LoggerDatabase file = .error left ∧ left.flow = file.flow ∧
        left.user_version = file.user_version) := by
  unfold LoggerDatabase
  by_cases ha : file.application_id = 0
  · by_cases h0 : file.user_version = 0
    · cases hf : file.flow with
      | none => simp [ha, h0, hf]
      | some table => simp [ha, h0, hf]
    · by_cases h1 : file.user_version = 1
      · simp [ha, h1]
      · simp [ha, h0, h1]
  · simp [ha]

/-- C17 on a file SQLite has just created, and on a file at version 1 with a journaled
flow. -/
theorem loggerDatabase_versions_witness :
    LoggerDatabase freshFile = .opened ⟨0, 1, "wal", some ⟨[], 0⟩⟩ ∧
    ((∃ db, LoggerDatabase freshFile = .opened db) ↔
      freshFile.application_id = 0 ∧
        ((freshFile.user_version = 0 ∧ freshFile.flow = none) ∨
          freshFile.user_version = 1)) :=
  ⟨by decide, (loggerDatabase_versions freshFile).1⟩

/-- C17, as stated, fails on a file with `application_id` 0 and `user_version` 0 that
holds a table `flow`: `create table "flow"` fails and the database is not opened. -/
theorem loggerDatabase_versions_counterexample :
    (Database.mk 0 0 "delete" (some ⟨[], 0⟩)).application_id = 0 ∧
    (Database.mk 0 0 "delete" (some ⟨[], 0⟩)).user_version = 0 ∧
    LoggerDatabase ⟨0, 0, "delete", some ⟨[], 0⟩⟩ = .error ⟨0, 0, "wal", some ⟨[], 0⟩⟩ ∧
    ¬ ∃ db, LoggerDatabase ⟨0, 0, "delete", some ⟨[], 0⟩⟩ = .opened db := by
  have h : LoggerDatabase ⟨0, 0, "delete", some ⟨[], 0⟩⟩ = .error ⟨0, 0, "wal", some ⟨[], 0⟩⟩ := by
    decide
  refine ⟨rfl, rfl, h, ?_⟩
  rintro ⟨db, hdb⟩
  rw [h] at hdb
  cases hdb

/-- Opening keeps the schema versioned: a file the LoggerDatabase has opened, or failed to
open, can be opened again under the same rule. -/
theorem Versioned_LoggerDatabase (file : Database) (hv : file.Versioned) :
    (∀ db, LoggerDatabase file = .opened db → db.Versioned) ∧
    (∀ db, LoggerDatabase file = .asserted db → db.Versioned) ∧
    (∀ db, LoggerDatabase file = .error db → db.Versioned) := by
  unfold Database.Versioned at hv ⊢
  unfold LoggerDatabase
  by_cases ha : file.application_id = 0
  · by_cases h0 : file.user_version = 0
    · have hnone := hv h0
      simp [ha, h0, hnone]
    · by_cases h1 : file.user_version = 1
      · simp [ha, h1]
      · simp [ha, h0, h1]
  · simp [ha]
    exact hv

/-! ## Node.Find -/

theorem Find_cases (n : Node) (alive : Nat → Bool) (f : String) :
    (∃ c, n.clients_.find f = some (some c) ∧ alive c = true ∧
      n.Find alive f = (n, c, false)) ∨
    ((¬ ∃ c, n.clients_.find f = some (some c) ∧ alive c = true) ∧
      n.Find alive f =
        ({ clients_ := n.clients_.assign f (some n.made), made := n.made + 1 },
          n.made, true)) := by
  unfold Node.Find
  cases hfind : n.clients_.find f with
  | none => right; simp
  | some o =>
    cases o with
    | none => right; simp
    | some c =>
      by_cases ha : alive c = true
      · left; exact ⟨c, rfl, ha, by simp [ha]⟩
      · right
        refine ⟨?_, by simp [ha]⟩
        rintro ⟨d, hd, hda⟩
        simp only [Option.some.injEq] at hd
        exact ha (hd ▸ hda)

theorem Find_keeps (n : Node) (alive : Nat → Bool) (f g : String) (c : Nat)
    (h : n.clients_.find f = some (some c)) (hc : alive c = true) :
    (n.Find alive g).1.clients_.find f = some (some c) := by
  rcases Find_cases n alive g with ⟨d, -, -, heq⟩ | ⟨hno, heq⟩
  · rw [heq]; exact h
  · rw [heq]
    simp only [Map.find_assign]
    by_cases hgf : g = f
    · subst hgf
      exact absurd ⟨c, h, hc⟩ hno
    · simp only [hgf, if_false]; exact h

theorem finds_keeps (f : String) (c : Nat) (later : List ((Nat → Bool) × String)) :
    ∀ n : Node, n.clients_.find f = some (some c) → (∀ p ∈ later, p.1 c = true) →
      (n.finds later).clients_.find f = some (some c) := by
  induction later with
  | nil => intro n h _; exact h
  | cons p rest ih =>
    intro n h hall
    obtain ⟨alive, g⟩ := p
    exact ih _ (Find_keeps n alive f g c h (hall (alive, g) (List.mem_cons_self _ _)))
      (fun q hq => hall q (List.mem_cons_of_mem _ hq))

/-- C18: at most one Client per fingerprint. `Find(f)` constructs a Client exactly when
`clients_[f]` is absent, empty or expired, and then stores a weak handle to the new Client
under `f`; otherwise it returns the Client of the stored handle and leaves the Node as it
is. Entries of other fingerprints are not changed. And when `Find(f)` has returned the
Client `c`, after any later `Find` calls during which `c` stays alive, `Find(f)` returns
`c` again, constructs nothing and leaves `clients_` as it is. -/
theorem find_one_client (n : Node) (alive : Nat → Bool) (f : String) :
    ((n.Find alive f).2.2 = true ↔
      ¬ ∃ c, n.clients_.find f = some (some c) ∧ alive c = true) ∧
    ((n.Find alive f).2.2 = true →
      (n.Find alive f).2.1 = n.made ∧ (n.Find alive f).1.made = n.made + 1) ∧
    ((n.Find alive f).2.2 = false →
      (n.Find alive f).1 = n ∧ n.clients_.find f = some (some (n.Find alive f).2.1)) ∧
    (n.Find alive f).1.clients_.find f = some (some (n.Find alive f).2.1) ∧
    (∀ g, g ≠ f → (n.Find alive f).1.clients_.find g = n.clients_.find g) ∧
    (∀ (later : List ((Nat → Bool) × String)) (after : Nat → Bool),
      (∀ p ∈ later, p.1 (n.Find alive f).2.1 = true) → after (n.Find alive f).2.1 = true →
      ((n.Find alive f).1.finds later).Find after f =
        ((n.Find alive f).1.finds later, (n.Find alive f).2.1, false)) := by
  have hstored : (n.Find alive f).1.clients_.find f = some (some (n.Find alive f).2.1) := by
    rcases Find_cases n alive f with ⟨c, hc, -, heq⟩ | ⟨-, heq⟩
    · rw [heq]; exact hc
    · rw [heq]; simp [Map.find_assign]
  refine ⟨?_, ?_, ?_, hstored, ?_, ?_⟩
  · rcases Find_cases n alive f with ⟨c, hc, ha, heq⟩ | ⟨hno, heq⟩
    · rw [heq]
      simp only [Bool.false_eq_true, false_iff, not_not]
      exact ⟨c, hc, ha⟩
    · rw [heq]
      simp only [true_iff]
      exact hno
  · intro hmade
    rcases Find_cases n alive f with ⟨c, hc, ha, heq⟩ | ⟨hno, heq⟩
    · rw [heq] at hmade; simp at hmade
    · rw [heq]; exact ⟨rfl, rfl⟩
  · intro hmade
    rcases Find_cases n alive f with ⟨c, hc, ha, heq⟩ | ⟨hno, heq⟩
    · rw [heq]; exact ⟨rfl, hc⟩
    · rw [heq] at hmade; simp at hmade
  · intro g hg
    rcases Find_cases n alive f with ⟨c, hc, ha, heq⟩ | ⟨hno, heq⟩
    · rw [heq]
    · rw [heq]
      have : ¬ f = g := fun h => hg h.symm
      simp [Map.find_assign, this]
  · intro later after hlater hthen
    have hk := finds_keeps f _ later _ hstored hlater
    rcases Find_cases ((n.Find alive f).1.finds later) after f with
      ⟨c, hc, ha, heq⟩ | ⟨hno, heq⟩
    · rw [hk] at hc
      simp only [Option.some.injEq] at hc
      rw [heq, hc]
    · exact absurd ⟨_, hk, hthen⟩ hno

/-! ## Capture.Land -/

/-- `Split::Send` returns true exactly on the packets of `Split.Consumes`. -/
theorem Send_consumes (s t : Split) (w : Await) (data : Beam) (b : Bool)
    (effects : List Effect) (h : s.Send w data = .returned t b effects) :
    b = true ↔ s.Consumes w data := by
  have hTU : ¬ (IPCommon.TCP = IPCommon.UDP) := by decide
  have hTI : ¬ (IPCommon.TCP = IPCommon.ICMPv4) := by decide
  have hUT : ¬ (IPCommon.UDP = IPCommon.TCP) := by decide
  have hUI : ¬ (IPCommon.UDP = IPCommon.ICMPv4) := by decide
  have hIT : ¬ (IPCommon.ICMPv4 = IPCommon.TCP) := by decide
  have hIU : ¬ (IPCommon.ICMPv4 = IPCommon.UDP) := by decide
  unfold Split.Consumes
  by_cases hp : u8 data 9 = IPCommon.TCP
  · by_cases hl : sourceOf data = s.local_
    · have hl2 : (fourOf data).source = s.local_ := hl
      have hb : b = false := by
        unfold Split.Send at h
        simp only [hp, if_true, hl2] at h
        split at h <;> simp only [Result.returned.injEq, reduceCtorEq] at h
        all_goals exact h.2.1.symm
      simp [hb, hp, hl, hTU, hTI]
    · have hl2 : ¬ (fourOf data).source = s.local_ := hl
      by_cases hsyn : u8 data (IPv4Header.length (u8 data 0) + 13) &&& TCPHeader.FLAG_SYN = 0
      · cases hfind : s.ephemerals_.find (fourOf data) with
        | none =>
          have hb : b = false := by
            unfold Split.Send at h
            simp only [hp, if_true, hl2, if_false, hsyn, hfind, Result.returned.injEq] at h
            exact h.2.1.symm
          simp [hb, hp, hl, hTU, hTI, hsyn, hfind]
        | some e =>
          have hb : b = true := by
            unfold Split.Send at h
            simp only [hp, if_true, hl2, if_false, hsyn, hfind, Result.returned.injEq] at h
            exact h.2.1.symm
          simp [hb, hp, hl, hfind]
      · have hb : b = true := by
          cases hfind : s.ephemerals_.find (fourOf data) with
          | none =>
            exact (Send_new_syn_returned s t w data b effects hp hl hsyn hfind h).2.2.1
          | some e =>
            unfold Split.Send at h
            simp only [hp, if_true, hl2, if_false, hsyn, hfind, reduceCtorEq,
              Result.returned.injEq] at h
            exact h.2.1.symm
        simp [hb, hp, hl, hsyn]
  · by_cases hu : u8 data 9 = IPCommon.UDP
    · unfold Split.Send at h
      simp only [hu, hUT, if_false, if_true] at h
      cases hfind : s.udp_.find (sourceOf data) with
      | none =>
        cases hw : w.unlid with
        | none => simp [hfind, hw] at h
        | some o =>
          simp only [hfind, hw, Result.returned.injEq] at h
          simp [← h.2.1, hu, hUT, hUI, hw]
      | some o =>
        cases o with
        | none =>
          cases hw : w.unlid with
          | none => simp [hfind, hw] at h
          | some o =>
            simp only [hfind, hw, Result.returned.injEq] at h
            simp [← h.2.1, hu, hUT, hUI, hw]
        | some punch =>
          simp only [hfind, Result.returned.injEq] at h
          simp [← h.2.1, hu, hUT, hUI]
    · by_cases hi : u8 data 9 = IPCommon.ICMPv4
      · unfold Split.Send at h
        simp only [hi, hIT, hIU, if_false, if_true, Result.returned.injEq] at h
        simp [← h.2.1, hi]
      · unfold Split.Send at h
        simp only [hp, hu, hi, if_false, Result.returned.injEq] at h
        simp [← h.2.1, hp, hu, hi]

/-- `Split::Send` lets an exception out only in the UDP case, when `Unlid` throws. -/
theorem Send_threw (s t : Split) (w : Await) (data : Beam) (effects : List Effect)
    (h : s.Send w data = .threw t effects) :
    u8 data 9 = IPCommon.UDP ∧ (∀ punch, s.udp_.find (sourceOf data) ≠ some (some punch)) ∧
      w.unlid = none := by
  have hUT : ¬ (IPCommon.UDP = IPCommon.TCP) := by decide
  by_cases hp : u8 data 9 = IPCommon.TCP
  · exfalso
    by_cases hl : sourceOf data = s.local_
    · have hl2 : (fourOf data).source = s.local_ := hl
      unfold Split.Send at h
      simp only [hp, if_true, hl2] at h
      split at h <;> simp at h
    · have hl2 : ¬ (fourOf data).source = s.local_ := hl
      by_cases hsyn : u8 data (IPv4Header.length (u8 data 0) + 13) &&& TCPHeader.FLAG_SYN = 0
      · unfold Split.Send at h
        simp only [hp, if_true, hl2, if_false, hsyn] at h
        split at h <;> simp at h
      · cases hfind : s.ephemerals_.find (fourOf data) with
        | none =>
          rcases Send_tables s t w data (Or.inr ⟨effects, h⟩) with ht | ⟨hfree, -, -⟩
          · by_cases hlive : ∃ flow,
                s.flows_.find ⟨s.remote_, (s.ephemeral_ + 1) % 65536⟩ = some (some flow)
            · obtain ⟨flow, hflow⟩ := hlive
              rw [Send_live_syn s w data flow hp hl hsyn hfind hflow] at h
              simp at h
            · rw [Send_new_syn s w data hp hl hsyn hfind
                (fun flow hf => hlive ⟨flow, hf⟩)] at h
              simp at h
          · rw [Send_new_syn s w data hp hl hsyn hfind hfree] at h
            simp at h
        | some e =>
          unfold Split.Send at h
          simp only [hp, if_true, hl2, if_false, hsyn, hfind, reduceCtorEq] at h
  · by_cases hu : u8 data 9 = IPCommon.UDP
    · refine ⟨hu, ?_, ?_⟩
      · intro punch hfind
        unfold Split.Send at h
        simp only [hu, hUT, if_false, if_true, hfind, reduceCtorEq] at h
      · cases hw : w.unlid with
        | none => rfl
        | some o =>
          exfalso
          unfold Split.Send at h
          simp only [hu, hUT, if_false, if_true, hw] at h
          split at h <;> simp at h
    · exfalso
      unfold Split.Send at h
      simp only [hp, hu, if_false] at h
      split_ifs at h

theorem not_Analyze_Split (effects : List Effect) (span : Beam) :
    Landed.Analyze span ∉ effects.map Landed.Split := by
  simp

/-- `Internal::Send` never calls the Analyzer. -/
theorem Send_not_Analyze (i : Internal) (w : Await) (data span : Beam) :
    (∀ j b calls, i.Send w data = .returned j b calls → Landed.Analyze span ∉ calls) ∧
    (∀ j calls, i.Send w data = .threw j calls → Landed.Analyze span ∉ calls) := by
  cases i with
  | split s =>
    simp only [Internal.Send]
    cases s.Send w data with
    | returned t b effects =>
      refine ⟨?_, by simp⟩
      intro j b calls h
      simp only [Sent.returned.injEq] at h
      rw [← h.2.2]; exact not_Analyze_Split effects span
    | threw t effects =>
      refine ⟨by simp, ?_⟩
      intro j calls h
      simp only [Sent.threw.injEq] at h
      rw [← h.2]; exact not_Analyze_Split effects span
    | aborted => simp
  | pass =>
    simp only [Internal.Send]
    by_cases hs : w.sent = true
    · rw [if_pos hs]
      refine ⟨?_, by simp⟩
      intro j b calls h
      simp only [Sent.returned.injEq] at h
      rw [← h.2.2]; simp
    · rw [if_neg hs]
      refine ⟨by simp, ?_⟩
      intro j calls h
      simp only [Sent.threw.injEq] at h
      rw [← h.2]; simp

/-- When `Capture::Land(buffer)` comes back with an Internal installed: the Analyzer was
called exactly if `Send` returned true, and only with the bytes of the buffer. -/
theorem Land_installed (c : Capture) (internal : Internal) (w : Await) (data : Beam)
    (hint : c.internal_ = some internal) (d : Capture) (calls : List Landed)
    (h : c.Land w data = some (d, calls)) :
    ((∃ span, Landed.Analyze span ∈ calls) ↔
      ∃ i sent, internal.Send w data = .returned i true sent) ∧
    (∀ span, Landed.Analyze span ∈ calls → span = data) ∧
    calls.count (.Analyze data) ≤ 1 := by
  simp only [Capture.Land, hint] at h
  cases hs : internal.Send w data with
  | returned i b sent =>
    have hno := fun span => (Send_not_Analyze internal w data span).1 i b sent hs
    simp only [hs, Option.some.injEq, Prod.mk.injEq] at h
    cases b with
    | true =>
      simp only [if_true] at h
      rw [← h.2]
      refine ⟨⟨fun _ => ⟨i, sent, rfl⟩, fun _ => ⟨data, by simp⟩⟩, ?_, ?_⟩
      · intro span hmem
        rcases List.mem_append.mp hmem with hm | hm
        · exact absurd hm (hno span)
        · simpa using hm
      · rw [List.count_append, List.count_eq_zero_of_not_mem (hno data)]
        simp
    | false =>
      simp only [Bool.false_eq_true, if_false] at h
      rw [← h.2]
      refine ⟨⟨fun ⟨span, hm⟩ => absurd hm (hno span), fun ⟨j, x, hx⟩ => by simp at hx⟩,
        fun span hm => absurd hm (hno span), ?_⟩
      rw [List.count_eq_zero_of_not_mem (hno data)]
      exact Nat.zero_le _
  | threw i sent =>
    have hno := fun span => (Send_not_Analyze internal w data span).2 i sent hs
    simp only [hs, Option.some.injEq, Prod.mk.injEq] at h
    rw [← h.2]
    refine ⟨⟨fun ⟨span, hm⟩ => absurd hm (hno span), fun ⟨j, x, hx⟩ => by simp at hx⟩,
      fun span hm => absurd hm (hno span), ?_⟩
    rw [List.count_eq_zero_of_not_mem (hno data)]
    exact Nat.zero_le _
  | aborted => simp [hs] at h

/-- C20: with an Internal installed, `Capture::Land(buffer)` calls `Analyzer::Analyze` if
and only if `internal.Send` returned true for the packet; it calls it once, after the
calls of `Send`, and the bytes it passes are the bytes of the buffer: what `Send` forges
is a copy. When `Send` returns false or throws, `Analyze` is not called. -/
theorem land_analyzes_consumed (c : Capture) (internal : Internal) (w : Await) (data : Beam)
    (hint : c.internal_ = some internal) :
    (∀ i calls, internal.Send w data = .returned i true calls →
      c.Land w data = some (⟨some i⟩, calls ++ [.Analyze data])) ∧
    (∀ i calls, internal.Send w data = .returned i false calls →
      c.Land w data = some (⟨some i⟩, calls)) ∧
    (∀ i calls, internal.Send w data = .threw i calls →
      c.Land w data = some (⟨some i⟩, calls)) ∧
    (∀ d calls, c.Land w data = some (d, calls) →
      ((∃ span, Landed.Analyze span ∈ calls) ↔
        ∃ i sent, internal.Send w data = .returned i true sent) ∧
      (∀ span, Landed.Analyze span ∈ calls → span = data) ∧
      calls.count (.Analyze data) ≤ 1) := by
  refine ⟨?_, ?_, ?_, ?_⟩
  · intro i calls h
    simp only [Capture.Land, hint, h, if_true]
  · intro i calls h
    simp only [Capture.Land, hint, h, Bool.false_eq_true, if_false]
  · intro i calls h
    simp only [Capture.Land, hint, h]
  · intro d calls h
    exact Land_installed c internal w data hint d calls h

/-- C20 on the first SYN through a Split: it is consumed and analysed as the host sent
it. -/
theorem land_analyzes_consumed_witness :
    (Capture.mk (some (.split (Split.Connect localA)))).Land fine synA =
      some (⟨some (.split (held 1))⟩,
        [.Split (.Spawn ⟨synA, ⟨fourOf synA⟩, fourOf synA, ⟨167772162, 1⟩, 20⟩)] ++
          [.Analyze synA]) :=
  (land_analyzes_consumed ⟨some (.split (Split.Connect localA))⟩
    (.split (Split.Connect localA)) fine synA rfl).1 _ _ (by decide)

/-- C19 (amended): with a Split installed, the packet the host hands to
`Capture::Land(buffer)` is passed to `Analyzer::Analyze`, with exactly the bytes of the
buffer, if and only if `Split::Send` consumes it: it is an ICMPv4 packet, or a UDP packet
whose source has a Punch or gets one, or a TCP packet from a socket other than `local_`
that carries SYN or whose four is in `ephemerals_`. Packets of other protocols, TCP packets
from `local_` and segments without SYN and without mapping are not analysed. -/
theorem land_analyzes_split (s : Split) (w : Await) (data : Beam) (d : Capture)
    (calls : List Landed)
    (h : (Capture.mk (some (.split s))).Land w data = some (d, calls)) :
    (Landed.Analyze data ∈ calls ↔ s.Consumes w data) ∧
    (∀ span, Landed.Analyze span ∈ calls → span = data) := by
  have hmain := Land_installed ⟨some (.split s)⟩ (.split s) w data rfl d calls h
  refine ⟨?_, hmain.2.1⟩
  have hiff : Landed.Analyze data ∈ calls ↔ ∃ span, Landed.Analyze span ∈ calls :=
    ⟨fun hm => ⟨data, hm⟩, fun ⟨span, hm⟩ => (hmain.2.1 span hm) ▸ hm⟩
  rw [hiff, hmain.1]
  simp only [Internal.Send]
  cases hs : s.Send w data with
  | returned t b effects =>
    have hc := Send_consumes s t w data b effects hs
    rw [← hc]
    constructor
    · rintro ⟨i, sent, hx⟩
      simp only [Sent.returned.injEq] at hx
      exact hx.2.1
    · intro hb
      exact ⟨.split t, effects.map .Split, by rw [hb]⟩
  | threw t effects =>
    constructor
    · rintro ⟨i, sent, hx⟩
      simp at hx
    · intro hcons
      exfalso
      obtain ⟨hu, hnp, hw⟩ := Send_threw s t w data effects hs
      have hUT : ¬ (IPCommon.UDP = IPCommon.TCP) := by decide
      have hUI : ¬ (IPCommon.UDP = IPCommon.ICMPv4) := by decide
      unfold Split.Consumes at hcons
      rw [hu] at hcons
      rcases hcons with h1 | ⟨-, ⟨punch, h2⟩ | h2⟩ | ⟨h3, -⟩
      · exact hUI h1
      · exact hnp punch h2
      · exact h2 hw
      · exact hUT h3
  | aborted =>
    simp only [Capture.Land, Internal.Send, hs] at h
    simp at h

/-- C19 (amended) at an ICMP echo request through a Split: it is consumed and analysed. -/
theorem land_analyzes_split_witness :
    (Landed.Analyze pingA ∈ [Landed.Analyze pingA] ↔
      (Split.Connect localA).Consumes fine pingA) ∧
    (∀ span, Landed.Analyze span ∈ [Landed.Analyze pingA] → span = pingA) :=
  land_analyzes_split (Split.Connect localA) fine pingA
    ⟨some (.split (Split.Connect localA))⟩ [.Analyze pingA] (by decide)

/-- C19 as stated fails: with a Split installed, the host hands a GRE packet (protocol 47)
to `Capture::Land(buffer)`; `Split::Send` returns false and the Analyzer is not called. The
same holds for a TCP segment without SYN whose four has no mapping. -/
theorem land_every_packet_counterexample :
    (Capture.mk (some (.split (Split.Connect localA)))).Land fine greA =
      some (⟨some (.split (Split.Connect localA))⟩, []) ∧
    (Capture.mk (some (.split (Split.Connect localA)))).Land fine ackA =
      some (⟨some (.split (Split.Connect localA))⟩, []) := by
  decide

/-! ## Other protocols, duplicates and late segments -/

/-- C22: for every packet whose IPv4 protocol is neither TCP nor UDP, `Send` makes no call
(no packet injected, no `Origin` method called), leaves the whole state of the Split as it
was, and returns true if and only if the protocol is ICMPv4. -/
theorem other_protocols (s : Split) (w : Await) (data : Beam)
    (htcp : u8 data 9 ≠ IPCommon.TCP) (hudp : u8 data 9 ≠ IPCommon.UDP) :
    s.Send w data = .returned s (decide (u8 data 9 = IPCommon.ICMPv4)) [] := by
  unfold Split.Send
  rw [if_neg htcp, if_neg hudp]
  by_cases hi : u8 data 9 = IPCommon.ICMPv4
  · rw [if_pos hi, decide_eq_true hi]
  · rw [if_neg hi, decide_eq_false hi]

/-- C22 at an ICMP echo request (consumed) and at a GRE packet (not consumed). -/
theorem other_protocols_witness :
    (Split.Connect localA).Send fine pingA = .returned (Split.Connect localA) true [] ∧
    (Split.Connect localA).Send fine greA = .returned (Split.Connect localA) false [] :=
  ⟨other_protocols (Split.Connect localA) fine pingA (by decide) (by decide),
   other_protocols (Split.Connect localA) fine greA (by decide) (by decide)⟩

/-- C24: a duplicate SYN is dropped silently. For every TCP SYN whose source socket is not
`local_` and whose four has an entry in `ephemerals_`, `Send` makes no call (no packet
injected, no connect started), leaves `ephemerals_`, `flows_`, the counter and the rest of
the state as they were, and returns true. -/
theorem duplicate_syn (s : Split) (w : Await) (data : Beam) (e : Socket)
    (htcp : u8 data 9 = IPCommon.TCP) (hsrc : sourceOf data ≠ s.local_)
    (hsyn : u8 data (IPv4Header.length (u8 data 0) + 13) &&& TCPHeader.FLAG_SYN ≠ 0)
    (hmap : s.ephemerals_.find (fourOf data) = some e) :
    s.Send w data = .returned s true [] := by
  have hsrc2 : ¬ (fourOf data).source = s.local_ := hsrc
  unfold Split.Send
  simp only [htcp, if_true, hsrc2, if_false, hsyn, hmap, reduceCtorEq]

/-- C24 at the SYN of `synA` sent again while its flow is open. -/
theorem duplicate_syn_witness : (held 1).Send fine synA = .returned (held 1) true [] :=
  duplicate_syn (held 1) fine synA ⟨167772162, 1⟩ (by decide) (by decide) (by decide)
    (by decide)

/-- C25: an unknown or late segment is dropped. For every TCP packet without the SYN flag
whose source socket is not `local_` and whose four has no entry in `ephemerals_`, `Send`
makes no call (no packet injected) and leaves `ephemerals_`, `flows_`, the counter and the
rest of the state as they were; it returns false. -/
theorem late_segment (s : Split) (w : Await) (data : Beam)
    (htcp : u8 data 9 = IPCommon.TCP) (hsrc : sourceOf data ≠ s.local_)
    (hflag : u8 data (IPv4Header.length (u8 data 0) + 13) &&& TCPHeader.FLAG_SYN = 0)
    (hnone : s.ephemerals_.find (fourOf data) = none) :
    s.Send w data = .returned s false [] := by
  have hsrc2 : ¬ (fourOf data).source = s.local_ := hsrc
  unfold Split.Send
  simp only [htcp, if_true, hsrc2, if_false, hflag, hnone]

/-- C25 at the ACK of a flow that was never opened. -/
theorem late_segment_witness :
    (Split.Connect localA).Send fine ackA = .returned (Split.Connect localA) false [] :=
  late_segment (Split.Connect localA) fine ackA (by decide) (by decide) (by decide)
    (by decide)

/-! ## UDP payload -/

theorem IPv4Header_length_le (v : Nat) : IPv4Header.length v ≤ 60 := by
  unfold IPv4Header.length
  have h : v &&& 15 ≤ 15 := Nat.and_le_right
  rw [Nat.shiftLeft_eq]
  omega

/-- The datagram a well-formed UDP packet is forwarded as. -/
theorem punchSend_payload (data : Beam) (punch : Punch) (hp : UDPPacket data) :
    punchSend data punch =
      [.PunchSend punch
        ((data.drop (IPv4Header.length (u8 data 0) + 8)).take
          (be16 data (IPv4Header.length (u8 data 0) + 4) - 8))
        (targetOf data)] := by
  obtain ⟨-, h8, hlen⟩ := hp
  have hihl := IPv4Header_length_le (u8 data 0)
  have hlt := be16_lt data (IPv4Header.length (u8 data 0) + 4)
  have hoff : (IPv4Header.length (u8 data 0) + sizeofUDPHeader) % 65536 =
      IPv4Header.length (u8 data 0) + 8 := by
    unfold sizeofUDPHeader; omega
  have hsize : (be16 data (IPv4Header.length (u8 data 0) + 4) + 65536 - sizeofUDPHeader) % 65536 =
      be16 data (IPv4Header.length (u8 data 0) + 4) - 8 := by
    unfold sizeofUDPHeader; omega
  have hin : IPv4Header.length (u8 data 0) + 8 ≤ data.length ∧
      be16 data (IPv4Header.length (u8 data 0) + 4) - 8 ≤
        data.length - (IPv4Header.length (u8 data 0) + 8) := by omega
  unfold punchSend
  simp only [hoff, hsize, subset, hin, and_self, if_true]

/-- C23: for every UDP packet whose source already has a Punch, `Send` hands to
`punch.Send` the `udp.len - 8` bytes that start at offset IHL + 8 of the packet, addressed
to the target socket `(daddr, dport)`, and returns true whether `punch.Send` returns or
throws; it is its only call, and the whole state of the Split stays as it was. -/
theorem udp_forwards (s : Split) (unlid : Option Nat) (data : Beam) (punch : Punch)
    (hp : UDPPacket data) (hpunch : s.udp_.find (sourceOf data) = some (some punch)) :
    ∀ sent : Bool, s.Send ⟨unlid, sent⟩ data =
      .returned s true
        [.PunchSend punch
          ((data.drop (IPv4Header.length (u8 data 0) + 8)).take
            (be16 data (IPv4Header.length (u8 data 0) + 4) - 8))
          (targetOf data)] := by
  intro sent
  have hUT : ¬ (IPCommon.UDP = IPCommon.TCP) := by decide
  rw [← punchSend_payload data punch hp]
  unfold Split.Send
  simp only [hp.1, hUT, if_false, if_true, hpunch]

/-- C23 at the second datagram of 10.0.0.5:55555: its two bytes of payload go to
1.1.1.1:53 through the Punch that is open. -/
theorem udp_forwards_witness :
    punched.Send ⟨none, true⟩ dnsB =
      .returned punched true [.PunchSend ⟨⟨167772165, 55555⟩, 0⟩ [5, 6] ⟨16843009, 53⟩] ∧
    punched.Send ⟨none, false⟩ dnsB =
      .returned punched true [.PunchSend ⟨⟨167772165, 55555⟩, 0⟩ [5, 6] ⟨16843009, 53⟩] :=
  ⟨udp_forwards punched none dnsB ⟨⟨167772165, 55555⟩, 0⟩ (by decide) (by decide) true,
   udp_forwards punched none dnsB ⟨⟨167772165, 55555⟩, 0⟩ (by decide) (by decide) false⟩

/-! ## The round trip through the NAT -/

/-- A packet from `local_` to the socket of a live flow is rewritten to the flow's original
four, swapped. -/
theorem Send_reply (s : Split) (w : Await) (data : Beam) (flow : Flow)
    (htcp : u8 data 9 = IPCommon.TCP) (hsrc : sourceOf data = s.local_)
    (hflow : s.flows_.find (targetOf data) = some (some flow)) :
    s.Send w data = .returned s false
      [.Land (Forge data (IPv4Header.length (u8 data 0)) flow.four_.target flow.four_.source)
        true] := by
  have hsrc2 : (fourOf data).source = s.local_ := hsrc
  have htgt : s.flows_.find (fourOf data).target = some (some flow) := hflow
  unfold Split.Send
  simp only [htcp, if_true, hsrc2, htgt]

/-- A segment without SYN whose four is mapped is rewritten to come from the mapped socket. -/
theorem Send_mapped (s : Split) (w : Await) (data : Beam) (e : Socket)
    (htcp : u8 data 9 = IPCommon.TCP) (hsrc : sourceOf data ≠ s.local_)
    (hflag : u8 data (IPv4Header.length (u8 data 0) + 13) &&& TCPHeader.FLAG_SYN = 0)
    (hmap : s.ephemerals_.find (fourOf data) = some e) :
    s.Send w data = .returned s true
      [.Land (Forge data (IPv4Header.length (u8 data 0)) e s.local_) false] := by
  have hsrc2 : ¬ (fourOf data).source = s.local_ := hsrc
  unfold Split.Send
  simp only [htcp, if_true, hsrc2, if_false, hflag, hmap]

/-- C27, as stated, fails at a SYN: while the flow of `synA` is live on 10.0.0.2:1, the
host segment `synA`, whose four is the mapped one, is dropped and not rewritten. -/
theorem nat_round_trip_counterexample :
    (held 1).Reachable ∧ (fourOf synA).source ≠ (held 1).local_ ∧
    (held 1).ephemerals_.find (fourOf synA) = some ⟨167772162, 1⟩ ∧
    (held 1).Send fine synA = .returned (held 1) true [] :=
  ⟨⟨localA, [.Send fine synA], by decide, by decide⟩, by decide, by decide, by decide⟩

/-- C27 (amended): NAT round trip. In every reachable state in which the four `(a, b)`,
`a ≠ local_`, is mapped to the socket `e`: a host segment with four `(a, b)` and without
the SYN flag is rewritten by `Send` to source `e` and destination `local_`; the reply,
addressed from `local_` to `e`, is rewritten to source `b` and destination `a`; and no
other four is mapped to `e`. -/
theorem nat_round_trip (s : Split) (w : Await) (a b e : Socket) (segment reply : Beam)
    (hs : s.Reachable) (hmap : s.ephemerals_.find ⟨a, b⟩ = some e) (ha : a ≠ s.local_)
    (hseg : TCPPacket segment) (hfour : fourOf segment = ⟨a, b⟩)
    (hflag : u8 segment (IPv4Header.length (u8 segment 0) + 13) &&& TCPHeader.FLAG_SYN = 0)
    (hrep : TCPPacket reply) (hback : fourOf reply = ⟨s.local_, e⟩) :
    (∃ forged, s.Send w segment = .returned s true [.Land forged false] ∧
      fourOf forged = ⟨e, s.local_⟩) ∧
    (∃ back, s.Send w reply = .returned s false [.Land back true] ∧ fourOf back = ⟨b, a⟩) ∧
    (∀ f, s.ephemerals_.find f = some e → f = ⟨a, b⟩) := by
  obtain ⟨⟨hl, -, he, -⟩, hbij, -⟩ := Reachable_sound s hs
  obtain ⟨hv, hav, hbv⟩ := he _ _ hmap
  have hsrc : sourceOf segment = a := congrArg Four.source hfour
  have hrsrc : sourceOf reply = s.local_ := congrArg Four.source hback
  have hrtgt : targetOf reply = e := congrArg Four.target hback
  refine ⟨⟨_, Send_mapped s w segment e hseg.1 (hsrc ▸ ha) hflag (hfour ▸ hmap), ?_⟩,
    ⟨_, Send_reply s w reply ⟨⟨a, b⟩⟩ hrep.1 hrsrc (hrtgt ▸ hbij _ _ hmap), ?_⟩, ?_⟩
  · obtain ⟨h1, h2⟩ := Forge_sockets segment e s.local_ hseg.2.1 hseg.2.2 hv hl
    show Four.mk _ _ = _
    rw [h1, h2]
  · obtain ⟨h1, h2⟩ := Forge_sockets reply b a hrep.2.1 hrep.2.2 hbv hav
    show Four.mk _ _ = _
    rw [h1, h2]
  · intro f hf
    have h1 := hbij f e hf
    rw [hbij _ _ hmap] at h1
    have h2 : Flow.mk ⟨a, b⟩ = Flow.mk f := Option.some.inj (Option.some.inj h1)
    exact (congrArg Flow.four_ h2).symm

/-- C27 at the flow of `synA`: its ACK leaves from 10.0.0.2:1 to the acceptor, and the
reply of the acceptor comes back from 93.184.216.34:80 to 10.0.0.5:50000. -/
theorem nat_round_trip_witness :
    (∃ forged, (held 1).Send fine ackA = .returned (held 1) true [.Land forged false] ∧
      fourOf forged = ⟨⟨167772162, 1⟩, (held 1).local_⟩) ∧
    (∃ back, (held 1).Send fine replyA = .returned (held 1) false [.Land back true] ∧
      fourOf back = ⟨⟨1572395042, 80⟩, ⟨167772165, 50000⟩⟩) ∧
    (∀ f, (held 1).ephemerals_.find f = some ⟨167772162, 1⟩ →
      f = ⟨⟨167772165, 50000⟩, ⟨1572395042, 80⟩⟩) :=
  nat_round_trip (held 1) fine ⟨167772165, 50000⟩ ⟨1572395042, 80⟩ ⟨167772162, 1⟩ ackA replyA
    ⟨localA, [.Send fine synA], by decide, by decide⟩ (by decide) (by decide) (by decide)
    (by decide) (by decide) (by decide) (by decide)

/-! ## The latch of a Flow -/

theorem Splice_loop_shape (output : Nat → Bool) :
    ∀ (input : List Reading) (beam : Beam) (sends : Nat),
      ∃ chunks : List Beam,
        Flow.Splice.loop output beam input sends = chunks.map .Send ∨
        Flow.Splice.loop output beam input sends = chunks.map .Send ++ [.Shut, .count_down] := by
  intro input
  induction input with
  | nil => intro beam sends; exact ⟨[], Or.inl rfl⟩
  | cons r rest ih =>
    intro beam sends
    cases r with
    | error => exact ⟨[], Or.inr rfl⟩
    | writ bytes =>
      simp only [Flow.Splice.loop]
      split_ifs with h0 hout
      · exact ⟨[], Or.inr rfl⟩
      · obtain ⟨chunks, h | h⟩ := ih (bytes.take beam.length ++
          beam.drop (bytes.take beam.length).length) (sends + 1)
        · exact ⟨_ :: chunks, Or.inl (by rw [h]; rfl)⟩
        · exact ⟨_ :: chunks, Or.inr (by rw [h]; rfl)⟩
      · exact ⟨[_], Or.inr rfl⟩

theorem Splice_loop_ends (output : Nat → Bool) :
    ∀ (input : List Reading) (beam : Beam) (sends : Nat), (∃ r ∈ input, r.last = true) →
      ∃ chunks : List Beam,
        Flow.Splice.loop output beam input sends = chunks.map .Send ++ [.Shut, .count_down] := by
  intro input
  induction input with
  | nil => intro beam sends h; obtain ⟨r, hr, -⟩ := h; cases hr
  | cons r rest ih =>
    intro beam sends hlast
    cases r with
    | error => exact ⟨[], rfl⟩
    | writ bytes =>
      simp only [Flow.Splice.loop]
      split_ifs with h0 hout
      · exact ⟨[], rfl⟩
      · have hrest : ∃ r ∈ rest, r.last = true := by
          obtain ⟨x, hx, hxl⟩ := hlast
          rcases List.mem_cons.mp hx with rfl | hx
          · cases bytes with
            | nil => simp at h0
            | cons a l => simp [Reading.last] at hxl
          · exact ⟨x, hx, hxl⟩
        obtain ⟨chunks, h⟩ := ih (bytes.take beam.length ++
          beam.drop (bytes.take beam.length).length) (sends + 1) hrest
        exact ⟨_ :: chunks, by rw [h]; rfl⟩
      · exact ⟨[_], rfl⟩

theorem count_down_Send (chunks : List Beam) :
    (chunks.map Bridged.Send).count .count_down = 0 := by
  induction chunks with
  | nil => rfl
  | cons c cs ih => rw [List.map_cons, List.count_cons_of_ne (by simp), ih]

theorem Splice_count_le (input : List Reading) (output : Nat → Bool) :
    (Flow.Splice input output).count .count_down ≤ 1 := by
  unfold Flow.Splice
  obtain ⟨chunks, h | h⟩ := Splice_loop_shape output input (List.replicate 2048 0) 0
  · rw [h, count_down_Send]; omega
  · rw [h, List.count_append, count_down_Send]; decide

theorem Splice_count_ends (input : List Reading) (output : Nat → Bool)
    (h : (∃ r ∈ input, r.last = true) ∨ .Shut ∈ Flow.Splice input output) :
    (Flow.Splice input output).count .count_down = 1 := by
  unfold Flow.Splice at h ⊢
  have hends : ∃ chunks : List Beam,
      Flow.Splice.loop output (List.replicate 2048 0) input 0 =
        chunks.map .Send ++ [.Shut, .count_down] := by
    rcases h with h | h
    · exact Splice_loop_ends output input (List.replicate 2048 0) 0 h
    · obtain ⟨chunks, hs | hs⟩ := Splice_loop_shape output input (List.replicate 2048 0) 0
      · rw [hs] at h
        obtain ⟨c, -, hc⟩ := List.mem_map.mp h
        cases hc
      · exact ⟨chunks, hs⟩
  obtain ⟨chunks, h⟩ := hends
  rw [h, List.count_append, count_down_Send]; decide

/-- The calls of a splice task: its `Send` calls, then possibly `Shut` and `count_down`. -/
theorem Splice_shape (input : List Reading) (output : Nat → Bool) :
    ∃ chunks : List Beam, Flow.Splice input output = chunks.map .Send ∨
      Flow.Splice input output = chunks.map .Send ++ [.Shut, .count_down] :=
  Splice_loop_shape output input (List.replicate 2048 0) 0

theorem not_mem_Send (chunks : List Beam) (call : Bridged) (h : ∀ c, call ≠ .Send c) :
    call ∉ chunks.map Bridged.Send := by
  intro hm
  obtain ⟨c, -, hc⟩ := List.mem_map.mp hm
  exact h c hc.symm

/-- In the calls of a splice task, `Shut` comes before `count_down`. -/
theorem Splice_Shut_before (input : List Reading) (output : Nat → Bool)
    (before after : List Bridged)
    (h : before ++ .count_down :: after <+: Flow.Splice input output) : .Shut ∈ before := by
  obtain ⟨t, ht⟩ := h
  have hcd : ∀ chunks : List Beam, Bridged.count_down ∉ chunks.map Bridged.Send :=
    fun chunks => not_mem_Send chunks _ (fun _ hc => by cases hc)
  obtain ⟨chunks, hs | hs⟩ := Splice_shape input output
  · exfalso
    apply hcd chunks
    rw [← hs, ← ht]
    simp
  · rw [hs, List.append_assoc] at ht
    rcases List.append_eq_append_iff.mp ht with ⟨a, ha, hb⟩ | ⟨c, hc, hb⟩
    · exfalso
      cases a with
      | nil =>
        rw [List.nil_append] at hb
        cases hb
      | cons x a =>
        rw [List.cons_append] at hb
        have hx : x = .count_down := (List.cons.inj hb).1.symm
        apply hcd chunks
        rw [ha, hx]
        simp
    · cases c with
      | nil =>
        rw [List.nil_append] at hb
        cases hb
      | cons x c =>
        rw [List.cons_append] at hb
        have hx : x = .Shut := (List.cons.inj hb).1.symm
        rw [hc, hx]
        simp

/-! ## The tasks of an opened Flow under a schedule -/

theorem run_ofUp (schedule : List Flow.Task) : ∀ r : Flow.Opened,
    (r.run schedule).filterMap Flow.Event.ofUp = r.up.take (schedule.count .up) := by
  induction schedule with
  | nil => intro r; simp [Flow.Opened.run]
  | cons task schedule ih =>
    intro r
    rw [Flow.Opened.run, List.filterMap_append, ih]
    cases task with
    | waiter =>
      rw [List.count_cons_of_ne (by decide)]
      unfold Flow.Opened.step
      split_ifs <;> simp [Flow.Event.ofUp]
    | up =>
      rw [List.count_cons_self]
      unfold Flow.Opened.step
      cases hup : r.up with
      | nil => simp [hup]
      | cons call rest => simp [Flow.Event.ofUp]
    | down =>
      rw [List.count_cons_of_ne (by decide)]
      unfold Flow.Opened.step
      cases hdown : r.down with
      | nil => simp
      | cons call rest => simp [Flow.Event.ofUp]

theorem run_ofDown (schedule : List Flow.Task) : ∀ r : Flow.Opened,
    (r.run schedule).filterMap Flow.Event.ofDown = r.down.take (schedule.count .down) := by
  induction schedule with
  | nil => intro r; simp [Flow.Opened.run]
  | cons task schedule ih =>
    intro r
    rw [Flow.Opened.run, List.filterMap_append, ih]
    cases task with
    | waiter =>
      rw [List.count_cons_of_ne (by decide)]
      unfold Flow.Opened.step
      split_ifs <;> simp [Flow.Event.ofDown]
    | up =>
      rw [List.count_cons_of_ne (by decide)]
      unfold Flow.Opened.step
      cases hup : r.up with
      | nil => simp
      | cons call rest => simp [Flow.Event.ofDown]
    | down =>
      rw [List.count_cons_self]
      unfold Flow.Opened.step
      cases hdown : r.down with
      | nil => simp [hdown]
      | cons call rest => simp [Flow.Event.ofDown]

theorem count_ofUp (call : Bridged) (trace : List Flow.Event) :
    trace.count (.up call) = (trace.filterMap Flow.Event.ofUp).count call := by
  induction trace with
  | nil => rfl
  | cons e trace ih =>
    cases e with
    | up c =>
      by_cases h : c = call
      · subst h
        simp [Flow.Event.ofUp, ih]
      · have h2 : Flow.Event.up call ≠ Flow.Event.up c := fun hc => h (by cases hc; rfl)
        rw [List.count_cons_of_ne h2, ih]
        simp [Flow.Event.ofUp, List.count_cons_of_ne (Ne.symm h)]
    | down c => rw [List.count_cons_of_ne (by simp), ih]; simp [Flow.Event.ofUp]
    | Pull f => rw [List.count_cons_of_ne (by simp), ih]; simp [Flow.Event.ofUp]

theorem count_ofDown (call : Bridged) (trace : List Flow.Event) :
    trace.count (.down call) = (trace.filterMap Flow.Event.ofDown).count call := by
  induction trace with
  | nil => rfl
  | cons e trace ih =>
    cases e with
    | down c =>
      by_cases h : c = call
      · subst h
        simp [Flow.Event.ofDown, ih]
      · have h2 : Flow.Event.down call ≠ Flow.Event.down c := fun hc => h (by cases hc; rfl)
        rw [List.count_cons_of_ne h2, ih]
        simp [Flow.Event.ofDown, List.count_cons_of_ne (Ne.symm h)]
    | up c => rw [List.count_cons_of_ne (by simp), ih]; simp [Flow.Event.ofDown]
    | Pull f => rw [List.count_cons_of_ne (by simp), ih]; simp [Flow.Event.ofDown]

theorem mem_ofUp (call : Bridged) (trace : List Flow.Event) :
    call ∈ trace.filterMap Flow.Event.ofUp ↔ .up call ∈ trace := by
  rw [← List.count_pos_iff, ← List.count_pos_iff, count_ofUp]

theorem mem_ofDown (call : Bridged) (trace : List Flow.Event) :
    call ∈ trace.filterMap Flow.Event.ofDown ↔ .down call ∈ trace := by
  rw [← List.count_pos_iff, ← List.count_pos_iff, count_ofDown]

theorem step_waiter_pos (r : Flow.Opened) (h : r.waiting = true ∧ r.latch_ ≤ 0) :
    r.step .waiter = ({ r with waiting := false }, [.Pull r.four_]) := by
  unfold Flow.Opened.step
  rw [if_pos h]

theorem step_waiter_neg (r : Flow.Opened) (h : ¬ (r.waiting = true ∧ r.latch_ ≤ 0)) :
    r.step .waiter = (r, []) := by
  unfold Flow.Opened.step
  rw [if_neg h]

theorem step_up_nil (r : Flow.Opened) (h : r.up = []) : r.step .up = (r, []) := by
  unfold Flow.Opened.step
  simp only [h]

theorem step_up_cons (r : Flow.Opened) (call : Bridged) (rest : List Bridged)
    (h : r.up = call :: rest) :
    r.step .up = ({ r with up := rest, latch_ := call.latch r.latch_ }, [.up call]) := by
  unfold Flow.Opened.step
  simp only [h]

theorem step_down_nil (r : Flow.Opened) (h : r.down = []) : r.step .down = (r, []) := by
  unfold Flow.Opened.step
  simp only [h]

theorem step_down_cons (r : Flow.Opened) (call : Bridged) (rest : List Bridged)
    (h : r.down = call :: rest) :
    r.step .down = ({ r with down := rest, latch_ := call.latch r.latch_ }, [.down call]) := by
  unfold Flow.Opened.step
  simp only [h]

/-- When `Pull` is called: by the task of `Open` only, for the four of the Flow, and only
once the count-downs made since have taken the latch to zero. -/
theorem run_Pull (schedule : List Flow.Task) :
    ∀ (r : Flow.Opened) (before after : List Flow.Event) (f : Four),
      r.run schedule = before ++ .Pull f :: after →
      f = r.four_ ∧ r.waiting = true ∧
        r.latch_ ≤ (before.count (.up .count_down) + before.count (.down .count_down) : Nat) ∧
        ∀ g, Flow.Event.Pull g ∉ before ∧ Flow.Event.Pull g ∉ after := by
  induction schedule with
  | nil =>
    intro r before after f h
    simp [Flow.Opened.run] at h
  | cons task schedule ih =>
    intro r before after f h
    rw [Flow.Opened.run] at h
    have hcall : ∀ (e : Flow.Event) (u : Flow.Opened) (k : Nat),
        (∀ g, e ≠ .Pull g) → u.four_ = r.four_ → u.waiting = r.waiting →
        r.latch_ ≤ u.latch_ + k →
        k = [e].count (.up .count_down) + [e].count (.down .count_down) →
        [e] ++ u.run schedule = before ++ .Pull f :: after →
        f = r.four_ ∧ r.waiting = true ∧
          r.latch_ ≤ (before.count (.up .count_down) + before.count (.down .count_down) : Nat) ∧
          ∀ g, Flow.Event.Pull g ∉ before ∧ Flow.Event.Pull g ∉ after := by
      intro e u k he hfour hwait hlatch hk h
      cases before with
      | nil => exact absurd (List.cons.inj h).1 (he f)
      | cons b before =>
        simp only [List.cons_append, List.nil_append, List.cons.injEq] at h
        obtain ⟨hb, hrest⟩ := h
        subst hb
        obtain ⟨h1, h2, h3, h4⟩ := ih u before after f hrest
        refine ⟨h1.trans hfour, hwait ▸ h2, ?_, fun g => ⟨?_, (h4 g).2⟩⟩
        · rw [List.count_cons, List.count_cons]
          rw [List.count_singleton, List.count_singleton] at hk
          omega
        · intro hm
          rcases List.mem_cons.mp hm with hg | hg
          · exact he g hg.symm
          · exact (h4 g).1 hg
    cases task with
    | waiter =>
      by_cases hw : r.waiting = true ∧ r.latch_ ≤ 0
      · rw [step_waiter_pos r hw] at h
        cases before with
        | nil =>
          simp only [List.cons_append, List.nil_append, List.cons.injEq] at h
          obtain ⟨hb, hrest⟩ := h
          refine ⟨by cases hb; rfl, hw.1, by simpa using hw.2, fun g => ⟨by simp, ?_⟩⟩
          intro hm
          obtain ⟨x, y, hxy⟩ := List.append_of_mem hm
          rw [← hrest] at hxy
          have := (ih _ x y g hxy).2.1
          simp at this
        | cons b before =>
          simp only [List.cons_append, List.nil_append, List.cons.injEq] at h
          obtain ⟨hb, hrest⟩ := h
          have := (ih _ before after f hrest).2.1
          simp at this
      · rw [step_waiter_neg r hw] at h
        exact ih r before after f h
    | up =>
      cases hup : r.up with
      | nil =>
        rw [step_up_nil r hup] at h
        exact ih r before after f h
      | cons call rest =>
        rw [step_up_cons r call rest hup] at h
        by_cases hc : call = .count_down
        · exact hcall (.up call) { r with up := rest, latch_ := call.latch r.latch_ } 1 (fun g hg => by cases hg) rfl rfl
            (by simp [Bridged.latch, hc]) (by subst hc; decide) h
        · exact hcall (.up call) { r with up := rest, latch_ := call.latch r.latch_ } 0 (fun g hg => by cases hg) rfl rfl
            (by simp [Bridged.latch, hc])
            (by simp [List.count_singleton, hc]) h
    | down =>
      cases hdown : r.down with
      | nil =>
        rw [step_down_nil r hdown] at h
        exact ih r before after f h
      | cons call rest =>
        rw [step_down_cons r call rest hdown] at h
        by_cases hc : call = .count_down
        · exact hcall (.down call) { r with down := rest, latch_ := call.latch r.latch_ } 1 (fun g hg => by cases hg) rfl rfl
            (by simp [Bridged.latch, hc]) (by subst hc; decide) h
        · exact hcall (.down call) { r with down := rest, latch_ := call.latch r.latch_ } 0 (fun g hg => by cases hg) rfl rfl
            (by simp [Bridged.latch, hc])
            (by simp [List.count_singleton, hc]) h

theorem count_take_le (call : Bridged) (n : Nat) (calls : List Bridged) :
    (calls.take n).count call ≤ calls.count call :=
  (List.take_sublist n calls).count_le call

/-- C26: for every Flow on which `Open()` is called, whatever its two streams do and in
whatever order the scheduler runs the tasks: the latch starts at 2; each splice task counts
the latch down at most once, and only after its call of `Shut()` on its output; a splice
task whose loop ends (its input ends or fails, or it comes to call `Shut()` after a write
that fails) and which is run to its end counts down exactly once; and `Pull` is called only
by the task that awaits the latch, with `four_`, after both splice tasks have counted down,
which is the last thing each does, and at most once. -/
theorem open_latch (flow : Flow) (up_ down_ : Stream) (schedule : List Flow.Task) :
    (flow.Open up_ down_).latch_ = 2 ∧
    ((flow.Open up_ down_).run schedule).count (.up .count_down) ≤ 1 ∧
    ((flow.Open up_ down_).run schedule).count (.down .count_down) ≤ 1 ∧
    (∀ before after, (flow.Open up_ down_).run schedule = before ++ .up .count_down :: after →
      .up .Shut ∈ before) ∧
    (∀ before after, (flow.Open up_ down_).run schedule = before ++ .down .count_down :: after →
      .down .Shut ∈ before) ∧
    ((∃ r ∈ up_.reads, r.last = true) ∨ .Shut ∈ Flow.Splice up_.reads down_.sends →
      (Flow.Splice up_.reads down_.sends).length ≤ schedule.count .up →
      ((flow.Open up_ down_).run schedule).count (.up .count_down) = 1) ∧
    ((∃ r ∈ down_.reads, r.last = true) ∨ .Shut ∈ Flow.Splice down_.reads up_.sends →
      (Flow.Splice down_.reads up_.sends).length ≤ schedule.count .down →
      ((flow.Open up_ down_).run schedule).count (.down .count_down) = 1) ∧
    (∀ before f after, (flow.Open up_ down_).run schedule = before ++ .Pull f :: after →
      f = flow.four_ ∧ .up .count_down ∈ before ∧ .down .count_down ∈ before ∧
      ∀ g, Flow.Event.Pull g ∉ before ∧ Flow.Event.Pull g ∉ after) := by
  have hup := run_ofUp schedule (flow.Open up_ down_)
  have hdown := run_ofDown schedule (flow.Open up_ down_)
  have hu : (flow.Open up_ down_).up = Flow.Splice up_.reads down_.sends := rfl
  have hd : (flow.Open up_ down_).down = Flow.Splice down_.reads up_.sends := rfl
  rw [hu] at hup
  rw [hd] at hdown
  have hcu : ((flow.Open up_ down_).run schedule).count (.up .count_down) ≤ 1 := by
    rw [count_ofUp, hup]
    exact (count_take_le _ _ _).trans (Splice_count_le _ _)
  have hcd : ((flow.Open up_ down_).run schedule).count (.down .count_down) ≤ 1 := by
    rw [count_ofDown, hdown]
    exact (count_take_le _ _ _).trans (Splice_count_le _ _)
  refine ⟨rfl, hcu, hcd, ?_, ?_, ?_, ?_, ?_⟩
  · intro before after h
    rw [h, List.filterMap_append, List.filterMap_cons] at hup
    have hp : before.filterMap Flow.Event.ofUp ++
        .count_down :: after.filterMap Flow.Event.ofUp <+:
          Flow.Splice up_.reads down_.sends := by
      have := List.take_prefix (schedule.count .up) (Flow.Splice up_.reads down_.sends)
      rw [← hup] at this
      exact this
    exact (mem_ofUp _ _).mp (Splice_Shut_before _ _ _ _ hp)
  · intro before after h
    rw [h, List.filterMap_append, List.filterMap_cons] at hdown
    have hp : before.filterMap Flow.Event.ofDown ++
        .count_down :: after.filterMap Flow.Event.ofDown <+:
          Flow.Splice down_.reads up_.sends := by
      have := List.take_prefix (schedule.count .down) (Flow.Splice down_.reads up_.sends)
      rw [← hdown] at this
      exact this
    exact (mem_ofDown _ _).mp (Splice_Shut_before _ _ _ _ hp)
  · intro hend hrun
    rw [count_ofUp, hup, List.take_of_length_le hrun]
    exact Splice_count_ends _ _ hend
  · intro hend hrun
    rw [count_ofDown, hdown, List.take_of_length_le hrun]
    exact Splice_count_ends _ _ hend
  · intro before f after h
    obtain ⟨h1, -, h3, h4⟩ := run_Pull schedule _ before after f h
    have hl : (flow.Open up_ down_).latch_ = 2 := rfl
    rw [hl] at h3
    have hsub : List.Sublist before ((flow.Open up_ down_).run schedule) := by
      rw [h]
      exact List.sublist_append_left _ _
    have h5 := (hsub.count_le (Flow.Event.up .count_down)).trans hcu
    have h6 := (hsub.count_le (Flow.Event.down .count_down)).trans hcd
    refine ⟨h1, List.count_pos_iff.mp ?_, List.count_pos_iff.mp ?_, h4⟩
    · omega
    · omega

/-- C26 at a Flow whose host side sends two chunks and closes, and whose other side fails
at once: the second task shuts and counts down first, the task of `Open` gets turns before
and in between and does nothing, and `Pull` comes last, once. -/
theorem open_latch_witness :
    (Flow.Open ⟨fourOf synA⟩ ⟨[.writ [1, 2], .writ [3], .writ []], fun _ => true⟩
        ⟨[.error], fun _ => true⟩).run
      [.waiter, .down, .down, .waiter, .up, .up, .waiter, .up, .up, .waiter, .waiter, .up] =
      [.down .Shut, .down .count_down, .up (.Send [1, 2]), .up (.Send [3]), .up .Shut,
        .up .count_down, .Pull (fourOf synA)] ∧
    ((Flow.Open ⟨fourOf synA⟩ ⟨[.writ [1, 2], .writ [3], .writ []], fun _ => true⟩
        ⟨[.error], fun _ => true⟩).run
      [.waiter, .down, .down, .waiter, .up, .up, .waiter, .up, .up, .waiter, .waiter,
        .up]).count (.up .count_down) = 1 := by
  have hU : Flow.Splice [.writ [1, 2], .writ [3], .writ []] (fun _ => true) =
      [.Send [1, 2], .Send [3], .Shut, .count_down] :=
    Splice_loop_all (fun _ => true) (.writ []) [] rfl [[1, 2], [3]] (List.replicate 2048 0) 0
      (List.length_replicate _ _) (by decide) (fun _ _ => rfl)
  have hD : Flow.Splice [.error] (fun _ => true) = [.Shut, .count_down] :=
    Splice_loop_last (fun _ => true) (List.replicate 2048 0) .error [] 0 rfl
  refine ⟨?_, (open_latch ⟨fourOf synA⟩ ⟨[.writ [1, 2], .writ [3], .writ []], fun _ => true⟩
      ⟨[.error], fun _ => true⟩
      [.waiter, .down, .down, .waiter, .up, .up, .waiter, .up, .up, .waiter, .waiter,
        .up]).2.2.2.2.2.1 (Or.inl ⟨.writ [], by decide, rfl⟩) ?_⟩
  · show (Flow.Opened.mk (fourOf synA) Flow.latch_ true
        (Flow.Splice [.writ [1, 2], .writ [3], .writ []] (fun _ => true))
        (Flow.Splice [.error] (fun _ => true))).run _ = _
    rw [hU, hD]
    decide
  · show (Flow.Splice [.writ [1, 2], .writ [3], .writ []] (fun _ => true)).length ≤ _
    rw [hU]
    decide

/-! ## The checksums of the reset -/

theorem fold16_pos (x : Nat) (hx : x < 4294967296) (h0 : 0 < x) :
    fold16 x = (x - 1) % 65535 + 1 := by
  unfold fold16
  dsimp only
  have h1 : x % 65536 + x / 65536 < 131071 := by omega
  generalize hy : x % 65536 + x / 65536 = y at h1 ⊢
  have h2 : (y % 65536 + y / 65536) % 65536 = y % 65536 + y / 65536 := by omega
  rw [h2]
  omega

theorem fold16_swap (A B : Nat) (hA : A ≤ 2550) (hB : B ≤ 2550) :
    (65535 - fold16 (A + B * 256)) % 256 * 256 + (65535 - fold16 (A + B * 256)) / 256 % 256 =
      65535 - fold16 (A * 256 + B) := by
  by_cases h0 : A + B * 256 = 0
  · have hA0 : A = 0 := by omega
    have hB0 : B = 0 := by omega
    subst hA0 hB0
    decide
  · rw [fold16_pos _ (by omega) (by omega), fold16_pos _ (by omega) (by omega)]
    have hq := (Nat.div_add_mod (A + B * 256 - 1) 65535).symm
    have hp := (Nat.div_add_mod (A * 256 + B - 1) 65535).symm
    have hl1 : (A + B * 256 - 1) % 65535 < 65535 := Nat.mod_lt _ (by decide)
    have hm1 : (A * 256 + B - 1) % 65535 < 65535 := Nat.mod_lt _ (by decide)
    generalize (A + B * 256 - 1) % 65535 = l at hq hl1 ⊢
    generalize (A * 256 + B - 1) % 65535 = m at hp hm1 ⊢
    generalize (A + B * 256 - 1) / 65535 = q at hq
    generalize (A * 256 + B - 1) / 65535 = p at hp
    generalize hc : 65535 - (l + 1) = c
    have hc1 : c + l = 65534 := by omega
    generalize hh : c / 256 = h
    generalize hlo : c % 256 = lo
    have hc2 : c = 256 * h + lo := by omega
    have hlo1 : lo < 256 := by omega
    have hh1 : h < 256 := by omega
    have hh2 : h % 256 = h := by omega
    rw [hh2]
    have key : (m + 1) + (lo * 256 + h) + 65535 * (B + p + h) = 65535 * (256 * q + 256) := by
      omega
    omega

theorem fold16_adjust (S : Nat) (hS : S ≤ 1000000) :
    let k := (11 + (65535 - fold16 (S + 37))) / 65536 + (11 + (65535 - fold16 (S + 37))) % 65536
    (65535 - fold16 (S + 26) ≠ 0 → (k + k / 65536) % 65536 = 65535 - fold16 (S + 26)) ∧
    (65535 - fold16 (S + 26) = 0 → (k + k / 65536) % 65536 = 65535) := by
  rw [fold16_pos _ (by omega) (by omega), fold16_pos _ (by omega) (by omega)]
  have h1 : S + 26 - 1 = S + 25 := by omega
  have h2 : S + 37 - 1 = S + 25 + 11 := by omega
  rw [h1, h2]
  generalize hr : (S + 25) % 65535 = r
  have hr1 : r < 65535 := by omega
  have hx : (S + 25 + 11) % 65535 = (r + 11) % 65535 := by omega
  rw [hx]
  dsimp only
  by_cases hc : r + 11 < 65535
  · have : (r + 11) % 65535 = r + 11 := by omega
    rw [this]
    omega
  · have : (r + 11) % 65535 = r + 11 - 65535 := by omega
    rw [this]
    omega


theorem fold16_verify (X k : Nat) (hX : X ≤ 1000000) (h0 : 0 < X)
    (h : (65535 - fold16 X ≠ 0 → k = 65535 - fold16 X) ∧ (65535 - fold16 X = 0 → k = 65535)) :
    fold16 (X + k) = 65535 := by
  have hk : k ≤ 65535 := by
    by_cases hz : 65535 - fold16 X = 0
    · rw [h.2 hz]
    · rw [h.1 hz]; omega
  rw [fold16_pos _ (by omega) (by omega)]
  rw [fold16_pos _ (by omega) h0] at h
  have hq := (Nat.div_add_mod (X - 1) 65535).symm
  have hr : (X - 1) % 65535 < 65535 := Nat.mod_lt _ (by decide)
  generalize (X - 1) % 65535 = r at h hq hr
  generalize (X - 1) / 65535 = q at hq
  by_cases hz : r = 65534
  · have hk2 : k = 65535 := h.2 (by omega)
    have : X + k - 1 = 65535 * (q + 1) + 65534 := by omega
    rw [this, Nat.mul_add_mod]
  · have hk2 : k = 65535 - (r + 1) := h.1 (by omega)
    have : X + k - 1 = 65535 * q + 65534 := by omega
    rw [this, Nat.mul_add_mod]

theorem tcp_adjust_checksum_11 (cksum : Nat) :
    tcp_adjust_checksum 11 cksum =
      ((11 + cksum) / 65536 + (11 + cksum) % 65536 +
        ((11 + cksum) / 65536 + (11 + cksum) % 65536) / 65536) % 65536 := by
  have h1 : ¬ ((11 : Int) + (cksum : Int) < 0) := by omega
  have h2 : ((11 : Int) + (cksum : Int)).toNat = 11 + cksum := by omega
  unfold tcp_adjust_checksum
  rw [if_neg h1]
  dsimp only
  rw [h2]

/-- The IPv4 checksum `Reset` stores, read from the wire, is the checksum of the header
summed in network byte order. -/
theorem ip4_check_bytes (s3 s2 s1 s0 t3 t2 t1 t0 : Nat)
    (h1 : s3 < 256) (h2 : s2 < 256) (h3 : s1 < 256) (h4 : s0 < 256)
    (h5 : t3 < 256) (h6 : t2 < 256) (h7 : t1 < 256) (h8 : t0 < 256) :
    IPChecksum.checksum [69, 0, 0, 40, 0, 0, 0, 0, 64, 6, 0, 0,
        s3, s2, s1, s0, t3, t2, t1, t0] % 256 * 256 +
      IPChecksum.checksum [69, 0, 0, 40, 0, 0, 0, 0, 64, 6, 0, 0,
        s3, s2, s1, s0, t3, t2, t1, t0] / 256 % 256 =
      65535 - fold16 (sumBe16 [69, 0, 0, 40, 0, 0, 0, 0, 64, 6, 0, 0,
        s3, s2, s1, s0, t3, t2, t1, t0]) := by
  have hn : sumNative16 [69, 0, 0, 40, 0, 0, 0, 0, 64, 6, 0, 0,
      s3, s2, s1, s0, t3, t2, t1, t0] =
      (133 + s3 + s1 + t3 + t1) + (46 + s2 + s0 + t2 + t0) * 256 := by
    simp only [sumNative16, Nat.mod_eq_of_lt h1, Nat.mod_eq_of_lt h2, Nat.mod_eq_of_lt h3,
      Nat.mod_eq_of_lt h4, Nat.mod_eq_of_lt h5, Nat.mod_eq_of_lt h6, Nat.mod_eq_of_lt h7,
      Nat.mod_eq_of_lt h8]
    omega
  have hb : sumBe16 [69, 0, 0, 40, 0, 0, 0, 0, 64, 6, 0, 0,
      s3, s2, s1, s0, t3, t2, t1, t0] =
      (133 + s3 + s1 + t3 + t1) * 256 + (46 + s2 + s0 + t2 + t0) := by
    simp only [sumBe16, Nat.mod_eq_of_lt h1, Nat.mod_eq_of_lt h2, Nat.mod_eq_of_lt h3,
      Nat.mod_eq_of_lt h4, Nat.mod_eq_of_lt h5, Nat.mod_eq_of_lt h6, Nat.mod_eq_of_lt h7,
      Nat.mod_eq_of_lt h8]
    omega
  unfold IPChecksum.checksum
  rw [hn, hb]
  exact fold16_swap _ _ (by omega) (by omega)

/-- The TCP checksum `Reset` stores against the checksum of the pseudo-header of TCP and
the TCP header. -/
theorem tcp_check_bytes (header src dst : Beam) (hh : sumBe16 header ≤ 700000)
    (hs : sumBe16 src ≤ 140000) (hd : sumBe16 dst ≤ 140000) (hl : header.length = 20)
    (hsl : src.length = 4) (hdl : dst.length = 4) :
    (65535 - fold16 (sumBe16 src + sumBe16 dst + IPCommon.TCP + 20 + sumBe16 header) ≠ 0 →
      tcp_adjust_checksum 11 (udp_checksum header 20 src dst) =
        65535 - fold16 (sumBe16 src + sumBe16 dst + IPCommon.TCP + 20 + sumBe16 header)) ∧
    (65535 - fold16 (sumBe16 src + sumBe16 dst + IPCommon.TCP + 20 + sumBe16 header) = 0 →
      tcp_adjust_checksum 11 (udp_checksum header 20 src dst) = 65535) := by
  have h1 : header.take 20 = header := List.take_of_length_le (by omega)
  have h2 : src.take 4 = src := List.take_of_length_le (by omega)
  have h3 : dst.take 4 = dst := List.take_of_length_le (by omega)
  have h4 : sumBe16 header + sumBe16 src + sumBe16 dst + IPCommon.UDP + 20 % 65536 =
      (sumBe16 header + sumBe16 src + sumBe16 dst) + 37 := by
    unfold IPCommon.UDP; omega
  have h5 : sumBe16 src + sumBe16 dst + IPCommon.TCP + 20 + sumBe16 header =
      (sumBe16 header + sumBe16 src + sumBe16 dst) + 26 := by
    unfold IPCommon.TCP; omega
  rw [tcp_adjust_checksum_11]
  unfold udp_checksum
  rw [h1, h2, h3, h4, h5]
  exact fold16_adjust _ (by omega)

theorem replicate_40 : List.replicate 40 (0 : Nat) =
    [0, 0, 0, 0, 0, 0, 0, 0, 0, 0, 0, 0, 0, 0, 0, 0, 0, 0, 0, 0,
     0, 0, 0, 0, 0, 0, 0, 0, 0, 0, 0, 0, 0, 0, 0, 0, 0, 0, 0, 0] := by decide

/-- The forty bytes of the buffer `Split::Reset` builds. -/
theorem Reset_layout (cs : Checksums) (source target : Socket) (sequence acknowledge : Nat) :
    Reset cs source target sequence acknowledge =
      [69, 0, 0, 40, 0, 0, 0, 0, 64, 6,
       cs.checksum [69, 0, 0, 40, 0, 0, 0, 0, 64, 6, 0, 0,
         source.host / 65536 / 256 % 256, source.host / 65536 % 256,
         source.host / 256 % 256, source.host % 256,
         target.host / 65536 / 256 % 256, target.host / 65536 % 256,
         target.host / 256 % 256, target.host % 256] % 256,
       cs.checksum [69, 0, 0, 40, 0, 0, 0, 0, 64, 6, 0, 0,
         source.host / 65536 / 256 % 256, source.host / 65536 % 256,
         source.host / 256 % 256, source.host % 256,
         target.host / 65536 / 256 % 256, target.host / 65536 % 256,
         target.host / 256 % 256, target.host % 256] / 256 % 256,
       source.host / 65536 / 256 % 256, source.host / 65536 % 256,
       source.host / 256 % 256, source.host % 256,
       target.host / 65536 / 256 % 256, target.host / 65536 % 256,
       target.host / 256 % 256, target.host % 256,
       source.port / 256 % 256, source.port % 256,
       target.port / 256 % 256, target.port % 256,
       sequence / 65536 / 256 % 256, sequence / 65536 % 256,
       sequence / 256 % 256, sequence % 256,
       acknowledge / 65536 / 256 % 256, acknowledge / 65536 % 256,
       acknowledge / 256 % 256, acknowledge % 256,
       80, 20, 0, 0,
       cs.tcp_adjust_checksum 11 (cs.udp_checksum
         [source.port / 256 % 256, source.port % 256,
          target.port / 256 % 256, target.port % 256,
          sequence / 65536 / 256 % 256, sequence / 65536 % 256,
          sequence / 256 % 256, sequence % 256,
          acknowledge / 65536 / 256 % 256, acknowledge / 65536 % 256,
          acknowledge / 256 % 256, acknowledge % 256, 80, 20, 0, 0, 0, 0, 0, 0] 20
         [source.host / 65536 / 256 % 256, source.host / 65536 % 256,
          source.host / 256 % 256, source.host % 256]
         [target.host / 65536 / 256 % 256, target.host / 65536 % 256,
          target.host / 256 % 256, target.host % 256]) / 256 % 256,
       cs.tcp_adjust_checksum 11 (cs.udp_checksum
         [source.port / 256 % 256, source.port % 256,
          target.port / 256 % 256, target.port % 256,
          sequence / 65536 / 256 % 256, sequence / 65536 % 256,
          sequence / 256 % 256, sequence % 256,
          acknowledge / 65536 / 256 % 256, acknowledge / 65536 % 256,
          acknowledge / 256 % 256, acknowledge % 256, 80, 20, 0, 0, 0, 0, 0, 0] 20
         [source.host / 65536 / 256 % 256, source.host / 65536 % 256,
          source.host / 256 % 256, source.host % 256]
         [target.host / 65536 / 256 % 256, target.host / 65536 % 256,
          target.host / 256 % 256, target.host % 256]) % 256,
       0, 0] := by
  have hv : IPv4Header.ver_len 4 20 = 69 := by decide
  have hd : (20 <<< 2 : Nat) = 80 := by decide
  have hf : (4 ||| 16 : Nat) = 20 := by decide
  have hacc : (IPCommon.UDP : Int) - (IPCommon.TCP : Int) = 11 := by decide
  have h6 : IPCommon.TCP % 256 = 6 := by decide
  simp only [Reset, hacc, replicate_40, putBe16, putBe32, putNative16, put8, hv, hd, hf,
    h6, List.set_cons_succ, List.set_cons_zero, Nat.reduceAdd, Nat.reduceMod,
    Nat.reduceDiv, Nat.zero_mod, Nat.zero_div, List.take_succ_cons, List.take_zero,
    List.drop_succ_cons, List.drop_zero]


/-- C21 (amended): for every source socket, target socket, sequence and acknowledgement
value, the packet `Reset` builds with the checksum routines of openvpn3 stores, as laid out
on the wire, the IPv4 header checksum that a recomputation from scratch over its 20-byte
header yields; the TCP checksum it stores is the one a recomputation from scratch over the
pseudo-header (protocol 6, length 20) and the 20-byte TCP header yields, except when that
is 0x0000: the packet then stores 0xFFFF, the other zero of one's complement arithmetic.
In both cases the one's complement sum of the pseudo-header and the segment as stored is
0xFFFF, which is what a receiver checks. -/
theorem reset_checksums (source target : Socket) (sequence acknowledge : Nat) :
    be16 (Reset openvpn source target sequence acknowledge) 10 =
      IPv4Header.check (Reset openvpn source target sequence acknowledge) ∧
    (TCPHeader.check (Reset openvpn source target sequence acknowledge) ≠ 0 →
      be16 (Reset openvpn source target sequence acknowledge) 36 =
        TCPHeader.check (Reset openvpn source target sequence acknowledge)) ∧
    (TCPHeader.check (Reset openvpn source target sequence acknowledge) = 0 →
      be16 (Reset openvpn source target sequence acknowledge) 36 = 65535) ∧
    fold16 (sumBe16 (((Reset openvpn source target sequence acknowledge).drop 12).take 8) +
      IPCommon.TCP + 20 +
      sumBe16 (((Reset openvpn source target sequence acknowledge).drop 20).take 20)) =
        65535 := by
  rw [Reset_layout]
  have b1 : source.host / 65536 / 256 % 256 < 256 := Nat.mod_lt _ (by decide)
  have b2 : source.host / 65536 % 256 < 256 := Nat.mod_lt _ (by decide)
  have b3 : source.host / 256 % 256 < 256 := Nat.mod_lt _ (by decide)
  have b4 : source.host % 256 < 256 := Nat.mod_lt _ (by decide)
  have b5 : target.host / 65536 / 256 % 256 < 256 := Nat.mod_lt _ (by decide)
  have b6 : target.host / 65536 % 256 < 256 := Nat.mod_lt _ (by decide)
  have b7 : target.host / 256 % 256 < 256 := Nat.mod_lt _ (by decide)
  have b8 : target.host % 256 < 256 := Nat.mod_lt _ (by decide)
  generalize source.host / 65536 / 256 % 256 = s3 at b1 ⊢
  generalize source.host / 65536 % 256 = s2 at b2 ⊢
  generalize source.host / 256 % 256 = s1 at b3 ⊢
  generalize source.host % 256 = s0 at b4 ⊢
  generalize target.host / 65536 / 256 % 256 = t3 at b5 ⊢
  generalize target.host / 65536 % 256 = t2 at b6 ⊢
  generalize target.host / 256 % 256 = t1 at b7 ⊢
  generalize target.host % 256 = t0 at b8 ⊢
  generalize source.port / 256 % 256 = p1
  generalize source.port % 256 = p0
  generalize target.port / 256 % 256 = r1
  generalize target.port % 256 = r0
  generalize sequence / 65536 / 256 % 256 = q3
  generalize sequence / 65536 % 256 = q2
  generalize sequence / 256 % 256 = q1
  generalize sequence % 256 = q0
  generalize acknowledge / 65536 / 256 % 256 = a3
  generalize acknowledge / 65536 % 256 = a2
  generalize acknowledge / 256 % 256 = a1
  generalize acknowledge % 256 = a0
  have hip := ip4_check_bytes s3 s2 s1 s0 t3 t2 t1 t0 b1 b2 b3 b4 b5 b6 b7 b8
  have hk : tcp_adjust_checksum 11 (udp_checksum
      [p1, p0, r1, r0, q3, q2, q1, q0, a3, a2, a1, a0, 80, 20, 0, 0, 0, 0, 0, 0] 20
      [s3, s2, s1, s0] [t3, t2, t1, t0]) < 65536 := by
    rw [tcp_adjust_checksum_11]
    exact Nat.mod_lt _ (by decide)
  have hsum : sumBe16 [s3, s2, s1, s0, t3, t2, t1, t0] =
      sumBe16 [s3, s2, s1, s0] + sumBe16 [t3, t2, t1, t0] := by
    simp only [sumBe16]
    omega
  have htcp := tcp_check_bytes
    [p1, p0, r1, r0, q3, q2, q1, q0, a3, a2, a1, a0, 80, 20, 0, 0, 0, 0, 0, 0]
    [s3, s2, s1, s0] [t3, t2, t1, t0] (by simp only [sumBe16]; omega)
    (by simp only [sumBe16]; omega) (by simp only [sumBe16]; omega) rfl rfl rfl
  simp only [openvpn, be16, u8, IPv4Header.check, TCPHeader.check, putBe16, put8,
    List.getD_cons_succ, List.getD_cons_zero, List.set_cons_succ, List.set_cons_zero,
    List.take_succ_cons, List.take_zero, List.drop_succ_cons, List.drop_zero,
    Nat.reduceAdd, Nat.mod_mod, Nat.zero_div, Nat.zero_mod]
  rw [hsum]
  generalize tcp_adjust_checksum 11 (udp_checksum
      [p1, p0, r1, r0, q3, q2, q1, q0, a3, a2, a1, a0, 80, 20, 0, 0, 0, 0, 0, 0] 20
      [s3, s2, s1, s0] [t3, t2, t1, t0]) = k at htcp hk ⊢
  have hbe : k / 256 % 256 * 256 + k % 256 = k := by omega
  have hall : sumBe16 [p1, p0, r1, r0, q3, q2, q1, q0, a3, a2, a1, a0, 80, 20, 0, 0,
      k / 256 % 256, k % 256, 0, 0] =
      sumBe16 [p1, p0, r1, r0, q3, q2, q1, q0, a3, a2, a1, a0, 80, 20, 0, 0, 0, 0, 0, 0] +
        k := by
    simp only [sumBe16]
    omega
  have hbound : sumBe16 [s3, s2, s1, s0] + sumBe16 [t3, t2, t1, t0] + IPCommon.TCP + 20 +
      sumBe16 [p1, p0, r1, r0, q3, q2, q1, q0, a3, a2, a1, a0, 80, 20, 0, 0, 0, 0, 0, 0] ≤
        1000000 := by
    simp only [sumBe16, IPCommon.TCP]
    omega
  rw [hbe, hall, ← Nat.add_assoc]
  exact ⟨hip, htcp.1, htcp.2, fold16_verify _ k hbound (by unfold IPCommon.TCP; omega) htcp⟩

/-- C21, as stated, fails for the reset that answers the SYN of 10.0.0.5:50000 to
93.184.216.34:80 with sequence number 44111: the TCP checksum recomputed from scratch is
0x0000, the packet stores 0xFFFF. -/
theorem reset_checksums_counterexample :
    TCPHeader.check (Reset openvpn ⟨1572395042, 80⟩ ⟨167772165, 50000⟩ 0 44112) = 0 ∧
    be16 (Reset openvpn ⟨1572395042, 80⟩ ⟨167772165, 50000⟩ 0 44112) 36 = 65535 := by
  decide

/-! ## The Chainlink median -/

section Chainlink

variable {α : Type} [LinearOrder α]

theorem emplace_perm (m : Multimap α) (key : α) (value : Nat) :
    List.Perm (m.emplace key value) ((key, value) :: m) := by
  induction m with
  | nil => exact List.Perm.refl _
  | cons x rest ih =>
    obtain ⟨k, v⟩ := x
    unfold Multimap.emplace
    split_ifs with h
    · exact List.Perm.refl _
    · exact (List.Perm.cons _ ih).trans (List.Perm.swap _ _ _)

theorem emplace_sorted (m : Multimap α) (key : α) (value : Nat)
    (h : m.Pairwise (fun a b => a.1 ≤ b.1)) :
    (m.emplace key value).Pairwise (fun a b => a.1 ≤ b.1) := by
  induction m with
  | nil => exact List.pairwise_singleton _ _
  | cons x rest ih =>
    obtain ⟨k, v⟩ := x
    obtain ⟨hx, hrest⟩ := List.pairwise_cons.mp h
    unfold Multimap.emplace
    split_ifs with hlt
    · refine List.pairwise_cons.mpr ⟨?_, h⟩
      intro b hb
      rcases List.mem_cons.mp hb with rfl | hb
      · exact le_of_lt hlt
      · exact le_trans (le_of_lt hlt) (hx b hb)
    · refine List.pairwise_cons.mpr ⟨?_, ih hrest⟩
      intro b hb
      rcases List.mem_cons.mp ((emplace_perm rest key value).mem_iff.mp hb) with rfl | hb
      · exact not_lt.mp hlt
      · exact hx b hb

/-- The first loop, when no stake is missing: it adds the stakes up and puts the pairs in
order of cost. -/
theorem gather_staked (stakes_ : Map String Stake) :
    ∀ (rest : List (String × Option (Report α))) (total : Nat) (providers : Multimap α),
      (∀ p ∈ rest, Chainlink.known stakes_ p = true) →
      total < 2 ^ 256 → providers.Pairwise (fun a b => a.1 ≤ b.1) →
      ∃ sorted, Chainlink.gather stakes_ rest total providers =
          some ((total + ((rest.filterMap (Chainlink.pair stakes_)).map Prod.snd).sum) % 2 ^ 256
            , sorted) ∧
        sorted.Pairwise (fun a b => a.1 ≤ b.1) ∧
        List.Perm sorted (providers ++ rest.filterMap (Chainlink.pair stakes_)) := by
  intro rest
  induction rest with
  | nil =>
    intro total providers _ ht hp
    refine ⟨providers, ?_, hp, by simp⟩
    rw [List.filterMap_nil, List.map_nil, List.sum_nil, Nat.add_zero, Nat.mod_eq_of_lt ht]
    rfl
  | cons x rest ih =>
    intro total providers hall ht hp
    have hrest : ∀ p ∈ rest, Chainlink.known stakes_ p = true :=
      fun p h => hall p (List.mem_cons_of_mem _ h)
    obtain ⟨name, report⟩ := x
    cases report with
    | none =>
      have hpair : Chainlink.pair stakes_ (name, (none : Option (Report α))) = none := rfl
      rw [List.filterMap_cons_none hpair]
      exact ih total providers hrest ht hp
    | some report =>
      obtain ⟨stakee, cost⟩ := report
      cases cost with
      | none =>
        have hpair : Chainlink.pair stakes_ (name, some (⟨stakee, none⟩ : Report α)) = none :=
          rfl
        rw [List.filterMap_cons_none hpair]
        exact ih total providers hrest ht hp
      | some cost =>
        cases hfind : stakes_.find stakee with
        | none =>
          have hk := hall _ (List.mem_cons_self _ _)
          simp [Chainlink.known, hfind] at hk
        | some stake =>
          have hpair : Chainlink.pair stakes_ (name, some (⟨stakee, some cost⟩ : Report α)) =
              some (cost, stake.amount_) := by
            simp [Chainlink.pair, hfind]
          rw [List.filterMap_cons_some hpair]
          obtain ⟨sorted, h1, h2, h3⟩ := ih ((total + stake.amount_) % 2 ^ 256)
            (providers.emplace cost stake.amount_) hrest (Nat.mod_lt _ (by positivity))
            (emplace_sorted providers cost stake.amount_ hp)
          refine ⟨sorted, ?_, h2, ?_⟩
          · simp only [Chainlink.gather, hfind]
            rw [h1, Nat.mod_add_mod, List.map_cons, List.sum_cons, Nat.add_assoc]
          · refine h3.trans ?_
            refine ((emplace_perm providers cost stake.amount_).append_right _).trans ?_
            exact (List.perm_middle).symm

theorem weight_perm {P Q : List (α × Nat)} (h : List.Perm P Q) (c : α) :
    Chainlink.weight P c = Chainlink.weight Q c := by
  unfold Chainlink.weight
  exact ((h.filter _).map _).sum_eq

theorem weight_cons_le (c0 : α) (s0 : Nat) (rest : List (α × Nat)) (c : α) (h : c0 ≤ c) :
    Chainlink.weight ((c0, s0) :: rest) c = s0 + Chainlink.weight rest c := by
  unfold Chainlink.weight
  simp [List.filter_cons, h]

theorem weight_cons_lt (c0 : α) (s0 : Nat) (rest : List (α × Nat)) (c : α) (h : c < c0)
    (hs : ∀ b ∈ rest, c0 ≤ b.1) :
    Chainlink.weight ((c0, s0) :: rest) c = 0 := by
  unfold Chainlink.weight
  have : ((c0, s0) :: rest).filter (fun p => decide (p.1 ≤ c)) = [] := by
    rw [List.filter_eq_nil_iff]
    intro b hb
    rcases List.mem_cons.mp hb with rfl | hb
    · simpa using h
    · simpa using lt_of_lt_of_le h (hs b hb)
  rw [this]
  rfl

theorem weight_le_sum (P : List (α × Nat)) (c : α) :
    Chainlink.weight P c ≤ (P.map Prod.snd).sum := by
  unfold Chainlink.weight
  exact List.Sublist.sum_le_sum ((List.filter_sublist P).map _) (fun _ _ => Nat.zero_le _)

/-- The second loop on pairs in order of cost, for a positive `total` that is at most the
sum of the stakes. -/
theorem pick_sorted : ∀ (L : List (α × Nat)) (total : Nat),
    L.Pairwise (fun a b => a.1 ≤ b.1) → 0 < total → total ≤ (L.map Prod.snd).sum →
    ∃ c, Chainlink.pick L total = some c ∧ c ∈ L.map Prod.fst ∧
      total ≤ Chainlink.weight L c ∧ ∀ d, total ≤ Chainlink.weight L d → c ≤ d := by
  intro L
  induction L with
  | nil =>
    intro total _ h0 hsum
    simp at hsum
    omega
  | cons x rest ih =>
    intro total hp h0 hsum
    obtain ⟨c0, s0⟩ := x
    obtain ⟨hx, hrest⟩ := List.pairwise_cons.mp hp
    have hlow : ∀ d, total ≤ Chainlink.weight ((c0, s0) :: rest) d → c0 ≤ d := by
      intro d hd
      by_contra hlt
      rw [weight_cons_lt c0 s0 rest d (not_le.mp hlt) hx] at hd
      omega
    rw [List.map_cons, List.sum_cons] at hsum
    unfold Chainlink.pick
    split_ifs with hle
    · refine ⟨c0, rfl, by simp, ?_, hlow⟩
      rw [weight_cons_le c0 s0 rest c0 le_rfl]
      exact le_trans hle (Nat.le_add_right _ _)
    · obtain ⟨c, h1, h2, h3, h4⟩ := ih (total - s0) hrest (by omega) (by omega)
      have hc : c0 ≤ c := by
        obtain ⟨b, hb, hbc⟩ := List.mem_map.mp h2
        exact hbc ▸ hx b hb
      refine ⟨c, h1, by simp [h2], ?_, ?_⟩
      · rw [weight_cons_le c0 s0 rest c hc]
        omega
      · intro d hd
        have hd0 := hlow d hd
        rw [weight_cons_le c0 s0 rest d hd0] at hd
        exact h4 d (by omega)

/-- The handler on a state in which no stake is missing and the stakes do not overflow:
what its two loops come to. -/
theorem handler_staked (state : State α) (hstaked : Chainlink.Staked state)
    (hsum : ((Chainlink.P state).map Prod.snd).sum < 2 ^ 256) :
    ∃ sorted : List (α × Nat), sorted.Pairwise (fun a b => a.1 ≤ b.1) ∧
      List.Perm sorted (Chainlink.P state) ∧
      Chainlink.handler state =
        match Chainlink.pick sorted (((Chainlink.P state).map Prod.snd).sum / 2) with
        | some cost => .responded cost
        | none => .no_cost := by
  obtain ⟨sorted, hg, hs, hperm⟩ := gather_staked state.stakes_ state.providers_ 0 []
    hstaked (by positivity) List.Pairwise.nil
  rw [Nat.zero_add] at hg
  rw [List.nil_append] at hperm
  refine ⟨sorted, hs, hperm, ?_⟩
  unfold Chainlink.handler
  rw [hg]
  show (match Chainlink.pick sorted
    (((state.providers_.filterMap (Chainlink.pair state.stakes_)).map Prod.snd).sum %
      2 ^ 256 / 2) with
    | some cost => Chainlinked.responded cost
    | none => Chainlinked.no_cost) = _
  have hsum2 : ((state.providers_.filterMap (Chainlink.pair state.stakes_)).map Prod.snd).sum <
      2 ^ 256 := hsum
  rw [Nat.mod_eq_of_lt hsum2]
  rfl

/-- C28 (amended): the `/chainlink/0` handler computes a stake-weighted median. Let `P` be
the `(cost, stake)` pairs of all providers whose report succeeded with a cost and whose
stakee is in the stake table, and `H = floor(sum of the stakes in P / 2)`. When every
provider whose report succeeded with a cost has its stakee in the stake table and the
stakes in `P` sum to less than `2^256`: for every non-empty `P` the handler never reaches
its final assertion and returns the smallest cost `c` occurring in `P` such that the total
stake of the pairs with cost at most `c` is at least `H`; for empty `P` it fails at its
final assertion. -/
theorem chainlink_median (state : State α) (hstaked : Chainlink.Staked state)
    (hsum : ((Chainlink.P state).map Prod.snd).sum < 2 ^ 256) :
    (Chainlink.P state = [] → Chainlink.handler state = .no_cost) ∧
    (Chainlink.P state ≠ [] →
      ∃ c, Chainlink.handler state = .responded c ∧
        c ∈ (Chainlink.P state).map Prod.fst ∧
        ((Chainlink.P state).map Prod.snd).sum / 2 ≤ Chainlink.weight (Chainlink.P state) c ∧
        ∀ d ∈ (Chainlink.P state).map Prod.fst,
          ((Chainlink.P state).map Prod.snd).sum / 2 ≤ Chainlink.weight (Chainlink.P state) d →
            c ≤ d) := by
  obtain ⟨sorted, hs, hperm, hh⟩ := handler_staked state hstaked hsum
  constructor
  · intro hP
    rw [hP] at hperm
    rw [hh, List.Perm.eq_nil hperm]
    rfl
  · intro hP
    have hfst : ∀ d, d ∈ sorted.map Prod.fst ↔ d ∈ (Chainlink.P state).map Prod.fst :=
      fun d => (hperm.map Prod.fst).mem_iff
    have hsnd : (sorted.map Prod.snd).sum = ((Chainlink.P state).map Prod.snd).sum :=
      (hperm.map Prod.snd).sum_eq
    by_cases h0 : ((Chainlink.P state).map Prod.snd).sum / 2 = 0
    · cases hsorted : sorted with
      | nil =>
        rw [hsorted] at hperm
        exact absurd (List.Perm.eq_nil hperm.symm) hP
      | cons x rest =>
        obtain ⟨c0, s0⟩ := x
        rw [hsorted] at hs hfst
        refine ⟨c0, ?_, (hfst c0).mp (by simp), by rw [h0]; exact Nat.zero_le _, ?_⟩
        · have hpick : Chainlink.pick ((c0, s0) :: rest) 0 = some c0 := by
            unfold Chainlink.pick
            rw [if_pos (Nat.zero_le _)]
          rw [hh, hsorted, h0, hpick]
        · intro d hd _
          rcases List.mem_cons.mp ((hfst d).mpr hd) with rfl | hd
          · exact le_rfl
          · obtain ⟨b, hb, hbd⟩ := List.mem_map.mp hd
            exact hbd ▸ (List.pairwise_cons.mp hs).1 b hb
    · obtain ⟨c, h1, h2, h3, h4⟩ := pick_sorted sorted
        (((Chainlink.P state).map Prod.snd).sum / 2) hs (Nat.pos_of_ne_zero h0)
        (by rw [hsnd]; exact Nat.div_le_self _ _)
      refine ⟨c, ?_, (hfst c).mp h2, by rw [← weight_perm hperm]; exact h3, ?_⟩
      · rw [hh, h1]
      · intro d _ hd
        exact h4 d (by rw [weight_perm hperm]; exact hd)

end Chainlink

/-- C28, as stated, fails when a provider with a cost is not in the stake table: `P` is not
empty, it holds the pair of the first provider, and the handler stops at the assertion on
the stake of the second. -/
theorem chainlink_median_counterexample :
    Chainlink.P unstaked = [(5, 10)] ∧ Chainlink.handler unstaked = .no_stake := by
  decide

/-- C28 at four providers with the stakes 10, 4 and 6 on the costs 7, 5 and 9: half of the
stake is 10, and the handler responds with 7. -/
theorem chainlink_median_witness :
    Chainlink.P staked = [(7, 10), (5, 4), (9, 6)] ∧
    ∃ c, Chainlink.handler staked = .responded c ∧
      c ∈ (Chainlink.P staked).map Prod.fst ∧
      ((Chainlink.P staked).map Prod.snd).sum / 2 ≤ Chainlink.weight (Chainlink.P staked) c ∧
      ∀ d ∈ (Chainlink.P staked).map Prod.fst,
        ((Chainlink.P staked).map Prod.snd).sum / 2 ≤ Chainlink.weight (Chainlink.P staked) d →
          c ≤ d :=
  ⟨by decide, (chainlink_median staked (by decide) (by decide)).2 (by decide)⟩

end Orchid
